import Mathlib

/-!
# twinx: RTMP address parsing, command dispatch and chunk framing

A shallow embedding of `rtmp/rtmp_addr.go` and `rtmp/server_conn.go`, with
the chunk codec exercised by `rtmp/core_test.go`, and of the relay control of
`activestreamer_server_linux.go`.

Go strings are modelled as lists of characters.  Every separator the code
looks for (`/`, `:`, `#`, `?`, `%`, `@`, `[`, `]`) is ASCII, so splitting a
UTF-8 string at these characters gives the same pieces byte-wise and
character-wise.
-/

namespace Twinx

/-- Go `string`, as a list of characters. -/
abbrev Str := List Char

/-! ## `strings` helpers -/

/-- Go `strings.HasPrefix`. -/
def hasPrefix : Str → Str → Bool
  | _, [] => true
  | [], _ :: _ => false
  | c :: s, p :: ps => c == p && hasPrefix s ps

/-- Go `strings.Contains`. -/
def contains : Str → Str → Bool
  | [], sub => sub.isEmpty
  | c :: s, sub => hasPrefix (c :: s) sub || contains s sub

/-- Go `strings.Replace(s, old, new, 1)` for a non-empty `old`: the first
occurrence of `old`, scanning from the left, is replaced by `new`. -/
def replaceFirst (old new : Str) : Str → Str
  | [] => []
  | c :: s =>
    if hasPrefix (c :: s) old then new ++ (c :: s).drop old.length
    else c :: replaceFirst old new s

/-- Go `strings.Split(s, sep)` for a one-character separator. The result is
never empty: a string without the separator is returned as its only piece. -/
def split (sep : Char) : Str → List Str
  | [] => [[]]
  | c :: s =>
    if c = sep then [] :: split sep s
    else
      match split sep s with
      | [] => [[c]]
      | p :: ps => (c :: p) :: ps

/-- Go `strings.Cut(s, sep)` for a one-character separator: the text before
the first separator and the text after it (empty when there is none). -/
def cut (sep : Char) : Str → Str × Str
  | [] => ([], [])
  | c :: s =>
    if c = sep then ([], s)
    else (c :: (cut sep s).1, (cut sep s).2)

/-- Go `strings.LastIndex(s, sep) >= 0` together with the text after the last
separator, for a one-character separator: `none` when `sep` does not occur,
else the text before the last occurrence and the text from it on. -/
def cutLast (sep : Char) : Str → Option (Str × Str)
  | [] => none
  | c :: s =>
    match cutLast sep s with
    | some (a, b) => some (c :: a, b)
    | none => if c = sep then some ([], c :: s) else none

/-! ## `net/url`: the part of `url.Parse` that decides acceptance and scheme

`NewAddr` reads two things from `url.Parse`: whether it returned an error, and
`url.Scheme`. The definitions below follow the Go standard library
(`net/url`, `Parse`, `parse`, `getScheme`, `parseAuthority`, `parseHost`,
`unescape`, `shouldEscape`) for those two results; the decoded path, host and
query are not kept. -/

/-- ASCII letter test used by `getScheme`. -/
def isAlpha (c : Char) : Bool :=
  ('a' ≤ c && c ≤ 'z') || ('A' ≤ c && c ≤ 'Z')

/-- ASCII digit test. -/
def isDigit (c : Char) : Bool := '0' ≤ c && c ≤ '9'

/-- Go `ishex`. -/
def ishex (c : Char) : Bool :=
  isDigit c || ('a' ≤ c && c ≤ 'f') || ('A' ≤ c && c ≤ 'F')

/-- Go `stringContainsCTLByte`: a byte below space, or DEL. -/
def stringContainsCTLByte (s : Str) : Bool :=
  s.any fun c => c < ' ' || c = '\x7f'

/-- Loop of Go `getScheme`, at position `i > 0` when `atStart` is false.
`acc` is the text already scanned, reversed; the result is the scheme and the
rest, or `none` for "missing protocol scheme". -/
def getSchemeLoop (raw : Str) (atStart : Bool) (acc : Str) : Str → Option (Str × Str)
  | [] => some ([], raw)
  | c :: s =>
    if isAlpha c then getSchemeLoop raw false (c :: acc) s
    else if isDigit c || c = '+' || c = '-' || c = '.' then
      if atStart then some ([], raw) else getSchemeLoop raw false (c :: acc) s
    else if c = ':' then
      if atStart then none else some (acc.reverse, s)
    else some ([], raw)

/-- Go `getScheme`: `(scheme, rest)`, or `none` when the text starts with a
colon ("missing protocol scheme"). -/
def getScheme (raw : Str) : Option (Str × Str) :=
  getSchemeLoop raw true [] raw

/-- Go `strings.ToLower` on the ASCII text of a scheme. -/
def toLower (s : Str) : Str := s.map Char.toLower

/-- The escaping modes of `net/url` that `Parse` uses. -/
inductive Encoding
  | encodePath
  | encodeUserPassword
  | encodeHost
  | encodeZone
  | encodeFragment
  deriving DecidableEq, Repr

/-- Go `shouldEscape(c, mode)` restricted to the host and zone modes, the
only modes in which `unescape` consults it. -/
def shouldEscapeHost (c : Char) : Bool :=
  if isAlpha c || isDigit c then false
  else if c ∈ ['!', '$', '&', '\'', '(', ')', '*', '+', ',', ';', '=', ':', '[', ']', '<', '>', '"'] then false
  else if c ∈ ['-', '_', '.', '~'] then false
  else true

/-- Go `unhex`. -/
def unhex (c : Char) : Nat :=
  if isDigit c then c.toNat - '0'.toNat
  else if 'a' ≤ c && c ≤ 'f' then c.toNat - 'a'.toNat + 10
  else if 'A' ≤ c && c ≤ 'F' then c.toNat - 'A'.toNat + 10
  else 0

/-- The validation pass of Go `unescape(s, mode)`: `true` when no error is
returned. -/
def unescapeOk (mode : Encoding) : Str → Bool
  | [] => true
  | c :: rest =>
    if c = '%' then
      match rest with
      | a :: b :: rest2 =>
        if !ishex a || !ishex b then false
        else if mode = .encodeHost && unhex a < 8 && !(a = '2' && b = '5') then false
        else if mode = .encodeZone && !(a = '2' && b = '5')
            && unhex a * 16 + unhex b ≠ 32
            && shouldEscapeHost (Char.ofNat (unhex a * 16 + unhex b)) then false
        else unescapeOk mode rest2
      | _ => false
    else if (mode = .encodeHost || mode = .encodeZone) && c.toNat < 128 && shouldEscapeHost c then false
    else unescapeOk mode rest

/-- Go `validOptionalPort`: empty, or a colon followed by digits only. -/
def validOptionalPort : Str → Bool
  | [] => true
  | c :: s => c = ':' && s.all isDigit

/-- Go `validUserinfo`. -/
def validUserinfo (s : Str) : Bool :=
  s.all fun r => isAlpha r || isDigit r ||
    r ∈ ['-', '.', '_', ':', '~', '!', '$', '&', '\'', '(', ')', '*', '+', ',', ';', '=', '%', '@']

/-- Position of the first `%25` in `s`, Go `strings.Index(s, "%25")`. -/
def indexZone : Str → Option Nat
  | [] => none
  | c :: s =>
    if hasPrefix (c :: s) ['%', '2', '5'] then some 0
    else (indexZone s).map (· + 1)

/-- Go `parseHost`, as the test "no error is returned". -/
def parseHostOk (host : Str) : Bool :=
  if hasPrefix host ['['] then
    match cutLast ']' host with
    | none => false
    | some (pre, fromBracket) =>
      if !validOptionalPort (fromBracket.drop 1) then false
      else
        match indexZone pre with
        | some z =>
          unescapeOk .encodeHost (pre.take z) && unescapeOk .encodeZone (pre.drop z)
            && unescapeOk .encodeHost fromBracket
        | none => unescapeOk .encodeHost host
  else
    match cutLast ':' host with
    | some (_, colonPort) =>
      if !validOptionalPort colonPort then false else unescapeOk .encodeHost host
    | none => unescapeOk .encodeHost host

/-- Go `parseAuthority`, as the test "no error is returned". -/
def parseAuthorityOk (authority : Str) : Bool :=
  match cutLast '@' authority with
  | none => parseHostOk authority
  | some (userinfo, atHost) =>
    parseHostOk (atHost.drop 1) && validUserinfo userinfo &&
      (if !contains userinfo [':'] then unescapeOk .encodeUserPassword userinfo
       else unescapeOk .encodeUserPassword (cut ':' userinfo).1
         && unescapeOk .encodeUserPassword (cut ':' userinfo).2)

/-- The query is cut off `rest` in Go `parse`: a single trailing `?` is
dropped, otherwise the text before the first `?` is kept. -/
def stripQuery (rest : Str) : Str :=
  if rest.getLast? = some '?' && rest.count '?' = 1 then rest.dropLast
  else (cut '?' rest).1

/-- Go `url.parse(rawURL, false)`: the lower-cased scheme of an accepted URL,
or the error text. -/
def parse (rawURL : Str) : Except String Str :=
  if stringContainsCTLByte rawURL then
    .error "net/url: invalid control character in URL"
  else if rawURL = ['*'] then .ok []
  else
    match getScheme rawURL with
    | none => .error "missing protocol scheme"
    | some (scheme0, rest0) =>
      let scheme := toLower scheme0
      let rest := stripQuery rest0
      if !hasPrefix rest ['/'] && !scheme.isEmpty then .ok scheme
      else if !hasPrefix rest ['/'] && contains (cut '/' rest).1 [':'] then
        .error "first path segment in URL cannot contain colon"
      else if (!scheme.isEmpty || !hasPrefix rest ['/', '/', '/']) && hasPrefix rest ['/', '/'] then
        let authority := (cut '/' (rest.drop 2)).1
        let path := (rest.drop 2).drop authority.length
        if !parseAuthorityOk authority then .error "invalid authority"
        else if !unescapeOk .encodePath path then .error "invalid URL escape"
        else .ok scheme
      else if !unescapeOk .encodePath rest then .error "invalid URL escape"
      else .ok scheme

/-- Go `url.Parse`: the fragment after the first `#` is cut off and checked
separately. Returns `url.Scheme` of the parsed URL, the only field `NewAddr`
reads. -/
def urlParse (rawURL : Str) : Except String Str :=
  match parse (cut '#' rawURL).1 with
  | .error e => .error e
  | .ok scheme =>
    if (cut '#' rawURL).2.isEmpty then .ok scheme
    else if !unescapeOk .encodeFragment (cut '#' rawURL).2 then .error "invalid URL escape"
    else .ok scheme

/-! ## `rtmp/rtmp_addr.go` -/

/-- The package constants `NewAddr` and `generateKey` read. Their
declarations are outside the translated sources, so they are parameters. -/
structure Defaults where
  DefaultLocalHost : Str
  DefaultLocalPort : Str
  DefaultScheme : Str
  DefaultRTMPApp : Str
  DefaultGenerateKeyPrefix : Str
  DefaultGenerateKeyLength : Nat
  letterBytePool : Str
  /-- The pool is a non-empty string constant, so `rand.Intn(len(letterBytePool))`
  has a positive bound. -/
  pool_ne : letterBytePool ≠ []

/-- Go `Addr`. -/
structure Addr where
  raw : Str
  scheme : Str
  host : Str
  app : Str
  key : Str
  deriving DecidableEq, Repr

/-- Go `generateKey`. `rnd i` is the value the random source hands out at the
`i`-th draw; `rand.Intn(n)` is that value reduced into `[0, n)`. -/
def generateKey (d : Defaults) (rnd : Nat → Nat) : Str :=
  d.DefaultGenerateKeyPrefix ++
    (List.range d.DefaultGenerateKeyLength).map fun i =>
      d.letterBytePool.getD (rnd i % d.letterBytePool.length) 'A'

/-- The `host`, `app`, `key` assignments of `NewAddr` from `path`, before
defaulting; `none` is the "too many slashes" error. -/
def splitPath (d : Defaults) (path : Str) : Option (Str × Str × Str) :=
  if contains path ['/'] then
    match split '/' path with
    | [h, a, k] => some (h, a, k)
    | [h, a] => some (h, a, [])
    | [h] => some (h, [], [])
    | [] => some ([], [], [])
    | _ :: _ :: _ :: _ :: _ => none
  else if contains path [':'] then
    match split ':' path with
    | [s0, s1] =>
      let s0 := if s0.length = 0 then d.DefaultLocalHost else s0
      let s0 := if s1.length = 0 then d.DefaultLocalPort else s0
      some (s0 ++ [':'] ++ s1, [], [])
    | _ => some ([], [], [])
  else some ([], [], [])

/-- Go `NewAddr`. -/
def NewAddr (d : Defaults) (rnd : Nat → Nat) (raw : Str) : Except String Addr :=
  match urlParse raw with
  | .error e => .error ("unable to url.Parse raw rtmp string: " ++ e)
  | .ok urlScheme =>
    let scheme : Str := if urlScheme.length = 4 then urlScheme else []
    let path := replaceFirst (scheme ++ [':', '/', '/']) [] raw
    match splitPath d path with
    | none => .error "too many slashes"
    | some (host, app, key) =>
      .ok {
        raw := raw
        scheme := if scheme = [] then d.DefaultScheme else scheme
        host := if host = [] then d.DefaultLocalHost ++ [':'] ++ d.DefaultLocalPort else host
        app := if app = [] then d.DefaultRTMPApp else app
        key := if key = [] then generateKey d rnd else key }

/-- Go `(*Addr).Host`. -/
def Addr.Host (a : Addr) : Str := a.host

/-- Go `(*Addr).Scheme`. -/
def Addr.Scheme (a : Addr) : Str := a.scheme

/-- Go `(*Addr).Key`. -/
def Addr.Key (a : Addr) : Str := a.key

/-- Go `(*Addr).App`. -/
def Addr.App (a : Addr) : Str := a.app

/-- Go `(*Addr).StreamURL`. -/
def Addr.StreamURL (a : Addr) : Str :=
  a.scheme ++ [':', '/', '/'] ++ a.host ++ ['/'] ++ a.app ++ ['/'] ++ a.key

/-- The constants with the values the address documentation names
(`localhost:1935`). -/
def stdDefaults : Defaults where
  DefaultLocalHost := "localhost".toList
  DefaultLocalPort := "1935".toList
  DefaultScheme := "rtmp".toList
  DefaultRTMPApp := "twinx".toList
  DefaultGenerateKeyPrefix := "twinx_".toList
  DefaultGenerateKeyLength := 20
  letterBytePool := "abcdefghijklmnopqrstuvwxyzABCDEFGHIJKLMNOPQRSTUVWXYZ".toList
  pool_ne := by decide

/-- The text `s://h/a/k`. -/
def fullURL (s h a k : Str) : Str :=
  s ++ [':', '/', '/'] ++ h ++ ['/'] ++ a ++ ['/'] ++ k

/-- The `path` variable of `NewAddr` (line 82), as the code computes it:
`strings.Replace(raw, scheme + "://", "", 1)` removes the first occurrence of
`scheme://` wherever it stands in `raw`, not only a leading one, and `scheme`
is the four-letter scheme `url.Parse` found, or empty. -/
def pathOf (raw : Str) : Str :=
  match urlParse raw with
  | .ok u => replaceFirst ((if u.length = 4 then u else []) ++ [':', '/', '/']) [] raw
  | .error _ => replaceFirst [':', '/', '/'] [] raw

/-- The path part in the words of the specification, not of the code: `raw`
with the leading `scheme://` removed. A leading scheme is a non-empty scheme
at the start of the text, as Go `getScheme` finds it, followed by `://`; a
text that does not start with one is its own path part. -/
def claimedPathPart (raw : Str) : Str :=
  match getScheme raw with
  | some (s, rest) => if s ≠ [] ∧ hasPrefix rest ['/', '/'] = true then rest.drop 2 else raw
  | none => raw

/-! ## Bytes and the chunk stream record -/

/-- The `n` low bytes of `v`, most significant first: what
`WriteUintBE(v, n)` puts on the wire. -/
def uintBE (v : Nat) : Nat → List Nat
  | 0 => []
  | n + 1 => (v / 256 ^ n % 256) :: uintBE v n

/-- The `n` low bytes of `v`, least significant first: what
`WriteUintLE(v, n)` puts on the wire. -/
def uintLE (v : Nat) : Nat → List Nat
  | 0 => []
  | n + 1 => (v % 256) :: uintLE (v / 256) n

/-- Value of a big-endian byte string, with `acc` the value read so far. -/
def beValue (acc : Nat) : List Nat → Nat
  | [] => acc
  | b :: bs => beValue (acc * 256 + b) bs

/-- Value of a little-endian byte string. -/
def leValue : List Nat → Nat
  | [] => 0
  | b :: bs => b + 256 * leValue bs

/-- Reads `n` bytes as a big-endian number, `ReadUintBE(n)`; `none` when the
input is too short. -/
def readUintBE (n : Nat) (input : List Nat) : Option (Nat × List Nat) :=
  if input.length < n then none else some (beValue 0 (input.take n), input.drop n)

/-- Reads `n` bytes as a little-endian number, `ReadUintLE(n)`; `none` when
the input is too short. -/
def readUintLE (n : Nat) (input : List Nat) : Option (Nat × List Nat) :=
  if input.length < n then none else some (leValue (input.take n), input.drop n)

/-- Go `binary.BigEndian.Uint32(b)`: `none` stands for the index-out-of-range
failure on a slice shorter than four bytes. -/
def bigEndianUint32 (b : List Nat) : Option Nat :=
  if b.length < 4 then none else some (beValue 0 (b.take 4))

/-- A value produced by the AMF decoder (`interface{}` in Go); only whether it
is a string matters to the command router. -/
inductive AMFValue
  | string (s : Str)
  | other (tag : Nat)
  deriving DecidableEq, Repr

/-- Go `ChunkStream`, with the fields the sources and the chunk tests use.
`Data` is a list of bytes (numbers below 256). -/
structure ChunkStream where
  Format : Nat
  CSID : Nat
  Timestamp : Nat
  Length : Nat
  TypeID : Nat
  StreamID : Nat
  exited : Bool
  remain : Nat
  tmpFormat : Nat
  Data : List Nat
  batchedValues : List AMFValue
  deriving DecidableEq, Repr

/-- The zero value `ChunkStream{}`. -/
def ChunkStream.zero : ChunkStream :=
  { Format := 0, CSID := 0, Timestamp := 0, Length := 0, TypeID := 0, StreamID := 0,
    exited := false, remain := 0, tmpFormat := 0, Data := [], batchedValues := [] }

/-! ## Chunk codec -/

/-- Modelled from the spec: the basic header of a chunk, the format in the
top two bits and the chunk-stream-id in the low six, extended by one byte from
64 on and by two bytes from 320 on. -/
def basicHeader (fmt csid : Nat) : List Nat :=
  if csid < 64 then [fmt * 64 + csid]
  else if csid - 64 < 256 then [fmt * 64, csid - 64]
  else [fmt * 64 + 1] ++ uintLE (csid - 64) 2

/-- Modelled from the spec: the message header of format `fmt`: 11 bytes for
format 0 (timestamp, length, type, little-endian stream id), 7 for format 1,
3 for format 2, none for format 3. A timestamp above `0xFFFFFF` is written as
`0xFFFFFF`. -/
def messageHeader (cs : ChunkStream) (fmt : Nat) : List Nat :=
  let ts := if cs.Timestamp > 0xffffff then 0xffffff else cs.Timestamp
  if fmt = 3 then []
  else if fmt = 2 then uintBE ts 3
  else if fmt = 1 then uintBE ts 3 ++ uintBE cs.Length 3 ++ uintBE cs.TypeID 1
  else uintBE ts 3 ++ uintBE cs.Length 3 ++ uintBE cs.TypeID 1 ++ uintLE cs.StreamID 4

/-- Modelled from the spec: the 4-byte absolute timestamp that follows the
header when the timestamp does not fit the 3-byte field. -/
def extendedTimestamp (cs : ChunkStream) : List Nat :=
  if cs.Timestamp ≥ 0xffffff then uintBE cs.Timestamp 4 else []

/-- Modelled from the spec: `writeHeader` is not in the translated sources.
The chunk header for format `fmt`: basic header, message header and extended
timestamp. -/
def writeHeader (cs : ChunkStream) (fmt : Nat) : List Nat :=
  basicHeader fmt cs.CSID ++ messageHeader cs fmt ++ extendedTimestamp cs

/-- Modelled from the spec: the body fragments of a write, each of the chunk
size but the last; from the second on, a fragment is preceded by a format-3
continuation header. `fuel` bounds the number of fragments. -/
def writeFragments (cs : ChunkStream) (chunkSize : Nat) : Nat → List Nat → List Nat
  | 0, _ => []
  | fuel + 1, data =>
    if data.length ≤ chunkSize then data
    else data.take chunkSize ++ writeHeader cs 3 ++ writeFragments cs chunkSize fuel (data.drop chunkSize)

/-- Modelled from the spec: `writeChunk` is not in the translated sources.
Emits one header chunk in the format of the message, then the payload in
fragments of at most `chunkSize` bytes with a continuation header before every
fragment after the first. A chunk size of zero cannot carry a payload and is
an error. -/
def writeChunk (cs : ChunkStream) (chunkSize : Nat) : Except String (List Nat) :=
  if chunkSize = 0 then .error "chunk size 0"
  else .ok (writeHeader cs cs.Format ++ writeFragments cs chunkSize cs.Data.length cs.Data)

/-- Modelled from the spec: the extended-timestamp rule of the chunk reader.
A 3-byte timestamp field of `0xFFFFFF` is followed by a 4-byte absolute
timestamp that replaces it. Returns the timestamp, the extended flag and the
remaining input. -/
def readExtended (ts : Nat) (input : List Nat) : Option (Nat × Bool × List Nat) :=
  if ts = 0xffffff then
    match readUintBE 4 input with
    | some (t, rest) => some (t, true, rest)
    | none => none
  else some (ts, false, input)

/-- Modelled from the spec: the body step of the chunk reader. At most
`chunkSize` of the bytes that remain are moved from the input to the message
buffer and `remain` decreases by that number (in `uint32`). -/
def readBody (cs : ChunkStream) (input : List Nat) (chunkSize : Nat) :
    Except String (ChunkStream × List Nat) :=
  let size := if cs.remain > chunkSize then chunkSize else cs.remain
  if input.length < size then .error "unexpected EOF"
  else .ok ({ cs with Data := cs.Data ++ input.take size,
                      remain := (cs.remain + 2 ^ 32 - size) % 2 ^ 32 }, input.drop size)

/-- Modelled from the spec: the message buffer is started afresh when a chunk
opens a message; all `Length` bytes remain to arrive. -/
def ChunkStream.new (cs : ChunkStream) : ChunkStream :=
  { cs with remain := cs.Length, Data := [] }

/-- Modelled from the spec: the first step of the chunk reader. The six-bit
chunk-stream-id of the first byte is extended by the following bytes when it
is 0 (one byte, plus 64) or 1 (two bytes little-endian, plus 64). -/
def readCSID (cs : ChunkStream) (input : List Nat) : Option (ChunkStream × List Nat) :=
  if cs.CSID = 0 then
    (readUintLE 1 input).map fun r => ({ cs with CSID := r.1 + 64 }, r.2)
  else if cs.CSID = 1 then
    (readUintLE 2 input).map fun r => ({ cs with CSID := r.1 + 64 }, r.2)
  else some (cs, input)

/-- Modelled from the spec: the message-header step of the chunk reader,
followed by the body step. Format 0 carries a 3-byte timestamp, a 3-byte
length, a 1-byte type and a 4-byte little-endian stream id; format 1 a
timestamp delta, length and type; format 2 a timestamp delta; a format-3 chunk
inherits every field, and the extended timestamp may be sent again and is
skipped when it is. -/
def readMessageHeader (cs : ChunkStream) (input : List Nat) (chunkSize : Nat) :
    Except String (ChunkStream × List Nat) :=
  if cs.tmpFormat = 0 then
    match readUintBE 3 input with
    | none => .error "unexpected EOF"
    | some (ts, i1) =>
    match readUintBE 3 i1 with
    | none => .error "unexpected EOF"
    | some (len, i2) =>
    match readUintBE 1 i2 with
    | none => .error "unexpected EOF"
    | some (ty, i3) =>
    match readUintLE 4 i3 with
    | none => .error "unexpected EOF"
    | some (sid, i4) =>
    match readExtended ts i4 with
    | none => .error "unexpected EOF"
    | some (t, ext, i5) =>
      readBody ({ cs with Format := 0, Timestamp := t, Length := len, TypeID := ty,
                          StreamID := sid, exited := ext }).new i5 chunkSize
  else if cs.tmpFormat = 1 then
    match readUintBE 3 input with
    | none => .error "unexpected EOF"
    | some (ts, i1) =>
    match readUintBE 3 i1 with
    | none => .error "unexpected EOF"
    | some (len, i2) =>
    match readUintBE 1 i2 with
    | none => .error "unexpected EOF"
    | some (ty, i3) =>
    match readExtended ts i3 with
    | none => .error "unexpected EOF"
    | some (delta, ext, i4) =>
      readBody ({ cs with Format := 1, Timestamp := (cs.Timestamp + delta) % 2 ^ 32,
                          Length := len, TypeID := ty, exited := ext }).new i4 chunkSize
  else if cs.tmpFormat = 2 then
    match readUintBE 3 input with
    | none => .error "unexpected EOF"
    | some (ts, i1) =>
    match readExtended ts i1 with
    | none => .error "unexpected EOF"
    | some (delta, ext, i2) =>
      readBody ({ cs with Format := 2, Timestamp := (cs.Timestamp + delta) % 2 ^ 32,
                          exited := ext }).new i2 chunkSize
  else if cs.tmpFormat = 3 then
    if cs.remain = 0 then
      if cs.exited then
        match readUintBE 4 input with
        | none => .error "unexpected EOF"
        | some (t, i1) => readBody ({ cs with Timestamp := t }).new i1 chunkSize
      else readBody cs.new input chunkSize
    else if cs.exited then
      match readUintBE 4 input with
      | none => .error "unexpected EOF"
      | some (t, i1) =>
        if t = cs.Timestamp then readBody cs i1 chunkSize else readBody cs input chunkSize
    else readBody cs input chunkSize
  else .error "invalid format"

/-- Modelled from the spec: `readChunk` is not in the translated sources.
The caller has read the first byte into `tmpFormat` and `CSID`; the
chunk-stream-id is completed, the message header of the format is read, and
the body step moves the next fragment into the message buffer. -/
def readChunk (cs : ChunkStream) (input : List Nat) (chunkSize : Nat) :
    Except String (ChunkStream × List Nat) :=
  match readCSID cs input with
  | none => .error "unexpected EOF"
  | some (cs1, rest) => readMessageHeader cs1 rest chunkSize

/-- One round of the read loop of `TestChunkRead1`: a byte is read and split
into `tmpFormat` (top two bits) and `CSID` (low six bits), then `readChunk`
runs. -/
def readStep (cs : ChunkStream) (input : List Nat) (chunkSize : Nat) :
    Except String (ChunkStream × List Nat) :=
  match readUintBE 1 input with
  | none => .error "unexpected EOF"
  | some (h, rest) =>
    readChunk { cs with tmpFormat := h / 64, CSID := h % 64 } rest chunkSize

/-- The read loop of `TestChunkRead1`: `readStep` is repeated until `remain`
is 0. The result carries, besides the final chunk stream and the unread input,
the value of `remain` after every chunk read. `none` when `fuel` rounds did not
complete the message. -/
def readLoop (chunkSize : Nat) : Nat → ChunkStream → List Nat →
    Option (Except String (ChunkStream × List Nat × List Nat))
  | 0, _, _ => none
  | fuel + 1, cs, input =>
    match readStep cs input chunkSize with
    | .error e => some (.error e)
    | .ok (cs1, rest) =>
      if cs1.remain = 0 then some (.ok (cs1, rest, [cs1.remain]))
      else
        match readLoop chunkSize fuel cs1 rest with
        | none => none
        | some (.error e) => some (.error e)
        | some (.ok (cs2, rest2, trace)) => some (.ok (cs2, rest2, cs1.remain :: trace))

/-! ## `rtmp/server_conn.go` -/

/-- Go `error` values, as far as the router tells them apart. -/
inductive GoError
  | EOF
  | TestableEOFError
  | other (msg : String)
  deriving DecidableEq, Repr

/-- Outcome of a Go call: it returns, or it stops with a run-time panic
(index or slice out of range, nil pointer dereference). -/
inductive Res (α : Type)
  | ret (a : α)
  | panic (msg : String)
  deriving Repr

/-- Go `amf.Version`. -/
inductive AMFVersion
  | AMF0
  | AMF3
  deriving DecidableEq, Repr

/-- The message-type and command-name constants that `Route` and
`routeCommand` switch on. Their declarations are outside the translated
sources, so they are parameters; the case constants of a Go `switch` are
pairwise distinct. -/
structure Proto where
  SetChunkSizeMessageID : Nat
  AbortMessageID : Nat
  AcknowledgementMessageID : Nat
  WindowAcknowledgementSizeMessageID : Nat
  SetPeerBandwidthMessageID : Nat
  UserControlMessageID : Nat
  CommandMessageAMF0ID : Nat
  CommandMessageAMF3ID : Nat
  DataMessageAMF0ID : Nat
  DataMessageAMF3ID : Nat
  SharedObjectMessageAMF0ID : Nat
  SharedObjectMessageAMF3ID : Nat
  AudioMessageID : Nat
  VideoMessageID : Nat
  AggregateMessageID : Nat
  CommandConnect : Str
  CommandCreateStream : Str
  CommandPublish : Str
  CommandPlay : Str
  ids_nodup : [SetChunkSizeMessageID, AbortMessageID, AcknowledgementMessageID,
    WindowAcknowledgementSizeMessageID, SetPeerBandwidthMessageID, UserControlMessageID,
    CommandMessageAMF0ID, CommandMessageAMF3ID, DataMessageAMF0ID, DataMessageAMF3ID,
    SharedObjectMessageAMF0ID, SharedObjectMessageAMF3ID, AudioMessageID, VideoMessageID,
    AggregateMessageID].Nodup
  names_nodup : [CommandConnect, CommandCreateStream, CommandPublish, CommandPlay].Nodup

/-- The message types `Route` has a case for. -/
def Proto.recognised (p : Proto) : List Nat :=
  [p.SetChunkSizeMessageID, p.AbortMessageID, p.AcknowledgementMessageID,
    p.WindowAcknowledgementSizeMessageID, p.SetPeerBandwidthMessageID, p.UserControlMessageID,
    p.CommandMessageAMF0ID, p.CommandMessageAMF3ID, p.DataMessageAMF0ID, p.DataMessageAMF3ID,
    p.SharedObjectMessageAMF0ID, p.SharedObjectMessageAMF3ID, p.AudioMessageID, p.VideoMessageID,
    p.AggregateMessageID]

/-- The recognised message types that `Route` only logs as unsupported. -/
def Proto.unsupported (p : Proto) : List Nat :=
  [p.AbortMessageID, p.AcknowledgementMessageID, p.SetPeerBandwidthMessageID,
    p.UserControlMessageID, p.SharedObjectMessageAMF0ID, p.SharedObjectMessageAMF3ID,
    p.AggregateMessageID]

/-- The command names `routeCommand` has a case for. -/
def Proto.commands (p : Proto) : List Str :=
  [p.CommandConnect, p.CommandCreateStream, p.CommandPublish, p.CommandPlay]

/-- The constants with the message-type numbers of the RTMP wire format and
the command names of the session protocol. -/
def rtmpProto : Proto where
  SetChunkSizeMessageID := 1
  AbortMessageID := 2
  AcknowledgementMessageID := 3
  WindowAcknowledgementSizeMessageID := 5
  SetPeerBandwidthMessageID := 6
  UserControlMessageID := 4
  CommandMessageAMF0ID := 20
  CommandMessageAMF3ID := 17
  DataMessageAMF0ID := 18
  DataMessageAMF3ID := 15
  SharedObjectMessageAMF0ID := 19
  SharedObjectMessageAMF3ID := 16
  AudioMessageID := 8
  VideoMessageID := 9
  AggregateMessageID := 22
  CommandConnect := "connect".toList
  CommandCreateStream := "createStream".toList
  CommandPublish := "publish".toList
  CommandPlay := "play".toList
  ids_nodup := by decide
  names_nodup := by decide

/-- Modelled from the spec: the declaration of `Conn` is not in the
translated sources. The negotiated parameters of one connection: local and
remote chunk size, remote window-acknowledgement size, the count of bytes
received since the last acknowledgement, and the acknowledgements emitted. -/
structure Conn where
  chunkSize : Nat
  remoteChunkSize : Nat
  remoteWindowAckSize : Nat
  ackReceived : Nat
  acksSent : List Nat
  deriving DecidableEq, Repr

/-- Modelled from the spec: `Conn.ack` is not in the translated sources.
`ack(n)` adds `n` to the received-byte counter (a `uint32`); when the counter
exceeds the remote window-acknowledgement size an Acknowledgement is emitted
and the counter is reset to 0. -/
def Conn.ack (c : Conn) (n : Nat) : Conn :=
  let r := (c.ackReceived + n) % 2 ^ 32
  if r > c.remoteWindowAckSize then { c with ackReceived := 0, acksSent := c.acksSent ++ [r] }
  else { c with ackReceived := r }

/-- Modelled from the spec: the declaration of `SafeBoundedBuffer` is not in
the translated sources. The stream of a session, as the messages its producer
has written to it, in order. -/
structure SafeBoundedBuffer where
  written : List ChunkStream
  deriving DecidableEq, Repr

/-- Modelled from the spec: the declaration of `PublishInfo` is not in the
translated sources. The publish binding of a session is the stream name. -/
structure PublishInfo where
  name : Str
  deriving DecidableEq, Repr

/-- Go `ServerConn`, with the fields `Route` reads or writes. A nil pointer is
`none`. -/
structure ServerConn where
  conn : Conn
  transactionID : Int
  publishInfo : Option PublishInfo
  stream : Option SafeBoundedBuffer
  deriving DecidableEq, Repr

/-- Modelled from the spec: `SafeBoundedBuffer.Write` is not in the translated
sources. `s.stream.Write(x)` appends the message to the stream; on a nil
stream there is no buffer to write to and the call stops with a nil pointer
dereference. -/
def ServerConn.streamWrite (s : ServerConn) (x : ChunkStream) : Res ServerConn :=
  match s.stream with
  | none => .panic "invalid memory address or nil pointer dereference"
  | some b => .ret { s with stream := some { b with written := b.written ++ [x] } }

/-- What a handler hands back: the returned error, the session and the
message it was given, both possibly changed. -/
abbrev HandlerResult := Res (Option GoError × ServerConn × ChunkStream)

/-- The command handlers and stream operations `routeCommand` calls. They are
outside the translated sources and are parameters. -/
structure Handlers where
  connectRX : ServerConn → ChunkStream → HandlerResult
  createStreamRX : ServerConn → ChunkStream → HandlerResult
  publishRX : ServerConn → ChunkStream → HandlerResult
  playRX : ServerConn → ChunkStream → HandlerResult
  streamStream : ServerConn → Res ServerConn
  streamAddWriter : ServerConn → Res ServerConn

/-- The AMF decoder `DecodeBatch`, an external capability: the values decoded
from the bytes and the error it stopped with. -/
abbrev Decoder := List Nat → AMFVersion → List AMFValue × Option GoError

/-- Go `(*ServerConn).routeCommand`. -/
def routeCommand (p : Proto) (hs : Handlers) (commandName : Str) (s : ServerConn)
    (x : ChunkStream) : HandlerResult :=
  if commandName = p.CommandConnect then hs.connectRX s x
  else if commandName = p.CommandCreateStream then hs.createStreamRX s x
  else if commandName = p.CommandPublish then
    match hs.publishRX s x with
    | .panic m => .panic m
    | .ret (some err, s1, x1) => .ret (some err, s1, x1)
    | .ret (none, s1, x1) =>
      match hs.streamStream s1 with
      | .panic m => .panic m
      | .ret s2 => .ret (none, s2, x1)
  else if commandName = p.CommandPlay then
    match hs.playRX s x with
    | .panic m => .panic m
    | .ret (some err, s1, x1) => .ret (some err, s1, x1)
    | .ret (none, s1, x1) =>
      match hs.streamAddWriter s1 with
      | .panic m => .panic m
      | .ret s2 => .ret (none, s2, x1)
  else .ret (some (.other "unsupported commandName"), s, x)

/-- Go `(*ServerConn).handleCommand`. For an AMF3 command `x.Data[1:]` is
taken first; on an empty payload that slice expression is out of range. -/
def handleCommand (p : Proto) (hs : Handlers) (dec : Decoder) (s : ServerConn)
    (x : ChunkStream) : HandlerResult :=
  if x.TypeID = p.CommandMessageAMF3ID ∧ x.Data = [] then
    .panic "slice bounds out of range [1:0]"
  else
    let amfType := if x.TypeID = p.CommandMessageAMF3ID then AMFVersion.AMF3 else AMFVersion.AMF0
    let x1 := if x.TypeID = p.CommandMessageAMF3ID then { x with Data := x.Data.drop 1 } else x
    match dec x1.Data amfType with
    | (vs, err) =>
      if err ≠ none ∧ err ≠ some GoError.EOF then .ret (err, s, x1)
      else
        let x2 := { x1 with batchedValues := vs }
        if vs.length ≤ 1 then
          .ret (some (.other "decoder failure: unable to decode from protocol"), s, x2)
        else
          match vs.head? with
          | some (.string commandName) => routeCommand p hs commandName s x2
          | _ => .ret (some (.other "decoder failure: unable to render command name"), s, x2)

/-- Go `(*ServerConn).Route`. The cases of the `switch` are tried in source
order; logging has no effect on the session. The returned error is always
nil. -/
def Route (p : Proto) (hs : Handlers) (dec : Decoder) (s : ServerConn) (x : ChunkStream) :
    Res (Option GoError × ServerConn) :=
  if x.TypeID = p.SetChunkSizeMessageID then
    match bigEndianUint32 x.Data with
    | none => .panic "index out of range"
    | some chunkSize =>
      .ret (none, { s with conn := ({ s.conn with remoteChunkSize := chunkSize }).ack x.Length })
  else if x.TypeID = p.AbortMessageID then .ret (none, s)
  else if x.TypeID = p.AcknowledgementMessageID then .ret (none, s)
  else if x.TypeID = p.WindowAcknowledgementSizeMessageID then
    match bigEndianUint32 x.Data with
    | none => .panic "index out of range"
    | some ackSize =>
      .ret (none, { s with conn := ({ s.conn with remoteWindowAckSize := ackSize }).ack x.Length })
  else if x.TypeID = p.SetPeerBandwidthMessageID then .ret (none, s)
  else if x.TypeID = p.UserControlMessageID then .ret (none, s)
  else if x.TypeID = p.CommandMessageAMF0ID ∨ x.TypeID = p.CommandMessageAMF3ID then
    match handleCommand p hs dec s x with
    | .panic m => .panic m
    | .ret (_, s1, _) => .ret (none, s1)
  else if x.TypeID = p.DataMessageAMF0ID ∨ x.TypeID = p.DataMessageAMF3ID then
    match s.streamWrite x with
    | .panic m => .panic m
    | .ret s1 => .ret (none, s1)
  else if x.TypeID = p.SharedObjectMessageAMF0ID ∨ x.TypeID = p.SharedObjectMessageAMF3ID then
    .ret (none, s)
  else if x.TypeID = p.AudioMessageID then
    if s.publishInfo ≠ none then
      match s.streamWrite x with
      | .panic m => .panic m
      | .ret s1 => .ret (none, s1)
    else .ret (none, s)
  else if x.TypeID = p.VideoMessageID then
    if s.publishInfo ≠ none then
      match s.streamWrite x with
      | .panic m => .panic m
      | .ret s1 => .ret (none, s1)
    else .ret (none, s)
  else if x.TypeID = p.AggregateMessageID then .ret (none, s)
  else .ret (none, s)

/-- The transport read `conn.Read(&chunk)`, outside the translated sources:
given the connection it yields the returned error, the connection after the
read and the chunk it filled. -/
abbrev Reader := Conn → Res (Option GoError × Conn × ChunkStream)

/-- Go `(*ServerConn).NextChunk`: a read error is wrapped in a new error and
no chunk is returned. -/
def NextChunk (read : Reader) (s : ServerConn) :
    Res (Option ChunkStream × Option GoError × ServerConn) :=
  match read s.conn with
  | .panic m => .panic m
  | .ret (some _, c, _) =>
    .ret (none, some (.other "reading chunk from client"), { s with conn := c })
  | .ret (none, c, x) => .ret (some x, none, { s with conn := c })

/-- Go `(*ServerConn).RoutePackets`, run for at most `fuel` rounds of its
loop: `none` when the loop is still running after them, else the error it
returned with or the panic it stopped with. `Route` on a nil chunk
dereferences nil. -/
def RoutePackets (p : Proto) (hs : Handlers) (dec : Decoder) (read : Reader) :
    Nat → ServerConn → Option (Res (GoError × ServerConn))
  | 0, _ => none
  | fuel + 1, s =>
    match NextChunk read s with
    | .panic m => some (.panic m)
    | .ret (x, some err, s1) =>
      if err ≠ GoError.TestableEOFError then some (.ret (err, s1))
      else
        match x with
        | none => some (.panic "invalid memory address or nil pointer dereference")
        | some x =>
          match Route p hs dec s1 x with
          | .panic m => some (.panic m)
          | .ret (_, s2) => RoutePackets p hs dec read fuel s2
    | .ret (x, none, s1) =>
      match x with
      | none => some (.panic "invalid memory address or nil pointer dereference")
      | some x =>
        match Route p hs dec s1 x with
        | .panic m => some (.panic m)
        | .ret (_, s2) => RoutePackets p hs dec read fuel s2

/-- The command name `handleCommand` hands to `routeCommand`: the first
decoded value, when the payload could be sliced, the decoder stopped with no
error or with `io.EOF`, at least two values were decoded and the first is a
string. -/
def commandNameOf (p : Proto) (dec : Decoder) (x : ChunkStream) : Option Str :=
  if x.TypeID = p.CommandMessageAMF3ID ∧ x.Data = [] then none
  else
    let r := dec (if x.TypeID = p.CommandMessageAMF3ID then x.Data.drop 1 else x.Data)
      (if x.TypeID = p.CommandMessageAMF3ID then AMFVersion.AMF3 else AMFVersion.AMF0)
    if r.2 ≠ none ∧ r.2 ≠ some GoError.EOF then none
    else if r.1.length ≤ 1 then none
    else
      match r.1.head? with
      | some (.string n) => some n
      | _ => none

/-- Handlers that do nothing and report success. -/
def idleHandlers : Handlers where
  connectRX := fun s x => .ret (none, s, x)
  createStreamRX := fun s x => .ret (none, s, x)
  publishRX := fun s x => .ret (none, s, x)
  playRX := fun s x => .ret (none, s, x)
  streamStream := fun s => .ret s
  streamAddWriter := fun s => .ret s

/-- A decoder that yields the same two values for every payload: the command
name `deleteStream` and one more value, stopping with `io.EOF`. -/
def deleteStreamDecoder : Decoder :=
  fun _ _ => ([.string "deleteStream".toList, .other 0], some .EOF)

/-- A session right after accept: default chunk sizes, nothing published, no
stream bound. -/
def freshServerConn : ServerConn where
  conn := { chunkSize := 128, remoteChunkSize := 128, remoteWindowAckSize := 2500000,
            ackReceived := 0, acksSent := [] }
  transactionID := 0
  publishInfo := none
  stream := none

/-- The message types for which `Route` does more than log: the two
protocol-control types it applies, commands, data, audio and video. -/
def Proto.active (p : Proto) : List Nat :=
  [p.SetChunkSizeMessageID, p.WindowAcknowledgementSizeMessageID, p.CommandMessageAMF0ID,
    p.CommandMessageAMF3ID, p.DataMessageAMF0ID, p.DataMessageAMF3ID, p.AudioMessageID,
    p.VideoMessageID]

/-- A SetChunkSize message announcing a chunk size of 4096. -/
def setChunkSize4096 : ChunkStream :=
  { ChunkStream.zero with CSID := 2, TypeID := 1, Length := 4, Data := [0, 0, 16, 0] }

/-- The value of `remain` after each chunk of a message of `n` bytes read at
chunk size `chunkSize`; `fuel` bounds the number of chunks. -/
def remainTrace (chunkSize : Nat) : Nat → Nat → List Nat
  | 0, _ => []
  | fuel + 1, n =>
    if n ≤ chunkSize then [0] else (n - chunkSize) :: remainTrace chunkSize fuel (n - chunkSize)

/-- The message of `TestWriteChunk`: 307 zero bytes of type 9 on chunk stream
4 at timestamp 40. -/
def testWriteMessage : ChunkStream :=
  { ChunkStream.zero with Length := 307, TypeID := 9, CSID := 4, Timestamp := 40,
                          Data := List.replicate 307 0 }

/-- The chunk stream a reader holds while it receives the message `cs`: the
header fields of `cs`, `remain` bytes still to arrive, `data` received so far,
`fmt` the format of the chunk read last, and `bv` the decoded values the
reader's record had before. -/
def readerState (cs : ChunkStream) (bv : List AMFValue) (fmt remain : Nat) (data : List Nat) :
    ChunkStream :=
  { Format := 0, CSID := cs.CSID, Timestamp := cs.Timestamp, Length := cs.Length,
    TypeID := cs.TypeID, StreamID := cs.StreamID, exited := decide (cs.Timestamp ≥ 0xffffff),
    remain := remain, tmpFormat := fmt, Data := data, batchedValues := bv }

/-- The bytes of the first read of `TestChunkRead1`: a format-0 header on
chunk stream 6 declaring 307 bytes of type 9 on stream 1, and the payload in
fragments of 128, 128 and 51 bytes with the continuation byte `0xc6` between
them. -/
def testChunkData1 : List Nat :=
  [0x06, 0x00, 0x00, 0x00, 0x00, 0x01, 0x33, 0x09, 0x01, 0x00, 0x00, 0x00]
    ++ List.replicate 128 0 ++ [0xc6] ++ List.replicate 128 0 ++ [0xc6] ++ List.replicate 51 0

/-- What follows the first header in the second read of `TestChunkRead1`:
128 payload bytes, the continuation byte `0xc6` with the extended timestamp
`00 00 00 05` sent again, 128 payload bytes, the continuation byte without
the extended timestamp, and the last 51 payload bytes. -/
def testChunkTail2 : List Nat :=
  List.replicate 128 0 ++ [0xc6] ++ [0x00, 0x00, 0x00, 0x05] ++ List.replicate 128 0
    ++ [0xc6] ++ List.replicate 51 0

/-- The bytes of the second read of `TestChunkRead1`: the first byte (format
0, chunk stream 6), a header whose timestamp field is `0xFFFFFF`, the extended
timestamp `00 00 00 05`, and `testChunkTail2`. -/
def testChunkData2 : List Nat :=
  0x06 :: 0xff :: 0xff :: 0xff :: 0x00 :: 0x01 :: 0x33 :: 0x09 :: 0x01 :: 0x00 :: 0x00 :: 0x00
    :: 0x00 :: 0x00 :: 0x00 :: 0x05 :: testChunkTail2

/-- The message `testChunkData1` carries. -/
def testReadMessage : ChunkStream :=
  { ChunkStream.zero with CSID := 6, Length := 307, TypeID := 9, StreamID := 1,
                          Data := List.replicate 307 0 }

/-- A message without payload, of type 9 on chunk stream 6. -/
def emptyMessage : ChunkStream :=
  { ChunkStream.zero with CSID := 6, TypeID := 9, StreamID := 1 }

/-- The three `readChunk` calls of the second part of `TestChunkRead1`, each
after reading the byte that holds format and chunk-stream-id. -/
def testChunkRead2 : Except String (ChunkStream × List Nat) :=
  match readStep ChunkStream.zero testChunkData2 128 with
  | .error e => .error e
  | .ok (c1, r1) =>
    match readStep c1 r1 128 with
    | .error e => .error e
    | .ok (c2, r2) => readStep c2 r2 128

/-- The chunk stream `TestChunkRead1` expects after its second read: 307
bytes of type 9 on stream 1, timestamp 5 taken from the extended field. -/
def testChunkResult2 : ChunkStream :=
  { Format := 0, CSID := 6, Timestamp := 5, Length := 307, TypeID := 9, StreamID := 1,
    exited := true, remain := 0, tmpFormat := 3, Data := List.replicate 307 0,
    batchedValues := [] }

/-- A decoder that yields the command name `connect` and one more value and
then stops with an error other than `io.EOF`, as `DecodeBatch` does on a
payload whose third value is malformed. -/
def failingDecoder : Decoder :=
  fun _ _ => ([.string "connect".toList, .other 0], some (.other "decode amf0: unsupported type"))

/-- An AMF0 command message. -/
def amf0Command : ChunkStream :=
  { ChunkStream.zero with CSID := 3, TypeID := 20, Length := 3, Data := [2, 0, 12] }

/-- A transport whose read fails at once with `io.EOF`. -/
def failingReader : Reader :=
  fun c => .ret (some .EOF, c, ChunkStream.zero)

/-- A transport that delivers the message `amf0Command` on its first read and
fails with `io.EOF` on every later read; the reads are told apart by the count
of received bytes it keeps in the connection. -/
def oneCommandReader : Reader :=
  fun c =>
    if c.ackReceived = 0 then .ret (none, { c with ackReceived := 1 }, amf0Command)
    else .ret (some .EOF, c, ChunkStream.zero)

/-- The text `h/a`, preceded by `s://` when a scheme `s` is given. -/
def hostAppURL (s h a : Str) : Str :=
  (if s = [] then [] else s ++ [':', '/', '/']) ++ h ++ ['/'] ++ a

/-- A session that is playing: a stream is bound, nothing is published. -/
def playingServerConn : ServerConn :=
  { freshServerConn with stream := some { written := [] } }

/-- An AMF0 data message. -/
def amf0DataMessage : ChunkStream :=
  { ChunkStream.zero with CSID := 4, TypeID := 18, Length := 3, Data := [2, 0, 13] }

/-! ## `activestreamer_server_linux.go` -/

/-- Modelled from the spec: `activestreamer.RTMPHost` is generated code
outside the translated sources. The request of the relay operations: the
address of an RTMP endpoint and a buffer size. -/
structure RTMPHost where
  Addr : Str
  BufferSize : Nat
  deriving DecidableEq, Repr

/-- Modelled from the spec: `activestreamer.Ack` is generated code outside the
translated sources. The reply of the control operations: success or failure
and a message. -/
structure Ack where
  Success : Bool
  Message : Option String
  deriving DecidableEq, Repr

/-- Go `ActiveStreamerServer`. A nil `Local` and a nil `Remotes` map are
`none`; the map is a list of address and host pairs. -/
structure ActiveStreamerServer where
  Local : Option RTMPHost
  Remotes : Option (List (Str × RTMPHost))
  deriving DecidableEq, Repr

/-- The call `net.Listen(RTMPProtocol, addr)`, made to the operating system:
`none` when a listener was opened, else the text of the error. -/
abbrev Listen := Str → Option String

/-- Go `(*ActiveStreamerServer).RTMPStartRelay`: the `Ack`, the error and the
server afterwards. The goroutine that serves the listener does not touch the
server record. -/
def RTMPStartRelay (listen : Listen) (a : ActiveStreamerServer) (r : RTMPHost) :
    Ack × Option String × ActiveStreamerServer :=
  if a.Local ≠ none then
    ({ Success := false, Message := some "unable to start rtmp, already running" },
      some "unable to start rtmp, already running", a)
  else
    match listen r.Addr with
    | some err => ({ Success := false, Message := some err }, some err, a)
    | none => ({ Success := true, Message := some "Success" }, none, { a with Local := some r })

/-- The server `ServerGRPC` registers: `ActiveStreamerServer{}`. -/
def newActiveStreamerServer : ActiveStreamerServer :=
  { Local := none, Remotes := none }

/-- A listen call that fails for every address. -/
def addressInUse : Listen :=
  fun _ => some "listen tcp: address already in use"

/-- The request to accept publishers on `localhost:1935`. -/
def localRelayHost : RTMPHost :=
  { Addr := "localhost:1935".toList, BufferSize := 1024 }

/-- A message of 384 bytes, three times the chunk size 128, of type 9 on
chunk stream 6 and stream 1 at timestamp 40. -/
def roundTripMessage : ChunkStream :=
  { ChunkStream.zero with CSID := 6, Timestamp := 40, Length := 384, TypeID := 9,
                          StreamID := 1, Data := List.replicate 384 7 }

/-- A message whose payload of `2 ^ 24` bytes is one byte longer than the
3-byte length field of the header can declare. -/
def oversizeMessage : ChunkStream :=
  { ChunkStream.zero with CSID := 6, Length := 16777216, TypeID := 9, StreamID := 1,
                          Data := List.replicate 16777216 0 }

/-- Go `m[key] = r` on a map that was made: the entry for `key` is replaced,
or added when there is none. -/
def mapSet (m : List (Str × RTMPHost)) (key : Str) (r : RTMPHost) : List (Str × RTMPHost) :=
  (key, r) :: m.filter fun e => e.1 ≠ key

/-- Go `m[key]`: the host stored under `key`, if any. -/
def mapGet (m : List (Str × RTMPHost)) (key : Str) : Option RTMPHost :=
  (m.find? fun e => e.1 = key).map fun e => e.2

/-- Go `(*ActiveStreamerServer).RTMPForward`: the `Ack`, the error and the
server afterwards. `rtmprelay.NewRtmpRelay` only builds the relay value, and
the goroutine that starts the relay does not touch the server record. The
statement `a.Remotes[r.Addr] = r` stops with a run-time failure when the map
is nil. -/
def RTMPForward (a : ActiveStreamerServer) (r : RTMPHost) :
    Res (Ack × Option String × ActiveStreamerServer) :=
  if a.Local = none then
    .ret ({ Success := false,
            Message := some "unable to start rtmp relay, local server not running" }, none, a)
  else
    match a.Remotes with
    | none => .panic "assignment to entry in nil map"
    | some m =>
      .ret ({ Success := true, Message := some "Success" }, none,
        { a with Remotes := some (mapSet m r.Addr r) })

/-- A listen call that opens a listener for every address. -/
def portFree : Listen :=
  fun _ => none

/-- The request to forward to `live.example:1935`. -/
def remoteRelayHost : RTMPHost :=
  { Addr := "live.example:1935".toList, BufferSize := 1024 }

/-- A SetChunkSize message whose payload has three bytes, one short of the
4-byte size. -/
def shortSetChunkSize : ChunkStream :=
  { ChunkStream.zero with CSID := 2, TypeID := 1, Length := 3, Data := [0, 16, 0] }

/-- An AMF3 command message: a format byte followed by the AMF0 values. -/
def amf3Command : ChunkStream :=
  { ChunkStream.zero with CSID := 3, TypeID := 17, Length := 4, Data := [0, 2, 0, 12] }

/-- An AMF3 command message with no payload. -/
def emptyAmf3Command : ChunkStream :=
  { ChunkStream.zero with CSID := 3, TypeID := 17 }

/-- The characters Go `getScheme` accepts inside a scheme: letters, digits,
`+`, `-` and `.`. -/
def isSchemeChar (c : Char) : Bool :=
  isAlpha c || isDigit c || c = '+' || c = '-' || c = '.'

/-- The conditions on the package constants under which every address
`NewAddr` builds has the shape `scheme://host/app/key` with four non-empty
parts free of `/`: the default scheme is four lower-case letters, no constant
holds a `/`, and the default app and the key prefix are not empty. -/
def Defaults.plain (d : Defaults) : Prop :=
  d.DefaultScheme.length = 4 ∧ (∀ c ∈ d.DefaultScheme, 'a' ≤ c ∧ c ≤ 'z') ∧
    '/' ∉ d.DefaultLocalHost ∧ '/' ∉ d.DefaultLocalPort ∧
    d.DefaultRTMPApp ≠ [] ∧ '/' ∉ d.DefaultRTMPApp ∧
    d.DefaultGenerateKeyPrefix ≠ [] ∧ '/' ∉ d.DefaultGenerateKeyPrefix ∧
    '/' ∉ d.letterBytePool

/-- The address `NewAddr` builds from `localhost:1935` when every random draw
is 0: default scheme and app, and a generated key. -/
def localAddr : Addr :=
  { raw := "localhost:1935".toList, scheme := "rtmp".toList, host := "localhost:1935".toList,
    app := "twinx".toList, key := generateKey stdDefaults (fun _ => 0) }

/-- The address `NewAddr` builds from `example:port/app/key`: the host keeps
the port name `port`. -/
def namedPortAddr : Addr :=
  { raw := "example:port/app/key".toList, scheme := "rtmp".toList,
    host := "example:port".toList, app := "app".toList, key := "key".toList }

/-! ## Theorems: address parsing -/

theorem hasPrefix_append (p r : Str) : hasPrefix (p ++ r) p = true := by
  induction p with
  | nil => cases r <;> rfl
  | cons c p ih => simp [hasPrefix, ih]

theorem replaceFirst_prefix (old r : Str) (hold : old ≠ []) :
    replaceFirst old [] (old ++ r) = r := by
  cases old with
  | nil => exact absurd rfl hold
  | cons c p =>
    have h := hasPrefix_append (c :: p) r
    simp only [List.cons_append] at h ⊢
    simp [replaceFirst, h]

theorem split_not_mem (sep : Char) (s : Str) (h : sep ∉ s) : split sep s = [s] := by
  induction s with
  | nil => rfl
  | cons c s ih =>
    have hc : c ≠ sep := fun e => h (by simp [e])
    have hs : sep ∉ s := fun e => h (by simp [e])
    simp [split, hc, ih hs]

theorem split_append_sep (sep : Char) (s t : Str) (h : sep ∉ s) :
    split sep (s ++ sep :: t) = s :: split sep t := by
  induction s with
  | nil => simp [split]
  | cons c s ih =>
    have hc : c ≠ sep := fun e => h (by simp [e])
    have hs : sep ∉ s := fun e => h (by simp [e])
    simp [split, hc, ih hs]

theorem contains_append_sep (sep : Char) (s t : Str) :
    contains (s ++ sep :: t) [sep] = true := by
  induction s with
  | nil => simp [contains, hasPrefix]
  | cons c s ih => simp [contains, ih]

theorem cut_fst_append_sep (sep : Char) (s t : Str) (h : sep ∉ s) :
    (cut sep (s ++ sep :: t)).1 = s := by
  induction s with
  | nil => simp [cut]
  | cons c s ih =>
    have hc : c ≠ sep := fun e => h (by simp [e])
    have hs : sep ∉ s := fun e => h (by simp [e])
    simp [cut, hc, ih hs]

theorem cut_fst_cons_ne (sep c : Char) (s : Str) (h : c ≠ sep) :
    (cut sep (c :: s)).1 = c :: (cut sep s).1 := by
  simp [cut, h]

theorem getSchemeLoop_alpha (raw : Str) (s : Str) (hs : ∀ c ∈ s, isAlpha c = true) :
    ∀ (atStart : Bool) (acc t : Str), (s ≠ [] ∨ atStart = false) →
      getSchemeLoop raw atStart acc (s ++ ':' :: t) = some (acc.reverse ++ s, t) := by
  induction s with
  | nil =>
    intro atStart acc t h
    have hst : atStart = false := by
      rcases h with h | h
      · exact absurd rfl h
      · exact h
    subst hst
    have h1 : isAlpha ':' = false := by decide
    have h2 : isDigit ':' = false := by decide
    simp [getSchemeLoop, h1, h2]
  | cons c s ih =>
    intro atStart acc t _
    have hc : isAlpha c = true := hs c (by simp)
    have hs' : ∀ c ∈ s, isAlpha c = true := fun x hx => hs x (by simp [hx])
    simp [getSchemeLoop, hc, ih hs' false (c :: acc) t (Or.inr rfl)]

theorem getScheme_alpha (s t : Str) (hs : ∀ c ∈ s, isAlpha c = true) (hne : s ≠ []) :
    getScheme (s ++ ':' :: t) = some (s, t) := by
  simpa [getScheme] using getSchemeLoop_alpha (s ++ ':' :: t) s hs true [] t (Or.inl hne)

theorem cut_fst_append (sep : Char) (s t : Str) (h : sep ∉ s) :
    (cut sep (s ++ t)).1 = s ++ (cut sep t).1 := by
  induction s with
  | nil => rfl
  | cons c s ih =>
    have hc : c ≠ sep := fun e => h (by simp [e])
    have hs : sep ∉ s := fun e => h (by simp [e])
    simp [cut, hc, ih hs]

theorem toLower_lower (s : Str) (h : ∀ c ∈ s, 'a' ≤ c ∧ c ≤ 'z') : toLower s = s := by
  induction s with
  | nil => rfl
  | cons c s ih =>
    have hc := h c (by simp)
    have hs : ∀ x ∈ s, 'a' ≤ x ∧ x ≤ 'z' := fun x hx => h x (by simp [hx])
    have h1 : 97 ≤ c.toNat := hc.1
    have hl : c.toLower = c := by
      unfold Char.toLower
      simp only []
      rw [if_neg]
      omega
    have ih' := ih hs
    simp only [toLower] at ih' ⊢
    simp [hl, ih']

theorem isAlpha_of_lower (c : Char) (h : 'a' ≤ c ∧ c ≤ 'z') : isAlpha c = true := by
  simp [isAlpha, h.1, h.2]

theorem parse_ok_scheme (x s0 r0 u : Str) (hget : getScheme x = some (s0, r0))
    (hstar : x ≠ ['*']) (h : parse x = .ok u) : u = toLower s0 := by
  unfold parse at h
  rw [hget] at h
  simp only [hstar, if_false] at h
  split_ifs at h <;> (injection h with h; exact h.symm)

theorem urlParse_ok_parse (raw u : Str) (h : urlParse raw = .ok u) :
    parse (cut '#' raw).1 = .ok u := by
  unfold urlParse at h
  split at h
  · cases h
  · rename_i sch heq
    split_ifs at h <;> (injection h with h; rw [heq, h])

theorem urlParse_fullURL_scheme (s h a k u : Str) (hlen : s.length = 4)
    (hlow : ∀ c ∈ s, 'a' ≤ c ∧ c ≤ 'z') (hp : urlParse (fullURL s h a k) = .ok u) :
    u = s := by
  have hne : s ≠ [] := by
    intro e; rw [e] at hlen; exact absurd hlen (by decide)
  have hhash : '#' ∉ s := by
    intro hm
    have := hlow '#' hm
    exact absurd this.1 (by decide)
  have hraw : fullURL s h a k = s ++ (':' :: ('/' :: '/' :: (h ++ ['/'] ++ a ++ ['/'] ++ k))) := by
    simp [fullURL]
  have hcut : (cut '#' (fullURL s h a k)).1
      = s ++ ':' :: (cut '#' ('/' :: '/' :: (h ++ ['/'] ++ a ++ ['/'] ++ k))).1 := by
    rw [hraw, cut_fst_append '#' s _ hhash, cut_fst_cons_ne '#' ':' _ (by decide)]
  have hpar := urlParse_ok_parse _ _ hp
  rw [hcut] at hpar
  have hget := getScheme_alpha s (cut '#' ('/' :: '/' :: (h ++ ['/'] ++ a ++ ['/'] ++ k))).1
    (fun c hc => isAlpha_of_lower c (hlow c hc)) hne
  have hstar : s ++ ':' :: (cut '#' ('/' :: '/' :: (h ++ ['/'] ++ a ++ ['/'] ++ k))).1 ≠ ['*'] := by
    intro e
    have := congrArg List.length e
    simp at this
    omega
  rw [parse_ok_scheme _ _ _ _ hget hstar hpar, toLower_lower s hlow]

theorem splitPath_three (d : Defaults) (h a k : Str) (hh : '/' ∉ h) (ha : '/' ∉ a)
    (hk : '/' ∉ k) : splitPath d (h ++ ['/'] ++ a ++ ['/'] ++ k) = some (h, a, k) := by
  have e : h ++ ['/'] ++ a ++ ['/'] ++ k = h ++ '/' :: (a ++ '/' :: k) := by simp
  rw [e]
  unfold splitPath
  rw [contains_append_sep, split_append_sep '/' h _ hh, split_append_sep '/' a _ ha,
    split_not_mem '/' k hk]
  rfl

/-- Claim C1 (amended): for every raw string `s://h/a/k` with `s` a scheme of
four lower-case letters and `h`, `a`, `k` non-empty and free of `/` that
`url.Parse` accepts, `NewAddr` returns no error and an address whose scheme,
host, app and key are `s`, `h`, `a` and `k`. -/
theorem NewAddr_fullURL (d : Defaults) (rnd : Nat → Nat) (s h a k : Str)
    (hlen : s.length = 4) (hlow : ∀ c ∈ s, 'a' ≤ c ∧ c ≤ 'z')
    (hh : h ≠ [] ∧ '/' ∉ h) (ha : a ≠ [] ∧ '/' ∉ a) (hk : k ≠ [] ∧ '/' ∉ k)
    (hparse : ∃ u, urlParse (fullURL s h a k) = .ok u) :
    ∃ addr, NewAddr d rnd (fullURL s h a k) = .ok addr ∧
      addr.Scheme = s ∧ addr.Host = h ∧ addr.App = a ∧ addr.Key = k := by
  obtain ⟨u, hu⟩ := hparse
  have hus := urlParse_fullURL_scheme s h a k u hlen hlow hu
  subst hus
  have hne : u ≠ [] := by
    intro e; rw [e] at hlen; exact absurd hlen (by decide)
  have hpath : replaceFirst (u ++ [':', '/', '/']) [] (fullURL u h a k)
      = h ++ ['/'] ++ a ++ ['/'] ++ k := by
    have e : fullURL u h a k = (u ++ [':', '/', '/']) ++ (h ++ ['/'] ++ a ++ ['/'] ++ k) := by
      simp [fullURL]
    rw [e]
    exact replaceFirst_prefix _ _ (by simp)
  refine ⟨⟨fullURL u h a k, u, h, a, k⟩, ?_, rfl, rfl, rfl, rfl⟩
  unfold NewAddr
  rw [hu]
  simp only [hlen, if_true]
  rw [hpath, splitPath_three d h a k hh.2 ha.2 hk.2]
  simp [hne, hh.1, ha.1, hk.1]

/-- Witness for C1: `rtmp://host:1935/app/key` parses to scheme `rtmp`, host
`host:1935`, app `app` and key `key`. -/
theorem NewAddr_fullURL_witness :
    ∃ addr, NewAddr stdDefaults (fun _ => 0)
        (fullURL "rtmp".toList "host:1935".toList "app".toList "key".toList) = .ok addr ∧
      addr.Scheme = "rtmp".toList ∧ addr.Host = "host:1935".toList ∧
      addr.App = "app".toList ∧ addr.Key = "key".toList :=
  NewAddr_fullURL stdDefaults (fun _ => 0) "rtmp".toList "host:1935".toList "app".toList
    "key".toList (by decide) (by decide) (by decide) (by decide) (by decide)
    ⟨"rtmp".toList, by rfl⟩

/-- Counterexample for C1 as stated: `rtmp://host:1935/app/key%` has the
required shape, yet `url.Parse` rejects the dangling `%` and `NewAddr` returns
an error. -/
theorem NewAddr_fullURL_counterexample :
    ¬ ∀ (d : Defaults) (rnd : Nat → Nat) (s h a k : Str),
        s.length = 4 → (∀ c ∈ s, 'a' ≤ c ∧ c ≤ 'z') →
        (h ≠ [] ∧ '/' ∉ h) → (a ≠ [] ∧ '/' ∉ a) → (k ≠ [] ∧ '/' ∉ k) →
        ∃ addr, NewAddr d rnd (fullURL s h a k) = .ok addr ∧
          addr.Scheme = s ∧ addr.Host = h ∧ addr.App = a ∧ addr.Key = k := by
  intro hall
  obtain ⟨addr, hok, _⟩ := hall stdDefaults (fun _ => 0) "rtmp".toList "host:1935".toList
    "app".toList "key%".toList (by decide) (by decide) (by decide) (by decide) (by decide)
  have herr : NewAddr stdDefaults (fun _ => 0)
      (fullURL "rtmp".toList "host:1935".toList "app".toList "key%".toList)
      = .error "unable to url.Parse raw rtmp string: invalid URL escape" := by rfl
  rw [herr] at hok
  cases hok

theorem split_of_not_contains (sep : Char) (s : Str) (h : contains s [sep] = false) :
    split sep s = [s] := by
  apply split_not_mem
  intro hm
  induction s with
  | nil => cases hm
  | cons c s ih =>
    simp only [contains, hasPrefix, Bool.or_eq_false_iff, Bool.and_eq_false_imp] at h
    rcases List.mem_cons.1 hm with e | hm'
    · subst e
      have := h.1
      simp at this
    · exact ih h.2 hm'

theorem splitPath_many (d : Defaults) (path : Str) (h : 3 < (split '/' path).length) :
    splitPath d path = none := by
  have hc : contains path ['/'] = true := by
    by_contra hn
    have hn' : contains path ['/'] = false := by simpa using hn
    rw [split_of_not_contains '/' path hn'] at h
    simp at h
  unfold splitPath
  rw [hc]
  simp only [if_true]
  match hs : split '/' path, h with
  | _ :: _ :: _ :: _ :: _, _ => rfl

theorem NewAddr_pathOf_many (d : Defaults) (rnd : Nat → Nat) (raw : Str)
    (h : 3 < (split '/' (pathOf raw)).length) :
    ∃ e, NewAddr d rnd raw = .error e := by
  unfold NewAddr
  unfold pathOf at h
  cases hp : urlParse raw with
  | error e => exact ⟨_, rfl⟩
  | ok u =>
    rw [hp] at h
    simp only [] at h ⊢
    rw [splitPath_many d _ h]
    exact ⟨_, rfl⟩

/-- Claim C3 (the code at the failing inputs): for `localhost:` the empty port
overwrites the host part, so `Host()` is the default port followed by a colon
and not `localhost:1935`; and `:` is rejected by `url.Parse`, so `NewAddr`
returns an error. -/
theorem NewAddr_trailing_colon_diverges (d : Defaults) (rnd : Nat → Nat) :
    (∃ addr, NewAddr d rnd "localhost:".toList = .ok addr ∧
        addr.Host = d.DefaultLocalPort ++ [':']) ∧
      (∃ e, NewAddr d rnd ":".toList = .error e) := by
  refine ⟨⟨⟨"localhost:".toList, d.DefaultScheme, d.DefaultLocalPort ++ [':'],
    d.DefaultRTMPApp, generateKey d rnd⟩, ?_, rfl⟩, ⟨_, rfl⟩⟩
  have hp : urlParse "localhost:".toList = .ok "localhost".toList := by rfl
  unfold NewAddr
  rw [hp]
  have hs : splitPath d (replaceFirst
      ((if "localhost".toList.length = 4 then "localhost".toList else []) ++ [':', '/', '/']) []
      "localhost:".toList) = some (d.DefaultLocalPort ++ [':'] ++ [], [], []) := by rfl
  simp only [hs]
  simp

theorem getScheme_colon (x : Str) : getScheme (':' :: x) = none := by
  have h1 : isAlpha ':' = false := by decide
  have h2 : isDigit ':' = false := by decide
  simp [getScheme, getSchemeLoop, h1, h2]

theorem urlParse_colon (p : Str) : ∃ e, urlParse (':' :: p) = .error e := by
  have hcut : (cut '#' (':' :: p)).1 = ':' :: (cut '#' p).1 :=
    cut_fst_cons_ne '#' ':' p (by decide)
  have hparse : ∃ e, parse (':' :: (cut '#' p).1) = .error e := by
    unfold parse
    rw [getScheme_colon]
    split_ifs
    · exact ⟨_, rfl⟩
    · rename_i _ h2
      simp at h2
    · exact ⟨_, rfl⟩
  obtain ⟨e, he⟩ := hparse
  unfold urlParse
  rw [hcut, he]
  exact ⟨_, rfl⟩

/-- Claim C4 (the code at the failing inputs): every raw string that starts
with a colon, `:1935` among them, is rejected by `url.Parse` with "missing
protocol scheme", so `NewAddr` returns an error and the default local host is
never substituted. -/
theorem NewAddr_leading_colon_fails (d : Defaults) (rnd : Nat → Nat) (p : Str) :
    ∃ e, NewAddr d rnd (':' :: p) = .error e := by
  obtain ⟨e, he⟩ := urlParse_colon p
  unfold NewAddr
  rw [he]
  exact ⟨_, rfl⟩

/-! ## Theorems: command dispatch -/

theorem Proto.mem_recognised_of_unsupported (p : Proto) (t : Nat) (h : t ∈ p.unsupported) :
    t ∈ p.recognised := by
  simp only [Proto.unsupported, Proto.recognised, List.mem_cons, List.mem_singleton,
    List.not_mem_nil, or_false] at h ⊢
  rcases h with h | h | h | h | h | h | h <;> simp [h]

theorem routeCommand_unknown (p : Proto) (hs : Handlers) (n : Str) (s : ServerConn)
    (x : ChunkStream) (hn : n ∉ p.commands) :
    routeCommand p hs n s x = .ret (some (.other "unsupported commandName"), s, x) := by
  simp only [Proto.commands, List.mem_cons, List.mem_singleton, List.not_mem_nil, or_false,
    not_or] at hn
  obtain ⟨h1, h2, h3, h4⟩ := hn
  simp [routeCommand, h1, h2, h3, h4]

theorem handleCommand_of_name (p : Proto) (hs : Handlers) (dec : Decoder) (s : ServerConn)
    (x : ChunkStream) (n : Str) (h : commandNameOf p dec x = some n) :
    ∃ x2, handleCommand p hs dec s x = routeCommand p hs n s x2 := by
  unfold commandNameOf at h
  unfold handleCommand
  by_cases h3 : x.TypeID = p.CommandMessageAMF3ID ∧ x.Data = []
  · rw [if_pos h3] at h; cases h
  · rw [if_neg h3] at h
    rw [if_neg h3]
    simp only [] at h ⊢
    by_cases hty : x.TypeID = p.CommandMessageAMF3ID
    · simp only [hty, if_true] at h ⊢
      split_ifs at h with he hl
      rcases hd : dec (List.drop 1 x.Data) AMFVersion.AMF3 with ⟨vs, err⟩
      rw [hd] at h he hl
      simp only [] at h he hl ⊢
      rw [if_neg he, if_neg hl]
      split at h
      · rename_i n' hn'
        injection h with h
        subst h
        exact ⟨_, rfl⟩
      · cases h
    · simp only [hty, if_false] at h ⊢
      split_ifs at h with he hl
      rcases hd : dec x.Data AMFVersion.AMF0 with ⟨vs, err⟩
      rw [hd] at h he hl
      simp only [] at h he hl ⊢
      rw [if_neg he, if_neg hl]
      split at h
      · rename_i n' hn'
        injection h with h
        subst h
        exact ⟨_, rfl⟩
      · cases h

/-- An AMF3 command message with an empty payload makes `handleCommand` panic:
the slice `x.Data[1:]` is out of range, whatever the decoder and the handlers
are. -/
theorem handleCommand_amf3_empty_payload (p : Proto) (hs : Handlers) (dec : Decoder)
    (s : ServerConn) :
    handleCommand p hs dec s { ChunkStream.zero with TypeID := p.CommandMessageAMF3ID }
      = .panic "slice bounds out of range [1:0]" := by
  simp [handleCommand, ChunkStream.zero]

/-- Claim C5 (amended): for a command message whose payload can be sliced (an
AMF3 payload is not empty) and decodes to the values `vs` with decoder result
`err`: when `err` is an error other than `io.EOF`, `handleCommand` returns it
and no handler runs; when `err` is nil or `io.EOF` and fewer than two values
were decoded or the first is not a string, `handleCommand` returns a non-nil
error and no handler runs; when `err` is nil or `io.EOF`, at least two values
were decoded and the first is the string `n`, then `n` is the command name
passed to `routeCommand`. -/
theorem handleCommand_checks (p : Proto) (dec : Decoder) (s : ServerConn) (x : ChunkStream)
    (vs : List AMFValue) (err : Option GoError)
    (hslice : x.TypeID = p.CommandMessageAMF3ID → x.Data ≠ [])
    (hdec : dec (if x.TypeID = p.CommandMessageAMF3ID then x.Data.drop 1 else x.Data)
      (if x.TypeID = p.CommandMessageAMF3ID then AMFVersion.AMF3 else AMFVersion.AMF0)
      = (vs, err)) :
    (err ≠ none → err ≠ some GoError.EOF →
        ∃ x1, ∀ hs, handleCommand p hs dec s x = .ret (err, s, x1)) ∧
      ((err = none ∨ err = some GoError.EOF) →
        (vs.length < 2 ∨ ∀ n, vs.head? ≠ some (AMFValue.string n)) →
        ∃ e x2, ∀ hs, handleCommand p hs dec s x = .ret (some e, s, x2)) ∧
      ((err = none ∨ err = some GoError.EOF) → 2 ≤ vs.length →
        ∀ n, vs.head? = some (AMFValue.string n) →
        ∃ x2, x2.batchedValues = vs ∧
          ∀ hs, handleCommand p hs dec s x = routeCommand p hs n s x2) := by
  have h3 : ¬ (x.TypeID = p.CommandMessageAMF3ID ∧ x.Data = []) := fun h => hslice h.1 h.2
  have hd : dec (if x.TypeID = p.CommandMessageAMF3ID then
        { x with Data := x.Data.drop 1 } else x).Data
      (if x.TypeID = p.CommandMessageAMF3ID then AMFVersion.AMF3 else AMFVersion.AMF0)
      = (vs, err) := by
    rw [← hdec]
    by_cases hty : x.TypeID = p.CommandMessageAMF3ID
    · simp only [hty, if_true]
    · simp only [hty, if_false]
  refine ⟨?_, ?_, ?_⟩
  · intro he1 he2
    refine ⟨(if x.TypeID = p.CommandMessageAMF3ID then
      { x with Data := x.Data.drop 1 } else x), fun hs => ?_⟩
    unfold handleCommand
    rw [if_neg h3]
    simp only []
    rw [hd]
    simp only []
    rw [if_pos ⟨he1, he2⟩]
  · intro he hbad
    have hne : ¬ (err ≠ none ∧ err ≠ some GoError.EOF) := by
      rcases he with he | he <;> simp [he]
    by_cases hl : vs.length ≤ 1
    · refine ⟨.other "decoder failure: unable to decode from protocol",
        { (if x.TypeID = p.CommandMessageAMF3ID then
      { x with Data := x.Data.drop 1 } else x) with batchedValues := vs }, fun hs => ?_⟩
      unfold handleCommand
      rw [if_neg h3]
      simp only []
      rw [hd]
      simp only []
      rw [if_neg hne, if_pos hl]
    · have hhead : ∀ n, vs.head? ≠ some (AMFValue.string n) := by
        rcases hbad with hb | hb
        · omega
        · exact hb
      refine ⟨.other "decoder failure: unable to render command name",
        { (if x.TypeID = p.CommandMessageAMF3ID then
      { x with Data := x.Data.drop 1 } else x) with batchedValues := vs }, fun hs => ?_⟩
      unfold handleCommand
      rw [if_neg h3]
      simp only []
      rw [hd]
      simp only []
      rw [if_neg hne, if_neg hl]
  · intro he hlen n hn
    have hne : ¬ (err ≠ none ∧ err ≠ some GoError.EOF) := by
      rcases he with he | he <;> simp [he]
    have hl : ¬ vs.length ≤ 1 := by omega
    refine ⟨{ (if x.TypeID = p.CommandMessageAMF3ID then
        { x with Data := x.Data.drop 1 } else x) with batchedValues := vs }, rfl, fun hs => ?_⟩
    unfold handleCommand
    rw [if_neg h3]
    simp only []
    rw [hd]
    simp only []
    rw [if_neg hne, if_neg hl, hn]

/-- Witness for C5: an AMF0 command message decoded to the name `deleteStream`
and one more value has that name passed to `routeCommand`. -/
theorem handleCommand_checks_witness :
    ∃ x2, x2.batchedValues = [AMFValue.string "deleteStream".toList, AMFValue.other 0] ∧
      ∀ hs, handleCommand rtmpProto hs deleteStreamDecoder freshServerConn amf0Command
        = routeCommand rtmpProto hs "deleteStream".toList freshServerConn x2 :=
  (handleCommand_checks rtmpProto deleteStreamDecoder freshServerConn amf0Command
    [AMFValue.string "deleteStream".toList, AMFValue.other 0] (some GoError.EOF)
    (fun h => absurd h (by decide)) rfl).2.2 (Or.inr rfl) (by decide) _ rfl

/-- Counterexample for C5 as stated: the decoder yields the two values
`connect` and one more, the first a string, but stops with an error other than
`io.EOF`; `handleCommand` returns that error with the session unchanged, and
`connect` is not passed to `routeCommand`, whose connect handler would have
returned without error. -/
theorem handleCommand_decoder_error_counterexample :
    handleCommand rtmpProto idleHandlers failingDecoder freshServerConn amf0Command
        = .ret (some (.other "decode amf0: unsupported type"), freshServerConn, amf0Command) ∧
      (failingDecoder amf0Command.Data AMFVersion.AMF0).1.length = 2 ∧
      (failingDecoder amf0Command.Data AMFVersion.AMF0).1.head?
        = some (AMFValue.string "connect".toList) ∧
      ∀ x2, routeCommand rtmpProto idleHandlers "connect".toList freshServerConn x2
        = .ret (none, freshServerConn, x2) := by
  refine ⟨by rfl, by rfl, by rfl, fun x2 => ?_⟩
  have h : "connect".toList = rtmpProto.CommandConnect := rfl
  unfold routeCommand
  rw [if_pos h]
  rfl

theorem Route_passive (p : Proto) (hs : Handlers) (dec : Decoder) (s : ServerConn)
    (x : ChunkStream) (h : x.TypeID ∉ p.active) : Route p hs dec s x = .ret (none, s) := by
  simp only [Proto.active, List.mem_cons, List.mem_singleton, List.not_mem_nil, or_false,
    not_or] at h
  obtain ⟨h1, h2, h3, h4, h5, h6, h7, h8⟩ := h
  simp [Route, h1, h2, h3, h4, h5, h6, h7, h8]

theorem Proto.unsupported_not_active (p : Proto) (t : Nat) (h : t ∈ p.unsupported) :
    t ∉ p.active := by
  intro ha
  have hnd := p.ids_nodup
  simp only [List.nodup_cons, List.mem_cons, List.mem_singleton, List.not_mem_nil, or_false,
    not_or, List.nodup_nil, and_true, not_false_eq_true] at hnd
  simp only [Proto.unsupported, Proto.active, List.mem_cons, List.mem_singleton,
    List.not_mem_nil, or_false] at h ha
  rcases h with h | h | h | h | h | h | h <;>
    rcases ha with ha | ha | ha | ha | ha | ha | ha | ha <;>
    (rw [h] at ha; simp [ha] at hnd)

theorem Proto.active_of_not_recognised (p : Proto) (t : Nat) (h : t ∉ p.recognised) :
    t ∉ p.active := by
  intro ha
  apply h
  simp only [Proto.recognised, Proto.active, List.mem_cons, List.mem_singleton,
    List.not_mem_nil, or_false] at ha ⊢
  rcases ha with ha | ha | ha | ha | ha | ha | ha | ha <;> simp [ha]

theorem Route_command (p : Proto) (hs : Handlers) (dec : Decoder) (s : ServerConn)
    (x : ChunkStream)
    (hty : x.TypeID = p.CommandMessageAMF0ID ∨ x.TypeID = p.CommandMessageAMF3ID) :
    Route p hs dec s x =
      match handleCommand p hs dec s x with
      | .panic m => .panic m
      | .ret (_, s1, _) => .ret (none, s1) := by
  have hnd := p.ids_nodup
  simp only [List.nodup_cons, List.mem_cons, List.mem_singleton, List.not_mem_nil, or_false,
    not_or, List.nodup_nil, and_true, not_false_eq_true] at hnd
  obtain ⟨⟨-, -, -, -, -, a06, a07, -⟩, ⟨-, -, -, -, a16, a17, -⟩, ⟨-, -, -, a26, a27, -⟩,
    ⟨-, -, a36, a37, -⟩, ⟨-, a46, a47, -⟩, ⟨a56, a57, -⟩, -⟩ := hnd
  unfold Route
  rcases hty with h | h
  · rw [h, if_neg (Ne.symm a06), if_neg (Ne.symm a16), if_neg (Ne.symm a26),
      if_neg (Ne.symm a36), if_neg (Ne.symm a46), if_neg (Ne.symm a56), if_pos (Or.inl rfl)]
  · rw [h, if_neg (Ne.symm a07), if_neg (Ne.symm a17), if_neg (Ne.symm a27),
      if_neg (Ne.symm a37), if_neg (Ne.symm a47), if_neg (Ne.symm a57), if_pos (Or.inr rfl)]

/-- Claim C9: for a message whose type-id is not recognised, a message of an
unsupported recognised type (Abort, Acknowledgement, SetPeerBandwidth,
UserControl, SharedObject, Aggregate), and a command message whose command name
is none of connect, createStream, publish and play, `Route` returns nil and
the session is returned as it was: nothing is written to the stream and the
remote chunk size and window-acknowledgement size are unchanged. -/
theorem Route_unhandled (p : Proto) (hs : Handlers) (dec : Decoder) (s : ServerConn)
    (x : ChunkStream)
    (h : x.TypeID ∉ p.recognised ∨ x.TypeID ∈ p.unsupported ∨
      ((x.TypeID = p.CommandMessageAMF0ID ∨ x.TypeID = p.CommandMessageAMF3ID) ∧
        ∃ n, commandNameOf p dec x = some n ∧ n ∉ p.commands)) :
    Route p hs dec s x = .ret (none, s) ∧
      ∀ s1, Route p hs dec s x = .ret (none, s1) →
        s1.stream = s.stream ∧ s1.conn.remoteChunkSize = s.conn.remoteChunkSize ∧
          s1.conn.remoteWindowAckSize = s.conn.remoteWindowAckSize := by
  have key : Route p hs dec s x = .ret (none, s) := by
    rcases h with h | h | ⟨hty, n, hn, hnot⟩
    · exact Route_passive p hs dec s x (p.active_of_not_recognised _ h)
    · exact Route_passive p hs dec s x (p.unsupported_not_active _ h)
    · obtain ⟨x2, hx2⟩ := handleCommand_of_name p hs dec s x n hn
      rw [Route_command p hs dec s x hty, hx2, routeCommand_unknown p hs n s x2 hnot]
  refine ⟨key, ?_⟩
  intro s1 h1
  rw [key] at h1
  injection h1 with h1
  injection h1 with _ h1
  subst h1
  exact ⟨rfl, rfl, rfl⟩

/-- Witness for C9: on a fresh session, an AMF0 command message whose decoded
command name is `deleteStream` is dropped. -/
theorem Route_unhandled_witness :
    Route rtmpProto idleHandlers deleteStreamDecoder freshServerConn
        { ChunkStream.zero with TypeID := 20, Data := [2, 0, 12] } = .ret (none, freshServerConn) ∧
      ∀ s1, Route rtmpProto idleHandlers deleteStreamDecoder freshServerConn
          { ChunkStream.zero with TypeID := 20, Data := [2, 0, 12] } = .ret (none, s1) →
        s1.stream = freshServerConn.stream ∧
          s1.conn.remoteChunkSize = freshServerConn.conn.remoteChunkSize ∧
          s1.conn.remoteWindowAckSize = freshServerConn.conn.remoteWindowAckSize :=
  Route_unhandled rtmpProto idleHandlers deleteStreamDecoder freshServerConn
    { ChunkStream.zero with TypeID := 20, Data := [2, 0, 12] }
    (Or.inr (Or.inr ⟨Or.inl rfl, "deleteStream".toList, by rfl, by decide⟩))

theorem Conn.ack_remote (c : Conn) (n : Nat) :
    (c.ack n).remoteChunkSize = c.remoteChunkSize ∧
      (c.ack n).remoteWindowAckSize = c.remoteWindowAckSize := by
  unfold Conn.ack
  simp only []
  split_ifs <;> exact ⟨rfl, rfl⟩

theorem bigEndianUint32_cons (b0 b1 b2 b3 : Nat) (rest : List Nat) :
    bigEndianUint32 (b0 :: b1 :: b2 :: b3 :: rest)
      = some (((b0 * 256 + b1) * 256 + b2) * 256 + b3) := by
  simp [bigEndianUint32, beValue]

theorem Route_SetChunkSize (p : Proto) (hs : Handlers) (dec : Decoder) (s : ServerConn)
    (x : ChunkStream) (v : Nat) (hty : x.TypeID = p.SetChunkSizeMessageID)
    (hv : bigEndianUint32 x.Data = some v) :
    Route p hs dec s x
      = .ret (none, { s with conn := ({ s.conn with remoteChunkSize := v }).ack x.Length }) := by
  unfold Route
  rw [if_pos hty, hv]

theorem Route_WindowAcknowledgementSize (p : Proto) (hs : Handlers) (dec : Decoder)
    (s : ServerConn) (x : ChunkStream) (v : Nat)
    (hty : x.TypeID = p.WindowAcknowledgementSizeMessageID)
    (hv : bigEndianUint32 x.Data = some v) :
    Route p hs dec s x
      = .ret (none, { s with conn := ({ s.conn with remoteWindowAckSize := v }).ack x.Length }) := by
  have hnd := p.ids_nodup
  simp only [List.nodup_cons, List.mem_cons, List.mem_singleton, List.not_mem_nil, or_false,
    not_or, List.nodup_nil, and_true, not_false_eq_true] at hnd
  obtain ⟨⟨-, -, a03, -⟩, ⟨-, a13, -⟩, ⟨a23, -⟩, -⟩ := hnd
  unfold Route
  rw [hty, if_neg (Ne.symm a03), if_neg (Ne.symm a13), if_neg (Ne.symm a23), if_pos rfl, hv]

theorem RoutePackets_step (p : Proto) (hs : Handlers) (dec : Decoder) (read : Reader)
    (fuel : Nat) (s s2 : ServerConn) (c1 : Conn) (x : ChunkStream)
    (hread : read s.conn = .ret (none, c1, x))
    (hroute : Route p hs dec { s with conn := c1 } x = .ret (none, s2)) :
    RoutePackets p hs dec read (fuel + 1) s = RoutePackets p hs dec read fuel s2 := by
  simp [RoutePackets, NextChunk, hread, hroute]

/-- Claim C10: a SetChunkSize message whose payload starts with the bytes
`b0 b1 b2 b3` makes `Route` return with `remoteChunkSize` equal to their
big-endian value, and a WindowAcknowledgementSize message does the same for
`remoteWindowAckSize`; the update is part of the session `Route` returns, so in
`RoutePackets` the round that reads such a message hands the updated
connection to the read of the next chunk. -/
theorem Route_control_sizes (p : Proto) (hs : Handlers) (dec : Decoder) (s : ServerConn)
    (x : ChunkStream) (b0 b1 b2 b3 : Nat) (rest : List Nat)
    (hdata : x.Data = b0 :: b1 :: b2 :: b3 :: rest) :
    (x.TypeID = p.SetChunkSizeMessageID →
      ∃ s1, Route p hs dec s x = .ret (none, s1) ∧
        s1.conn.remoteChunkSize = ((b0 * 256 + b1) * 256 + b2) * 256 + b3 ∧
        ∀ (read : Reader) (fuel : Nat) (s0 : ServerConn),
          read s0.conn = .ret (none, s.conn, x) → s = { s0 with conn := s.conn } →
          RoutePackets p hs dec read (fuel + 1) s0 = RoutePackets p hs dec read fuel s1) ∧
    (x.TypeID = p.WindowAcknowledgementSizeMessageID →
      ∃ s1, Route p hs dec s x = .ret (none, s1) ∧
        s1.conn.remoteWindowAckSize = ((b0 * 256 + b1) * 256 + b2) * 256 + b3 ∧
        ∀ (read : Reader) (fuel : Nat) (s0 : ServerConn),
          read s0.conn = .ret (none, s.conn, x) → s = { s0 with conn := s.conn } →
          RoutePackets p hs dec read (fuel + 1) s0 = RoutePackets p hs dec read fuel s1) := by
  have hv : bigEndianUint32 x.Data = some (((b0 * 256 + b1) * 256 + b2) * 256 + b3) := by
    rw [hdata]; exact bigEndianUint32_cons b0 b1 b2 b3 rest
  constructor
  · intro hty
    have hr := Route_SetChunkSize p hs dec s x _ hty hv
    refine ⟨_, hr, ?_, ?_⟩
    · exact (Conn.ack_remote _ _).1
    · intro read fuel s0 hread hs0
      apply RoutePackets_step p hs dec read fuel s0 _ s.conn x hread
      rw [← hs0]; exact hr
  · intro hty
    have hr := Route_WindowAcknowledgementSize p hs dec s x _ hty hv
    refine ⟨_, hr, ?_, ?_⟩
    · exact (Conn.ack_remote _ _).2
    · intro read fuel s0 hread hs0
      apply RoutePackets_step p hs dec read fuel s0 _ s.conn x hread
      rw [← hs0]; exact hr

/-- Witness for C10: the SetChunkSize payload `00 00 10 00` sets the remote
chunk size of a fresh session to 4096. -/
theorem Route_control_sizes_witness :
    ∃ s1, Route rtmpProto idleHandlers deleteStreamDecoder freshServerConn setChunkSize4096
        = .ret (none, s1) ∧
      s1.conn.remoteChunkSize = 4096 ∧
      ∀ (read : Reader) (fuel : Nat) (s0 : ServerConn),
        read s0.conn = .ret (none, freshServerConn.conn, setChunkSize4096) →
        freshServerConn = { s0 with conn := freshServerConn.conn } →
        RoutePackets rtmpProto idleHandlers deleteStreamDecoder read (fuel + 1) s0
          = RoutePackets rtmpProto idleHandlers deleteStreamDecoder read fuel s1 :=
  (Route_control_sizes rtmpProto idleHandlers deleteStreamDecoder freshServerConn
    setChunkSize4096 0 0 16 0 [] rfl).1 rfl

/-! ## Theorems: chunk codec -/

theorem length_uintBE (v n : Nat) : (uintBE v n).length = n := by
  induction n with
  | zero => rfl
  | succ n ih => simp [uintBE, ih]

theorem length_uintLE (v n : Nat) : (uintLE v n).length = n := by
  induction n generalizing v with
  | zero => rfl
  | succ n ih => simp [uintLE, ih]

theorem length_basicHeader_small (fmt csid : Nat) (h : csid < 64) :
    (basicHeader fmt csid).length = 1 := by
  simp [basicHeader, h]

theorem length_writeHeader_zero (cs : ChunkStream) (hcsid : cs.CSID < 64)
    (hts : cs.Timestamp < 0xffffff) : (writeHeader cs 0).length = 12 := by
  have h1 : ¬ cs.Timestamp ≥ 0xffffff := by omega
  have h2 : ¬ cs.Timestamp > 0xffffff := by omega
  simp [writeHeader, messageHeader, extendedTimestamp, length_basicHeader_small _ _ hcsid,
    h1, h2, length_uintBE, length_uintLE]

theorem length_writeHeader_three (cs : ChunkStream) (hcsid : cs.CSID < 64)
    (hts : cs.Timestamp < 0xffffff) : (writeHeader cs 3).length = 1 := by
  have h1 : ¬ cs.Timestamp ≥ 0xffffff := by omega
  simp [writeHeader, messageHeader, extendedTimestamp, length_basicHeader_small _ _ hcsid, h1]

theorem ceilDiv_le_one (n c : Nat) (hc : 1 ≤ c) (h : n ≤ c) : (n + c - 1) / c - 1 = 0 := by
  have : (n + c - 1) / c < 2 := by
    rw [Nat.div_lt_iff_lt_mul (by omega)]
    omega
  omega

theorem ceilDiv_step (n c : Nat) (hc : 1 ≤ c) (h : c < n) :
    (n + c - 1) / c - 1 = ((n - c) + c - 1) / c - 1 + 1 := by
  have e : n + c - 1 = ((n - c) + c - 1) + c := by omega
  have hpos : 1 ≤ ((n - c) + c - 1) / c := by
    rw [Nat.le_div_iff_mul_le (by omega)]
    omega
  rw [e, Nat.add_div_right _ (by omega : 0 < c)]
  omega

theorem length_writeFragments (cs : ChunkStream) (c : Nat) (hc : 1 ≤ c)
    (hcsid : cs.CSID < 64) (hts : cs.Timestamp < 0xffffff) :
    ∀ (fuel : Nat) (data : List Nat), data.length ≤ fuel →
      (writeFragments cs c fuel data).length = data.length + ((data.length + c - 1) / c - 1) := by
  intro fuel
  induction fuel with
  | zero =>
    intro data hd
    have : data.length = 0 := by omega
    simp only [writeFragments, this, List.length_nil]
    rw [ceilDiv_le_one 0 c hc (by omega)]
  | succ fuel ih =>
    intro data hd
    unfold writeFragments
    by_cases hle : data.length ≤ c
    · rw [if_pos hle, ceilDiv_le_one _ _ hc hle]
      rfl
    · rw [if_neg hle]
      have hlt : c < data.length := by omega
      have hdrop : (data.drop c).length ≤ fuel := by
        rw [List.length_drop]; omega
      rw [List.length_append, List.length_append, ih _ hdrop, List.length_take,
        length_writeHeader_three cs hcsid hts, List.length_drop, ceilDiv_step _ _ hc hlt]
      have : min c data.length = c := by omega
      omega

/-- Claim C6: `writeChunk` of a format-0 message with chunk-stream-id below
64, timestamp below `0xFFFFFF` and a payload of `L >= 1` bytes, at chunk size
`C >= 1`, returns no error and emits exactly `1 + 11 + L + (ceil(L/C) - 1)`
bytes. -/
theorem writeChunk_length (cs : ChunkStream) (c : Nat) (hfmt : cs.Format = 0)
    (hcsid : cs.CSID < 64) (hts : cs.Timestamp < 0xffffff) (hL : 1 ≤ cs.Data.length)
    (hc : 1 ≤ c) :
    ∃ out, writeChunk cs c = .ok out ∧
      out.length = 1 + 11 + cs.Data.length + ((cs.Data.length + c - 1) / c - 1) := by
  have hc0 : c ≠ 0 := by omega
  refine ⟨_, by rw [writeChunk, if_neg hc0], ?_⟩
  rw [hfmt, List.length_append, length_writeHeader_zero cs hcsid hts,
    length_writeFragments cs c hc hcsid hts _ _ (Nat.le_refl _)]
  have := hL
  omega

/-- Witness for C6: the message of `TestWriteChunk` (307 bytes, chunk size
128, chunk stream 4, timestamp 40, type 9) is written as 321 bytes. -/
theorem writeChunk_length_witness :
    ∃ out, writeChunk testWriteMessage 128 = .ok out ∧ out.length = 321 := by
  have e : testWriteMessage.Data.length = 307 := List.length_replicate 307 0
  have h := writeChunk_length testWriteMessage 128 rfl (by decide) (by decide)
    (by rw [e]; decide) (by decide)
  rw [e] at h
  exact h

theorem beValue_uintBE (v n : Nat) :
    ∀ acc, beValue acc (uintBE v n) = acc * 256 ^ n + v % 256 ^ n := by
  induction n with
  | zero => intro acc; simp [uintBE, beValue, Nat.mod_one]
  | succ n ih =>
    intro acc
    simp only [uintBE, beValue, ih]
    rw [Nat.mod_pow_succ, Nat.pow_succ]
    ring

theorem leValue_uintLE (n : Nat) : ∀ v, leValue (uintLE v n) = v % 256 ^ n := by
  induction n with
  | zero => intro v; simp [uintLE, leValue, Nat.mod_one]
  | succ n ih =>
    intro v
    simp only [uintLE, leValue, ih]
    rw [Nat.pow_succ, Nat.mul_comm (256 ^ n) 256, Nat.mod_mul]

theorem readUintBE_append (n : Nat) (bs tail : List Nat) (h : bs.length = n) :
    readUintBE n (bs ++ tail) = some (beValue 0 bs, tail) := by
  subst h
  simp [readUintBE]

theorem readUintLE_append (n : Nat) (bs tail : List Nat) (h : bs.length = n) :
    readUintLE n (bs ++ tail) = some (leValue bs, tail) := by
  subst h
  simp [readUintLE]

theorem readUintBE_uintBE (v n : Nat) (tail : List Nat) (hv : v < 256 ^ n) :
    readUintBE n (uintBE v n ++ tail) = some (v, tail) := by
  rw [readUintBE_append n _ _ (length_uintBE v n), beValue_uintBE, Nat.mod_eq_of_lt hv]
  simp

theorem readUintLE_uintLE (v n : Nat) (tail : List Nat) (hv : v < 256 ^ n) :
    readUintLE n (uintLE v n ++ tail) = some (v, tail) := by
  rw [readUintLE_append n _ _ (length_uintLE v n), leValue_uintLE, Nat.mod_eq_of_lt hv]

theorem readStep_basicHeader (st : ChunkStream) (fmt csid c : Nat) (tail : List Nat)
    (hlo : 2 ≤ csid) (hhi : csid < 65600) :
    readStep st (basicHeader fmt csid ++ tail) c
      = readMessageHeader { st with tmpFormat := fmt, CSID := csid } tail c := by
  unfold basicHeader
  by_cases h1 : csid < 64
  · rw [if_pos h1]
    have e1 : (fmt * 64 + csid) / 64 = fmt := by omega
    have e2 : (fmt * 64 + csid) % 64 = csid := by omega
    have hr : readUintBE 1 ([fmt * 64 + csid] ++ tail) = some (fmt * 64 + csid, tail) := by
      simp [readUintBE, beValue]
    have h0 : csid ≠ 0 := by omega
    have h01 : csid ≠ 1 := by omega
    simp only [readStep, hr, e1, e2, readChunk, readCSID, h0, h01, if_false]
  · rw [if_neg h1]
    by_cases h2 : csid - 64 < 256
    · rw [if_pos h2]
      have e1 : (fmt * 64) / 64 = fmt := by omega
      have e2 : (fmt * 64) % 64 = 0 := by omega
      have hr : readUintBE 1 ([fmt * 64, csid - 64] ++ tail) = some (fmt * 64, (csid - 64) :: tail) := by
        simp [readUintBE, beValue]
      have hl : readUintLE 1 ((csid - 64) :: tail) = some (csid - 64, tail) := by
        simp [readUintLE, leValue]
      have e3 : csid - 64 + 64 = csid := by omega
      simp only [readStep, hr, e1, e2, readChunk, readCSID, if_true, hl, Option.map_some', e3]
    · rw [if_neg h2]
      have e1 : (fmt * 64 + 1) / 64 = fmt := by omega
      have e2 : (fmt * 64 + 1) % 64 = 1 := by omega
      have hr : readUintBE 1 (([fmt * 64 + 1] ++ uintLE (csid - 64) 2) ++ tail)
          = some (fmt * 64 + 1, uintLE (csid - 64) 2 ++ tail) := by
        simp [readUintBE, beValue]
      have hl : readUintLE 2 (uintLE (csid - 64) 2 ++ tail) = some (csid - 64, tail) :=
        readUintLE_uintLE _ _ _ (by norm_num; omega)
      have e3 : csid - 64 + 64 = csid := by omega
      have h10 : (1 : Nat) ≠ 0 := by decide
      simp only [readStep, hr, e1, e2, readChunk, readCSID, h10, if_false, if_true, hl,
        Option.map_some', e3]

theorem readBody_append (st : ChunkStream) (body tail : List Nat) (c : Nat)
    (hr : st.remain < 2 ^ 32) (hb : body.length = min st.remain c) :
    readBody st (body ++ tail) c
      = .ok ({ st with Data := st.Data ++ body, remain := st.remain - body.length }, tail) := by
  have hsize : (if st.remain > c then c else st.remain) = body.length := by
    rw [hb]; split_ifs <;> omega
  unfold readBody
  simp only [hsize]
  have h1 : ¬ (body ++ tail).length < body.length := by simp
  have h2 : (st.remain + 2 ^ 32 - body.length) % 2 ^ 32 = st.remain - body.length := by
    have : body.length ≤ st.remain := by rw [hb]; omega
    omega
  rw [if_neg h1, h2]
  simp

theorem readExtended_written (cs : ChunkStream) (tail : List Nat)
    (hts : cs.Timestamp < 2 ^ 32) :
    readExtended (if cs.Timestamp > 0xffffff then 0xffffff else cs.Timestamp)
        (extendedTimestamp cs ++ tail)
      = some (cs.Timestamp, decide (cs.Timestamp ≥ 0xffffff), tail) := by
  unfold readExtended extendedTimestamp
  by_cases h : cs.Timestamp ≥ 0xffffff
  · have hf : (if cs.Timestamp > 0xffffff then 0xffffff else cs.Timestamp) = 0xffffff := by
      split_ifs <;> omega
    rw [hf, if_pos rfl, if_pos h, readUintBE_uintBE _ _ _ (by norm_num; omega)]
    simp [h]
  · have hf : (if cs.Timestamp > 0xffffff then 0xffffff else cs.Timestamp) = cs.Timestamp := by
      split_ifs <;> omega
    have hne : cs.Timestamp ≠ 0xffffff := by omega
    rw [hf, if_neg hne, if_neg h]
    simp [h]

theorem readStep_writeHeader_zero (cs st0 : ChunkStream) (c : Nat) (tail : List Nat)
    (hlo : 2 ≤ cs.CSID) (hhi : cs.CSID < 65600) (hts : cs.Timestamp < 2 ^ 32)
    (hL : cs.Length < 2 ^ 24) (hty : cs.TypeID < 256) (hsid : cs.StreamID < 2 ^ 32) :
    readStep st0 (writeHeader cs 0 ++ tail) c
      = readBody (readerState cs st0.batchedValues 0 cs.Length []) tail c := by
  have hfield : (if cs.Timestamp > 0xffffff then 0xffffff else cs.Timestamp) < 256 ^ 3 := by
    split_ifs <;> (norm_num; try omega)
  unfold writeHeader
  rw [List.append_assoc, List.append_assoc, readStep_basicHeader _ _ _ _ _ hlo hhi]
  unfold readMessageHeader messageHeader
  simp only [if_true, List.append_assoc]
  have h3 : (0 : Nat) ≠ 3 := by decide
  have h2 : (0 : Nat) ≠ 2 := by decide
  have h1 : (0 : Nat) ≠ 1 := by decide
  rw [if_neg h3, if_neg h2, if_neg h1]
  simp only [List.append_assoc]
  rw [readUintBE_uintBE _ 3 _ hfield]
  simp only []
  rw [readUintBE_uintBE _ 3 _ (by norm_num; omega)]
  simp only []
  rw [readUintBE_uintBE _ 1 _ (by norm_num; omega)]
  simp only []
  rw [readUintLE_uintLE _ 4 _ (by norm_num; omega)]
  simp only []
  rw [readExtended_written cs tail hts]
  rfl

theorem readStep_writeHeader_three (cs : ChunkStream) (bv : List AMFValue) (f r c : Nat)
    (d tail : List Nat) (hlo : 2 ≤ cs.CSID) (hhi : cs.CSID < 65600)
    (hts : cs.Timestamp < 2 ^ 32) (hr : r ≠ 0) :
    readStep (readerState cs bv f r d) (writeHeader cs 3 ++ tail) c
      = readBody (readerState cs bv 3 r d) tail c := by
  unfold writeHeader
  rw [List.append_assoc, List.append_assoc, readStep_basicHeader _ _ _ _ _ hlo hhi]
  have hm : messageHeader cs 3 = [] := by simp [messageHeader]
  rw [hm, List.nil_append]
  unfold readMessageHeader
  have e : ({ readerState cs bv f r d with tmpFormat := 3, CSID := cs.CSID } : ChunkStream)
      = readerState cs bv 3 r d := rfl
  rw [e]
  have t0 : (readerState cs bv 3 r d).tmpFormat = 3 := rfl
  have hrem : (readerState cs bv 3 r d).remain = r := rfl
  have hex : (readerState cs bv 3 r d).exited = decide (cs.Timestamp ≥ 0xffffff) := rfl
  have htm : (readerState cs bv 3 r d).Timestamp = cs.Timestamp := rfl
  have n0 : (3 : Nat) ≠ 0 := by decide
  have n1 : (3 : Nat) ≠ 1 := by decide
  have n2 : (3 : Nat) ≠ 2 := by decide
  rw [t0, if_neg n0, if_neg n1, if_neg n2, if_pos rfl, hrem, if_neg hr, hex]
  unfold extendedTimestamp
  by_cases h : cs.Timestamp ≥ 0xffffff
  · rw [if_pos h]
    simp only [h, decide_True, if_true]
    rw [readUintBE_uintBE _ 4 _ (by norm_num; omega)]
    simp only [htm, if_true]
  · rw [if_neg h]
    simp [h]

theorem readBody_readerState (cs : ChunkStream) (bv : List AMFValue) (f r c : Nat)
    (d body tail : List Nat) (hr : r < 2 ^ 32) (hb : body.length = min r c) :
    readBody (readerState cs bv f r d) (body ++ tail) c
      = .ok (readerState cs bv f (r - body.length) (d ++ body), tail) :=
  readBody_append (readerState cs bv f r d) body tail c hr hb

theorem readLoop_fragments (cs : ChunkStream) (bv : List AMFValue) (c : Nat) (hc : 1 ≤ c)
    (hlo : 2 ≤ cs.CSID) (hhi : cs.CSID < 65600) (hts : cs.Timestamp < 2 ^ 32) :
    ∀ (fuelR fuelW f : Nat) (data acc tail : List Nat),
      data ≠ [] → data.length ≤ fuelR → data.length ≤ fuelW → data.length < 2 ^ 32 →
      readLoop c fuelR (readerState cs bv f data.length acc)
          (writeHeader cs 3 ++ (writeFragments cs c fuelW data ++ tail))
        = some (.ok (readerState cs bv 3 0 (acc ++ data), tail,
            remainTrace c fuelR data.length)) := by
  intro fuelR
  induction fuelR with
  | zero =>
    intro fuelW f data acc tail hne hR
    have : data.length = 0 := by omega
    exact absurd (List.length_eq_zero.1 this) hne
  | succ fuelR ih =>
    intro fuelW f data acc tail hne hR hW h32
    have hpos : 0 < data.length := List.length_pos.2 hne
    obtain ⟨w, rfl⟩ : ∃ w, fuelW = w + 1 := ⟨fuelW - 1, by omega⟩
    have hr0 : data.length ≠ 0 := by omega
    unfold readLoop
    rw [readStep_writeHeader_three cs bv f data.length c acc _ hlo hhi hts hr0]
    unfold writeFragments remainTrace
    by_cases hle : data.length ≤ c
    · rw [if_pos hle, if_pos hle,
        readBody_readerState cs bv 3 data.length c acc data tail h32 (by omega)]
      simp only [Nat.sub_self]
      rfl
    · rw [if_neg hle, if_neg hle, List.append_assoc, List.append_assoc,
        readBody_readerState cs bv 3 data.length c acc (data.take c) _ h32
          (by rw [List.length_take]; omega)]
      have htake : (data.take c).length = c := by rw [List.length_take]; omega
      have hdrop : (data.drop c).length = data.length - c := List.length_drop c data
      simp only [htake]
      have hrem : (readerState cs bv 3 (data.length - c) (acc ++ data.take c)).remain
          = data.length - c := rfl
      have hne0 : data.length - c ≠ 0 := by omega
      rw [hrem, if_neg hne0]
      have hdne : data.drop c ≠ [] := by
        intro e
        rw [e] at hdrop
        simp at hdrop
        omega
      have := ih w 3 (data.drop c) (acc ++ data.take c) tail hdne (by omega) (by omega) (by omega)
      rw [hdrop] at this
      rw [this]
      simp [List.append_assoc]

/-- Reading back what `writeChunk` wrote: the read loop of `TestChunkRead1`
recovers the header fields and the payload, leaves the bytes after the message
unread, and `remain` takes the values of `remainTrace`. -/
theorem readLoop_writeChunk (cs st0 : ChunkStream) (c fuel : Nat) (wire tail : List Nat)
    (hfmt : cs.Format = 0) (hlo : 2 ≤ cs.CSID) (hhi : cs.CSID < 65600)
    (hts : cs.Timestamp < 2 ^ 32) (hlen : cs.Length = cs.Data.length) (hL : cs.Length < 2 ^ 24)
    (hty : cs.TypeID < 256) (hsid : cs.StreamID < 2 ^ 32) (hfuel : cs.Length ≤ fuel)
    (hw : writeChunk cs c = .ok wire) :
    readLoop c (fuel + 1) st0 (wire ++ tail)
      = some (.ok (readerState cs st0.batchedValues (if cs.Length ≤ c then 0 else 3) 0 cs.Data,
          tail, remainTrace c (fuel + 1) cs.Length)) := by
  unfold writeChunk at hw
  by_cases hc0 : c = 0
  · rw [if_pos hc0] at hw; cases hw
  rw [if_neg hc0] at hw
  injection hw with hw
  subst hw
  have hc : 1 ≤ c := by omega
  rw [hfmt, List.append_assoc]
  unfold readLoop
  rw [readStep_writeHeader_zero cs st0 c _ hlo hhi hts hL hty hsid]
  unfold remainTrace
  have h32 : cs.Length < 2 ^ 32 := by omega
  by_cases hle : cs.Length ≤ c
  · have hwf : writeFragments cs c cs.Data.length cs.Data = cs.Data := by
      cases hd : cs.Data.length with
      | zero => rw [List.length_eq_zero.1 hd]; rfl
      | succ n => unfold writeFragments; rw [if_pos (by omega)]
    rw [hwf, readBody_readerState cs _ 0 cs.Length c [] cs.Data tail h32 (by omega), if_pos hle,
      if_pos hle]
    have e : cs.Length - cs.Data.length = 0 := by omega
    rw [e]
    simp only [List.nil_append]
    rfl
  · have hpos : cs.Data.length = (cs.Data.length - 1) + 1 := by omega
    rw [hpos]
    unfold writeFragments
    rw [if_neg (by omega), if_neg hle, if_neg hle, List.append_assoc, List.append_assoc,
      readBody_readerState cs _ 0 cs.Length c [] (cs.Data.take c) _ h32
        (by rw [List.length_take]; omega)]
    have htake : (cs.Data.take c).length = c := by rw [List.length_take]; omega
    have hdrop : (cs.Data.drop c).length = cs.Length - c := by rw [List.length_drop]; omega
    simp only [htake, List.nil_append]
    have hrem : (readerState cs st0.batchedValues 0 (cs.Length - c) (cs.Data.take c)).remain
        = cs.Length - c := rfl
    have hne0 : cs.Length - c ≠ 0 := by omega
    rw [hrem, if_neg hne0]
    have hdne : cs.Data.drop c ≠ [] := by
      intro e
      rw [e] at hdrop
      simp at hdrop
      omega
    have := readLoop_fragments cs st0.batchedValues c hc hlo hhi hts fuel (cs.Data.length - 1) 0
      (cs.Data.drop c) (cs.Data.take c) tail hdne (by omega) (by omega) (by omega)
    rw [hdrop] at this
    rw [this]
    simp

theorem length_remainTrace (c : Nat) (hc : 1 ≤ c) :
    ∀ (fuel n : Nat), n ≤ fuel → 1 ≤ fuel →
      (remainTrace c fuel n).length = max 1 ((n + c - 1) / c) := by
  intro fuel
  induction fuel with
  | zero => intro n _ h1; omega
  | succ fuel ih =>
    intro n hn _
    unfold remainTrace
    by_cases hle : n ≤ c
    · rw [if_pos hle]
      have := ceilDiv_le_one n c hc hle
      simp only [List.length_singleton]
      omega
    · rw [if_neg hle, List.length_cons, ih (n - c) (by omega) (by omega)]
      have := ceilDiv_step n c hc (by omega)
      have hpos : 1 ≤ ((n - c) + c - 1) / c := by
        rw [Nat.le_div_iff_mul_le (by omega)]
        omega
      omega

theorem remainTrace_le (c : Nat) :
    ∀ (fuel n : Nat), ∀ r ∈ remainTrace c fuel n, r ≤ n := by
  intro fuel
  induction fuel with
  | zero => intro n r hr; simp [remainTrace] at hr
  | succ fuel ih =>
    intro n r hr
    unfold remainTrace at hr
    by_cases hle : n ≤ c
    · rw [if_pos hle] at hr
      simp at hr
      omega
    · rw [if_neg hle] at hr
      rcases List.mem_cons.1 hr with e | hm
      · omega
      · have := ih (n - c) r hm
        omega

/-- Claim C7 (amended): for every message of declared length `L` written as a
format-0 chunk followed by format-3 continuation chunks at chunk size `C`,
calling `readChunk` until `remain == 0` consumes exactly `max(1, ceil(L/C))`
chunks (one chunk for an empty message) and ends with `Length = L`,
`len(Data) = L`, the type-id and stream id of the first header and `remain`
0; `remain` never exceeds `L` on the way, so it never wraps below zero. -/
theorem readLoop_message (cs st0 : ChunkStream) (c fuel : Nat) (wire tail : List Nat)
    (hfmt : cs.Format = 0) (hlo : 2 ≤ cs.CSID) (hhi : cs.CSID < 65600)
    (hts : cs.Timestamp < 2 ^ 32) (hlen : cs.Length = cs.Data.length) (hL : cs.Length < 2 ^ 24)
    (hty : cs.TypeID < 256) (hsid : cs.StreamID < 2 ^ 32) (hfuel : cs.Length ≤ fuel)
    (hw : writeChunk cs c = .ok wire) :
    ∃ st trace, readLoop c (fuel + 1) st0 (wire ++ tail) = some (.ok (st, tail, trace)) ∧
      trace.length = max 1 ((cs.Length + c - 1) / c) ∧
      st.Length = cs.Length ∧ st.Data.length = cs.Length ∧ st.TypeID = cs.TypeID ∧
      st.StreamID = cs.StreamID ∧ st.remain = 0 ∧ (∀ r ∈ trace, r ≤ cs.Length) := by
  have hc : 1 ≤ c := by
    unfold writeChunk at hw
    by_cases h0 : c = 0
    · rw [if_pos h0] at hw; cases hw
    · omega
  refine ⟨_, _, readLoop_writeChunk cs st0 c fuel wire tail hfmt hlo hhi hts hlen hL hty hsid
    hfuel hw, ?_, rfl, ?_, rfl, rfl, rfl, ?_⟩
  · exact length_remainTrace c hc (fuel + 1) cs.Length (by omega) (by omega)
  · exact hlen.symm
  · exact remainTrace_le c (fuel + 1) cs.Length

set_option maxRecDepth 100000 in
theorem writeChunk_testReadMessage : writeChunk testReadMessage 128 = .ok testChunkData1 := by
  rfl

/-- Witness for C7: the 307-byte message of `TestChunkRead1` at chunk size 128
is read in 3 chunks. -/
theorem readLoop_message_witness :
    ∃ st trace, readLoop 128 308 ChunkStream.zero (testChunkData1 ++ [])
        = some (.ok (st, [], trace)) ∧
      trace.length = max 1 ((307 + 128 - 1) / 128) ∧
      st.Length = 307 ∧ st.Data.length = 307 ∧ st.TypeID = 9 ∧
      st.StreamID = 1 ∧ st.remain = 0 ∧ (∀ r ∈ trace, r ≤ 307) :=
  readLoop_message testReadMessage ChunkStream.zero 128 307 testChunkData1 [] rfl (by decide)
    (by decide) (by decide) (List.length_replicate 307 0).symm (by decide) (by decide)
    (by decide) (Nat.le_refl 307) writeChunk_testReadMessage

/-- Counterexample for C7 as stated: a message of declared length 0 takes one
`readChunk` call, while `ceil(0/128)` is 0. -/
theorem readLoop_empty_message_counterexample :
    ∃ wire st trace, writeChunk emptyMessage 128 = .ok wire ∧
      readLoop 128 1 ChunkStream.zero wire = some (.ok (st, [], trace)) ∧
      trace.length ≠ (emptyMessage.Length + 128 - 1) / 128 :=
  ⟨[6, 0, 0, 0, 0, 0, 0, 9, 1, 0, 0, 0], { emptyMessage with exited := false }, [0],
    by rfl, by rfl, by decide⟩

theorem readBody_timestamp (st st1 : ChunkStream) (input rest : List Nat) (c : Nat)
    (h : readBody st input c = .ok (st1, rest)) :
    st1.Timestamp = st.Timestamp ∧ st1.exited = st.exited ∧ st1.Length = st.Length := by
  unfold readBody at h
  simp only [] at h
  split_ifs at h <;>
    (injection h with h
     injection h with h _
     subst h
     exact ⟨rfl, rfl, rfl⟩)

theorem readBody_ok (st : ChunkStream) (input : List Nat) (c : Nat)
    (h : min st.remain c ≤ input.length) :
    ∃ st1, readBody st input c = .ok (st1, input.drop (min st.remain c)) ∧
      st1.Data = st.Data ++ input.take (min st.remain c) := by
  have hsize : (if st.remain > c then c else st.remain) = min st.remain c := by
    split_ifs <;> omega
  unfold readBody
  simp only [hsize]
  rw [if_neg (by omega)]
  exact ⟨_, rfl, rfl⟩

theorem readUintBE_one (a : Nat) (rest : List Nat) :
    readUintBE 1 (a :: rest) = some (a, rest) := by
  simp [readUintBE, beValue]

theorem readUintBE_three (a b d : Nat) (rest : List Nat) :
    readUintBE 3 (a :: b :: d :: rest) = some ((a * 256 + b) * 256 + d, rest) := by
  simp [readUintBE, beValue]

theorem readUintBE_four (a b d e : Nat) (rest : List Nat) :
    readUintBE 4 (a :: b :: d :: e :: rest) = some (((a * 256 + b) * 256 + d) * 256 + e, rest) := by
  simp [readUintBE, beValue]

theorem readUintLE_four (a b d e : Nat) (rest : List Nat) :
    readUintLE 4 (a :: b :: d :: e :: rest) = some (leValue [a, b, d, e], rest) := by
  simp [readUintLE]

theorem readExtended_marker (e0 e1 e2 e3 : Nat) (rest : List Nat) :
    readExtended ((255 * 256 + 255) * 256 + 255) (e0 :: e1 :: e2 :: e3 :: rest)
      = some (((e0 * 256 + e1) * 256 + e2) * 256 + e3, true, rest) := by
  have h : (255 * 256 + 255) * 256 + 255 = 16777215 := by norm_num
  rw [h]
  unfold readExtended
  rw [if_pos rfl, readUintBE_four]

theorem readChunk_of_csid (x : ChunkStream) (i : List Nat) (c : Nat) (h : 2 ≤ x.CSID) :
    readChunk x i c = readMessageHeader x i c := by
  have h0 : x.CSID ≠ 0 := by omega
  have h1 : x.CSID ≠ 1 := by omega
  unfold readChunk readCSID
  rw [if_neg h0, if_neg h1]

theorem readMessageHeader_zero_cons (x : ChunkStream) (a b d l0 l1 l2 ty s0 s1 s2 s3 c : Nat)
    (tl : List Nat) (h : x.tmpFormat = 0) :
    readMessageHeader x (a :: b :: d :: l0 :: l1 :: l2 :: ty :: s0 :: s1 :: s2 :: s3 :: tl) c
      = match readExtended ((a * 256 + b) * 256 + d) tl with
        | none => .error "unexpected EOF"
        | some (t, ext, i5) =>
          readBody (ChunkStream.new
            { x with
              Format := 0
              Timestamp := t
              Length := (l0 * 256 + l1) * 256 + l2
              TypeID := ty
              StreamID := leValue [s0, s1, s2, s3]
              exited := ext }) i5 c := by
  unfold readMessageHeader
  rw [if_pos h, readUintBE_three]
  simp only []
  rw [readUintBE_three]
  simp only []
  rw [readUintBE_one]
  simp only []
  rw [readUintLE_four]

theorem readMessageHeader_three_cont (x : ChunkStream) (input : List Nat) (c : Nat)
    (h : x.tmpFormat = 3) (hr : x.remain ≠ 0) :
    readMessageHeader x input c
      = if x.exited then
          match readUintBE 4 input with
          | none => .error "unexpected EOF"
          | some (t, i1) =>
            if t = x.Timestamp then readBody x i1 c else readBody x input c
        else readBody x input c := by
  have n0 : x.tmpFormat ≠ 0 := by omega
  have n1 : x.tmpFormat ≠ 1 := by omega
  have n2 : x.tmpFormat ≠ 2 := by omega
  unfold readMessageHeader
  rw [if_neg n0, if_neg n1, if_neg n2, if_pos h, if_neg hr]

/-- Claim C8: a format-0 chunk whose 3-byte timestamp field is `0xFFFFFF` has
the 4 bytes after its header read as a big-endian absolute timestamp, which
becomes the message's `Timestamp`; a format-3 continuation chunk keeps that
timestamp, and when the extended timestamp is sent again after the
continuation header its 4 bytes are skipped and not taken as payload. -/
theorem readChunk_extended_timestamp (st : ChunkStream) (c : Nat)
    (l0 l1 l2 ty s0 s1 s2 s3 e0 e1 e2 e3 : Nat) (rest : List Nat)
    (hfmt : st.tmpFormat = 0) (hcsid : 2 ≤ st.CSID)
    (hrest : min ((l0 * 256 + l1) * 256 + l2) c ≤ rest.length) :
    (∃ st1 rest1,
        readChunk st (255 :: 255 :: 255 :: l0 :: l1 :: l2 :: ty :: s0 :: s1 :: s2 :: s3
            :: e0 :: e1 :: e2 :: e3 :: rest) c = .ok (st1, rest1) ∧
        st1.Timestamp = ((e0 * 256 + e1) * 256 + e2) * 256 + e3 ∧ st1.exited = true ∧
        st1.Length = (l0 * 256 + l1) * 256 + l2) ∧
      (∀ (st2 st3 : ChunkStream) (input rest3 : List Nat),
        st2.tmpFormat = 3 → 2 ≤ st2.CSID → st2.remain ≠ 0 →
        readChunk st2 input c = .ok (st3, rest3) → st3.Timestamp = st2.Timestamp) ∧
      (∀ (st2 : ChunkStream) (rest2 : List Nat),
        st2.tmpFormat = 3 → 2 ≤ st2.CSID → st2.remain ≠ 0 → st2.exited = true →
        st2.Timestamp = ((e0 * 256 + e1) * 256 + e2) * 256 + e3 →
        min st2.remain c ≤ rest2.length →
        ∃ st3, readChunk st2 (e0 :: e1 :: e2 :: e3 :: rest2) c
            = .ok (st3, rest2.drop (min st2.remain c)) ∧
          st3.Timestamp = st2.Timestamp ∧
          st3.Data = st2.Data ++ rest2.take (min st2.remain c)) := by
  refine ⟨?_, ?_, ?_⟩
  · obtain ⟨st1, h1, -⟩ := readBody_ok
      (ChunkStream.new
        { st with
          Format := 0
          Timestamp := ((e0 * 256 + e1) * 256 + e2) * 256 + e3
          Length := (l0 * 256 + l1) * 256 + l2
          TypeID := ty
          StreamID := leValue [s0, s1, s2, s3]
          exited := true })
      rest c hrest
    refine ⟨st1, rest.drop (min ((l0 * 256 + l1) * 256 + l2) c), ?_, ?_⟩
    · rw [readChunk_of_csid _ _ _ hcsid,
        readMessageHeader_zero_cons st 255 255 255 l0 l1 l2 ty s0 s1 s2 s3 c _ hfmt,
        readExtended_marker]
      exact h1
    · have := readBody_timestamp _ _ _ _ _ h1
      exact ⟨this.1, this.2.1, this.2.2⟩
  · intro st2 st3 input rest3 h3 hc2 hrem hread
    rw [readChunk_of_csid _ _ _ hc2, readMessageHeader_three_cont _ _ _ h3 hrem] at hread
    split_ifs at hread with hex
    · split at hread
      · cases hread
      · split_ifs at hread <;> exact (readBody_timestamp _ _ _ _ _ hread).1
    · exact (readBody_timestamp _ _ _ _ _ hread).1
  · intro st2 rest2 h3 hc2 hrem hex hts hlen
    obtain ⟨st3, hb, hd⟩ := readBody_ok st2 rest2 c hlen
    refine ⟨st3, ?_, (readBody_timestamp _ _ _ _ _ hb).1, hd⟩
    rw [readChunk_of_csid _ _ _ hc2, readMessageHeader_three_cont _ _ _ h3 hrem, if_pos hex,
      readUintBE_four]
    simp only []
    rw [if_pos hts.symm]
    exact hb

theorem length_testChunkTail2 : testChunkTail2.length = 313 := by
  simp only [testChunkTail2, List.length_append, List.length_replicate, List.length_cons,
    List.length_nil]

set_option maxRecDepth 100000 in
theorem testChunkRead2_eq : testChunkRead2 = .ok (testChunkResult2, []) := by
  rfl

/-- Witness for C8: in the second read of `TestChunkRead1` the extended
timestamp bytes `00 00 00 05` give `Timestamp == 5` after the first chunk, and
after the three chunks the message has `Length` 307, 307 bytes of data,
`remain` 0 and `exited == true`. -/
theorem readChunk_extended_timestamp_witness :
    (∃ st1 rest1,
        readChunk { ChunkStream.zero with CSID := 6 }
            (255 :: 255 :: 255 :: 0 :: 1 :: 51 :: 9 :: 1 :: 0 :: 0 :: 0
              :: 0 :: 0 :: 0 :: 5 :: testChunkTail2) 128 = .ok (st1, rest1) ∧
          st1.Timestamp = 5 ∧ st1.exited = true ∧ st1.Length = 307) ∧
      (testChunkRead2 = .ok (testChunkResult2, []) ∧ testChunkResult2.Timestamp = 5 ∧
        testChunkResult2.Length = 307 ∧ testChunkResult2.Data.length = 307 ∧
        testChunkResult2.remain = 0 ∧ testChunkResult2.exited = true) :=
  ⟨(readChunk_extended_timestamp { ChunkStream.zero with CSID := 6 } 128 0 1 51 9 1 0 0 0
      0 0 0 5 testChunkTail2 rfl (by decide)
      (by rw [length_testChunkTail2]; decide)).1,
    testChunkRead2_eq, rfl, rfl, List.length_replicate 307 0, rfl, rfl⟩

/-! ## Theorems: the read loop -/

theorem NextChunk_read_error (read : Reader) (s : ServerConn) (e : GoError) (c : Conn)
    (x : ChunkStream) (hread : read s.conn = .ret (some e, c, x)) :
    NextChunk read s
      = .ret (none, some (.other "reading chunk from client"), { s with conn := c }) := by
  unfold NextChunk
  rw [hread]

theorem NextChunk_nil_chunk (read : Reader) (s s1 : ServerConn) (err : Option GoError)
    (x : Option ChunkStream) (h : NextChunk read s = .ret (x, err, s1)) :
    (x = none → err = some (.other "reading chunk from client")) ∧
      (err ≠ none → x = none ∧ err ≠ some GoError.TestableEOFError) := by
  unfold NextChunk at h
  split at h
  · cases h
  · injection h with h
    injection h with h1 h2
    injection h2 with h2 h3
    subst h1 h2
    exact ⟨fun _ => rfl, fun _ => ⟨rfl, by simp⟩⟩
  · injection h with h
    injection h with h1 h2
    injection h2 with h2 h3
    subst h1 h2
    exact ⟨fun hx => (by cases hx), fun he => absurd rfl he⟩

/-- Claim C11: when the connection's `Read` returns an error for a chunk,
`NextChunk` returns no chunk and a freshly wrapped error, which is not
`TestableEOFError`; `RoutePackets` returns that error in the same round,
whatever the handlers and the decoder are, so no message is routed; and
`NextChunk` never hands out a nil chunk without such an error, so `Route` is
not called with a nil chunk. -/
theorem RoutePackets_read_error (p : Proto) (read : Reader) (fuel : Nat) (s : ServerConn)
    (e : GoError) (c : Conn) (x : ChunkStream) (hread : read s.conn = .ret (some e, c, x)) :
    (∀ hs dec, RoutePackets p hs dec read (fuel + 1) s
        = some (.ret (.other "reading chunk from client", { s with conn := c }))) ∧
      GoError.other "reading chunk from client" ≠ GoError.TestableEOFError ∧
      (∀ (s0 s1 : ServerConn) (err : Option GoError),
        NextChunk read s0 = .ret (none, err, s1) →
          err ≠ none ∧ err ≠ some GoError.TestableEOFError) := by
  refine ⟨fun hs dec => ?_, by simp, fun s0 s1 err h => ?_⟩
  · unfold RoutePackets
    rw [NextChunk_read_error read s e c x hread]
    simp
  · have := (NextChunk_nil_chunk read s0 s1 err none h).1 rfl
    subst this
    simp

/-- Witness for C11: on a transport whose read fails, `RoutePackets` returns
the wrapped read error in its first round. -/
theorem RoutePackets_read_error_witness :
    (∀ hs dec, RoutePackets rtmpProto hs dec failingReader (0 + 1) freshServerConn
        = some (.ret (.other "reading chunk from client",
            { freshServerConn with conn := freshServerConn.conn }))) ∧
      GoError.other "reading chunk from client" ≠ GoError.TestableEOFError ∧
      (∀ (s0 s1 : ServerConn) (err : Option GoError),
        NextChunk failingReader s0 = .ret (none, err, s1) →
          err ≠ none ∧ err ≠ some GoError.TestableEOFError) :=
  RoutePackets_read_error rtmpProto failingReader 0 freshServerConn GoError.EOF
    freshServerConn.conn ChunkStream.zero rfl

/-- Claim C12 (amended): when the decoding or the handler of a command message
fails with an error, `Route` logs it and returns nil with the session the
handler left, and `RoutePackets` goes on to read the next chunk from that
session: the failure does not end the session. -/
theorem Route_command_error_continues (p : Proto) (hs : Handlers) (dec : Decoder)
    (s s1 : ServerConn) (x x1 : ChunkStream) (err : GoError)
    (hty : x.TypeID = p.CommandMessageAMF0ID ∨ x.TypeID = p.CommandMessageAMF3ID)
    (hfail : handleCommand p hs dec s x = .ret (some err, s1, x1)) :
    Route p hs dec s x = .ret (none, s1) ∧
      ∀ (read : Reader) (fuel : Nat) (s0 : ServerConn),
        read s0.conn = .ret (none, s.conn, x) → s = { s0 with conn := s.conn } →
        RoutePackets p hs dec read (fuel + 1) s0 = RoutePackets p hs dec read fuel s1 := by
  have hr : Route p hs dec s x = .ret (none, s1) := by
    rw [Route_command p hs dec s x hty, hfail]
  refine ⟨hr, fun read fuel s0 hread hs0 => ?_⟩
  apply RoutePackets_step p hs dec read fuel s0 s1 s.conn x hread
  rw [← hs0]
  exact hr

/-- Witness for C12: a `connect` command whose decoding fails leaves the
session as it was, and `Route` returns nil. -/
theorem Route_command_error_continues_witness :
    Route rtmpProto idleHandlers failingDecoder freshServerConn amf0Command
        = .ret (none, freshServerConn) ∧
      ∀ (read : Reader) (fuel : Nat) (s0 : ServerConn),
        read s0.conn = .ret (none, freshServerConn.conn, amf0Command) →
        freshServerConn = { s0 with conn := freshServerConn.conn } →
        RoutePackets rtmpProto idleHandlers failingDecoder read (fuel + 1) s0
          = RoutePackets rtmpProto idleHandlers failingDecoder read fuel freshServerConn :=
  Route_command_error_continues rtmpProto idleHandlers failingDecoder freshServerConn
    freshServerConn amf0Command amf0Command (.other "decode amf0: unsupported type")
    (Or.inl rfl) rfl

/-- Counterexample for C12 as stated: the decoding of a `connect` command
fails with an error, yet `Route` returns nil, and `RoutePackets` does not stop:
it reads the next chunk and returns only with the read error of that chunk. -/
theorem Route_command_error_counterexample :
    handleCommand rtmpProto idleHandlers failingDecoder freshServerConn amf0Command
        = .ret (some (.other "decode amf0: unsupported type"), freshServerConn, amf0Command) ∧
      Route rtmpProto idleHandlers failingDecoder freshServerConn amf0Command
        = .ret (none, freshServerConn) ∧
      RoutePackets rtmpProto idleHandlers failingDecoder oneCommandReader 1 freshServerConn
        = none ∧
      RoutePackets rtmpProto idleHandlers failingDecoder oneCommandReader 2 freshServerConn
        = some (.ret (.other "reading chunk from client",
            { freshServerConn with conn := { freshServerConn.conn with ackReceived := 1 } })) :=
  ⟨rfl, rfl, rfl, rfl⟩

/-! ## Theorems: address defaults -/

/-- Claim C13 (the code at the failing input): `http://host:1935/app/key` is
accepted and `Scheme()` is `http`, the four-letter scheme of the raw string,
whatever `DefaultScheme` is. -/
theorem NewAddr_keeps_foreign_scheme (d : Defaults) (rnd : Nat → Nat) :
    ∃ addr, NewAddr d rnd "http://host:1935/app/key".toList = .ok addr ∧
      addr.Scheme = "http".toList := by
  refine ⟨⟨"http://host:1935/app/key".toList, "http".toList, "host:1935".toList,
    "app".toList, "key".toList⟩, ?_, rfl⟩
  have hp : urlParse "http://host:1935/app/key".toList = .ok "http".toList := by rfl
  unfold NewAddr
  rw [hp]
  have hs : splitPath d (replaceFirst
      ((if "http".toList.length = 4 then "http".toList else []) ++ [':', '/', '/']) []
      "http://host:1935/app/key".toList)
      = some ("host:1935".toList, "app".toList, "key".toList) := by rfl
  simp only [hs]
  simp

theorem generateKey_shape (d : Defaults) (rnd : Nat → Nat) :
    ∃ body, generateKey d rnd = d.DefaultGenerateKeyPrefix ++ body ∧
      body.length = d.DefaultGenerateKeyLength ∧ ∀ c ∈ body, c ∈ d.letterBytePool := by
  refine ⟨_, rfl, by simp, ?_⟩
  intro c hc
  rw [List.mem_map] at hc
  obtain ⟨i, _, hi⟩ := hc
  have hpos : 0 < d.letterBytePool.length := List.length_pos.2 d.pool_ne
  have hlt : rnd i % d.letterBytePool.length < d.letterBytePool.length := Nat.mod_lt _ hpos
  rw [← hi, List.getD_eq_getElem _ _ hlt]
  exact List.getElem_mem _

theorem NewAddr_ok_key (d : Defaults) (rnd : Nat → Nat) (raw : Str) (addr : Addr)
    (hok : NewAddr d rnd raw = .ok addr) :
    ∃ ho ap k, splitPath d (pathOf raw) = some (ho, ap, k) ∧
      addr.key = if k = [] then generateKey d rnd else k := by
  unfold NewAddr at hok
  unfold pathOf
  cases hp : urlParse raw with
  | error e => rw [hp] at hok; cases hok
  | ok u =>
    rw [hp] at hok
    simp only [] at hok ⊢
    cases hsp : splitPath d (replaceFirst ((if u.length = 4 then u else []) ++ [':', '/', '/'])
        [] raw) with
    | none => rw [hsp] at hok; cases hok
    | some t =>
      obtain ⟨ho, ap, k⟩ := t
      rw [hsp] at hok
      injection hok with hok
      subst hok
      exact ⟨ho, ap, k, rfl, rfl⟩

/-- Claim C14: for every raw string that `NewAddr` accepts and that provides
no key (the `key` variable is empty before defaulting), `Key()` is
`DefaultGenerateKeyPrefix` followed by exactly `DefaultGenerateKeyLength`
characters, each from `letterBytePool`, whatever the random source returns;
and as the generated key is not empty (the prefix is not empty or the length
is positive), `Key()` is not empty for any accepted input. -/
theorem NewAddr_generated_key (d : Defaults) (rnd : Nat → Nat) (raw : Str) (addr : Addr)
    (hok : NewAddr d rnd raw = .ok addr) :
    ((∃ ho ap, splitPath d (pathOf raw) = some (ho, ap, [])) →
        ∃ body, addr.Key = d.DefaultGenerateKeyPrefix ++ body ∧
          body.length = d.DefaultGenerateKeyLength ∧ ∀ c ∈ body, c ∈ d.letterBytePool) ∧
      ((d.DefaultGenerateKeyPrefix ≠ [] ∨ 0 < d.DefaultGenerateKeyLength) → addr.Key ≠ []) := by
  obtain ⟨ho, ap, k, hsp, hkey⟩ := NewAddr_ok_key d rnd raw addr hok
  obtain ⟨body, hb, hlen, hmem⟩ := generateKey_shape d rnd
  constructor
  · rintro ⟨ho1, ap1, h1⟩
    rw [hsp] at h1
    injection h1 with h1
    injection h1 with _ h1
    injection h1 with _ h1
    subst h1
    refine ⟨body, ?_, hlen, hmem⟩
    show addr.key = _
    rw [hkey, if_pos rfl, hb]
  · intro hne
    show addr.key ≠ []
    rw [hkey]
    split_ifs with hk
    · rw [hb]
      intro e
      have hl := congrArg List.length e
      rw [List.length_append, hlen] at hl
      simp only [List.length_nil] at hl
      rcases hne with h | h
      · exact h (List.length_eq_zero.1 (by omega))
      · omega
    · exact hk

/-- Witness for C14: `rtmp://host:1935/app` has no key segment, and its key is
the prefix `twinx_` followed by 20 characters of the letter pool. -/
theorem NewAddr_generated_key_witness :
    ((∃ ho ap, splitPath stdDefaults (pathOf "rtmp://host:1935/app".toList)
          = some (ho, ap, [])) →
        ∃ body, (Addr.mk "rtmp://host:1935/app".toList "rtmp".toList "host:1935".toList
              "app".toList "twinx_aaaaaaaaaaaaaaaaaaaa".toList).Key
            = stdDefaults.DefaultGenerateKeyPrefix ++ body ∧
          body.length = stdDefaults.DefaultGenerateKeyLength ∧
          ∀ c ∈ body, c ∈ stdDefaults.letterBytePool) ∧
      ((stdDefaults.DefaultGenerateKeyPrefix ≠ [] ∨ 0 < stdDefaults.DefaultGenerateKeyLength) →
        (Addr.mk "rtmp://host:1935/app".toList "rtmp".toList "host:1935".toList
          "app".toList "twinx_aaaaaaaaaaaaaaaaaaaa".toList).Key ≠ []) :=
  NewAddr_generated_key stdDefaults (fun _ => 0) "rtmp://host:1935/app".toList
    (Addr.mk "rtmp://host:1935/app".toList "rtmp".toList "host:1935".toList
      "app".toList "twinx_aaaaaaaaaaaaaaaaaaaa".toList) (by rfl)

/-- Claim C15 (the code at the failing inputs): for the single segment
`example.com` the path has neither `/` nor `:`, no host is taken from it, and
`Host()` is the default local host and port; and the single segment
`127.0.0.1:1935` is rejected by `url.Parse`, so `NewAddr` returns an error. -/
theorem NewAddr_bare_host_defaults (d : Defaults) (rnd : Nat → Nat) :
    (∃ addr, NewAddr d rnd "example.com".toList = .ok addr ∧
        addr.Host = d.DefaultLocalHost ++ [':'] ++ d.DefaultLocalPort) ∧
      (∃ e, NewAddr d rnd "127.0.0.1:1935".toList = .error e) := by
  refine ⟨⟨⟨"example.com".toList, d.DefaultScheme,
    d.DefaultLocalHost ++ [':'] ++ d.DefaultLocalPort, d.DefaultRTMPApp, generateKey d rnd⟩,
    ?_, rfl⟩, ⟨_, rfl⟩⟩
  have hp : urlParse "example.com".toList = .ok [] := by rfl
  unfold NewAddr
  rw [hp]
  have hs : splitPath d (replaceFirst
      ((if ([] : Str).length = 4 then [] else []) ++ [':', '/', '/']) []
      "example.com".toList) = some ([], [], []) := by rfl
  simp only [hs]
  simp

theorem hasPrefix_count (c : Char) : ∀ (s p : Str), hasPrefix s p = true →
    p.count c ≤ s.count c := by
  intro s
  induction s with
  | nil =>
    intro p h
    cases p with
    | nil => simp
    | cons b p => simp [hasPrefix] at h
  | cons a s ih =>
    intro p h
    cases p with
    | nil => simp
    | cons b p =>
      simp only [hasPrefix, Bool.and_eq_true, beq_iff_eq] at h
      obtain ⟨hab, hp⟩ := h
      subst hab
      have := ih p hp
      simp only [List.count_cons]
      omega

theorem contains_count (c : Char) (p : Str) : ∀ (s : Str), contains s p = true →
    p.count c ≤ s.count c := by
  intro s
  induction s with
  | nil =>
    intro h
    cases p with
    | nil => simp
    | cons b p => simp [contains] at h
  | cons a s ih =>
    intro h
    simp only [contains, Bool.or_eq_true] at h
    rcases h with h | h
    · exact hasPrefix_count c _ _ h
    · have := ih h
      simp only [List.count_cons]
      omega

theorem replaceFirst_not_contains (old new : Str) : ∀ (s : Str), contains s old = false →
    replaceFirst old new s = s := by
  intro s
  induction s with
  | nil => intro _; rfl
  | cons a s ih =>
    intro h
    simp only [contains, Bool.or_eq_false_iff] at h
    simp only [replaceFirst, h.1, ih h.2]
    simp

theorem replaceFirst_single_slash (sch h a : Str) (hh : '/' ∉ h) (ha : '/' ∉ a) :
    replaceFirst (sch ++ [':', '/', '/']) [] (h ++ '/' :: a) = h ++ '/' :: a := by
  apply replaceFirst_not_contains
  by_contra hc
  have hc' : contains (h ++ '/' :: a) (sch ++ [':', '/', '/']) = true := by
    simpa using hc
  have h1 := contains_count '/' _ _ hc'
  have h2 : (h ++ '/' :: a).count '/' = 1 := by
    rw [List.count_append, List.count_cons, List.count_eq_zero_of_not_mem hh,
      List.count_eq_zero_of_not_mem ha]
    simp
  have h3 : 2 ≤ (sch ++ [':', '/', '/']).count '/' := by
    rw [List.count_append]
    have : List.count '/' [':', '/', '/'] = 2 := by decide
    omega
  omega

theorem urlParse_scheme_prefix (s t u : Str) (hne : s ≠ [])
    (hlow : ∀ c ∈ s, 'a' ≤ c ∧ c ≤ 'z') (hp : urlParse (s ++ ':' :: t) = .ok u) : u = s := by
  have hhash : '#' ∉ s := by
    intro hm
    have := hlow '#' hm
    exact absurd this.1 (by decide)
  have hcut : (cut '#' (s ++ ':' :: t)).1 = s ++ ':' :: (cut '#' t).1 := by
    rw [cut_fst_append '#' s _ hhash, cut_fst_cons_ne '#' ':' _ (by decide)]
  have hpar := urlParse_ok_parse _ _ hp
  rw [hcut] at hpar
  have hget := getScheme_alpha s (cut '#' t).1 (fun c hc => isAlpha_of_lower c (hlow c hc)) hne
  have hstar : s ++ ':' :: (cut '#' t).1 ≠ ['*'] := by
    intro e
    have hl := congrArg List.length e
    have : 0 < s.length := List.length_pos.2 hne
    simp at hl
    omega
  rw [parse_ok_scheme _ _ _ _ hget hstar hpar, toLower_lower s hlow]

theorem splitPath_two (d : Defaults) (h a : Str) (hh : '/' ∉ h) (ha : '/' ∉ a) :
    splitPath d (h ++ '/' :: a) = some (h, a, []) := by
  unfold splitPath
  rw [contains_append_sep, split_append_sep '/' h _ hh, split_not_mem '/' a ha]
  rfl

/-- Claim C16 (amended): for every raw string `h/a`, optionally preceded by a
scheme of four lower-case letters and `://`, with `h` and `a` non-empty and
free of `/`, that `url.Parse` accepts, `NewAddr` succeeds with `Host() = h`,
`App() = a` and `Key()` the generated key. -/
theorem NewAddr_host_app (d : Defaults) (rnd : Nat → Nat) (s h a : Str)
    (hs : s = [] ∨ (s.length = 4 ∧ ∀ c ∈ s, 'a' ≤ c ∧ c ≤ 'z'))
    (hh : h ≠ [] ∧ '/' ∉ h) (ha : a ≠ [] ∧ '/' ∉ a)
    (hparse : ∃ u, urlParse (hostAppURL s h a) = .ok u) :
    ∃ addr, NewAddr d rnd (hostAppURL s h a) = .ok addr ∧
      addr.Host = h ∧ addr.App = a ∧ addr.Key = generateKey d rnd := by
  obtain ⟨u, hu⟩ := hparse
  have hpath : replaceFirst ((if u.length = 4 then u else []) ++ [':', '/', '/']) []
      (hostAppURL s h a) = h ++ '/' :: a := by
    rcases hs with hs | ⟨hlen, hlow⟩
    · subst hs
      have e : hostAppURL [] h a = h ++ '/' :: a := by simp [hostAppURL]
      rw [e]
      exact replaceFirst_single_slash _ h a hh.2 ha.2
    · have hne : s ≠ [] := by
        intro e; rw [e] at hlen; exact absurd hlen (by decide)
      have e : hostAppURL s h a = s ++ ':' :: ('/' :: '/' :: (h ++ '/' :: a)) := by
        simp [hostAppURL, hne]
      have hus : u = s := by
        rw [e] at hu
        exact urlParse_scheme_prefix s _ u hne hlow hu
      subst hus
      have e2 : hostAppURL u h a = (u ++ [':', '/', '/']) ++ (h ++ '/' :: a) := by
        simp [hostAppURL, hne]
      rw [if_pos hlen, e2]
      exact replaceFirst_prefix _ _ (by simp)
  refine ⟨⟨hostAppURL s h a, if (if u.length = 4 then u else []) = [] then d.DefaultScheme
    else (if u.length = 4 then u else []), h, a, generateKey d rnd⟩, ?_, rfl, rfl, rfl⟩
  unfold NewAddr
  rw [hu]
  simp only []
  rw [hpath, splitPath_two d h a hh.2 ha.2]
  simp [hh.1, ha.1]

/-- Witness for C16: `rtmp://host:1935/app` gives host `host:1935`, app `app`
and a generated key. -/
theorem NewAddr_host_app_witness :
    ∃ addr, NewAddr stdDefaults (fun _ => 0)
        (hostAppURL "rtmp".toList "host:1935".toList "app".toList) = .ok addr ∧
      addr.Host = "host:1935".toList ∧ addr.App = "app".toList ∧
      addr.Key = generateKey stdDefaults (fun _ => 0) :=
  NewAddr_host_app stdDefaults (fun _ => 0) "rtmp".toList "host:1935".toList "app".toList
    (Or.inr ⟨by decide, by decide⟩) (by decide) (by decide) ⟨"rtmp".toList, by rfl⟩

/-- Counterexample for C16 as stated: `127.0.0.1:1935/app` has the shape
`h/a` with `h` and `a` non-empty and free of `/`, yet `url.Parse` rejects it
(the first path segment holds a colon) and `NewAddr` returns an error. -/
theorem NewAddr_host_app_counterexample :
    ¬ ∀ (d : Defaults) (rnd : Nat → Nat) (s h a : Str),
        (s = [] ∨ (s.length = 4 ∧ ∀ c ∈ s, 'a' ≤ c ∧ c ≤ 'z')) →
        (h ≠ [] ∧ '/' ∉ h) → (a ≠ [] ∧ '/' ∉ a) →
        ∃ addr, NewAddr d rnd (hostAppURL s h a) = .ok addr ∧
          addr.Host = h ∧ addr.App = a ∧ addr.Key = generateKey d rnd := by
  intro hall
  obtain ⟨addr, hok, _⟩ := hall stdDefaults (fun _ => 0) [] "127.0.0.1:1935".toList
    "app".toList (Or.inl rfl) (by decide) (by decide)
  have herr : NewAddr stdDefaults (fun _ => 0)
      (hostAppURL [] "127.0.0.1:1935".toList "app".toList)
      = .error "unable to url.Parse raw rtmp string: first path segment in URL cannot contain colon" := by
    rfl
  rw [herr] at hok
  cases hok

/-! ## Theorems: media messages and the relay control -/

theorem Route_data (p : Proto) (hs : Handlers) (dec : Decoder) (s : ServerConn)
    (x : ChunkStream)
    (hty : x.TypeID = p.DataMessageAMF0ID ∨ x.TypeID = p.DataMessageAMF3ID) :
    Route p hs dec s x =
      match s.streamWrite x with
      | .panic m => .panic m
      | .ret s1 => .ret (none, s1) := by
  have hnd := p.ids_nodup
  simp only [List.nodup_cons, List.mem_cons, List.mem_singleton, List.not_mem_nil, or_false,
    not_or, List.nodup_nil, and_true, not_false_eq_true] at hnd
  obtain ⟨⟨-, -, -, -, -, -, -, a08, a09, -⟩, ⟨-, -, -, -, -, -, a18, a19, -⟩,
    ⟨-, -, -, -, -, a28, a29, -⟩, ⟨-, -, -, -, a38, a39, -⟩, ⟨-, -, -, a48, a49, -⟩,
    ⟨-, -, a58, a59, -⟩, ⟨-, a68, a69, -⟩, ⟨a78, a79, -⟩, -⟩ := hnd
  unfold Route
  rcases hty with h | h
  · rw [h, if_neg (Ne.symm a08), if_neg (Ne.symm a18), if_neg (Ne.symm a28),
      if_neg (Ne.symm a38), if_neg (Ne.symm a48), if_neg (Ne.symm a58),
      if_neg (not_or.2 ⟨Ne.symm a68, Ne.symm a78⟩), if_pos (Or.inl rfl)]
  · rw [h, if_neg (Ne.symm a09), if_neg (Ne.symm a19), if_neg (Ne.symm a29),
      if_neg (Ne.symm a39), if_neg (Ne.symm a49), if_neg (Ne.symm a59),
      if_neg (not_or.2 ⟨Ne.symm a69, Ne.symm a79⟩), if_pos (Or.inr rfl)]

/-- Claim C19 (the code at the failing input): on a session that is not
publishing (`publishInfo` is nil) but has a stream bound, a data message is
written to the stream all the same: the data case of `Route` has no
`publishInfo` test, unlike the audio and video cases. -/
theorem Route_data_without_publish (hs : Handlers) (dec : Decoder) :
    playingServerConn.publishInfo = none ∧
      Route rtmpProto hs dec playingServerConn amf0DataMessage
        = .ret (none, { playingServerConn with
            stream := some { written := [amf0DataMessage] } }) := by
  refine ⟨rfl, ?_⟩
  rw [Route_data rtmpProto hs dec playingServerConn amf0DataMessage (Or.inl rfl)]
  rfl

/-- Claim C20: `RTMPStartRelay` on a server whose `Local` is set returns
`Success = false` with a non-nil error and leaves the server as it was; when
`Local` is nil and listening fails it returns `Success = false` with the
listen error and `Local` stays nil; and `Local` goes from nil to set only in
a call that returns `Success = true` without error after a listen that
succeeded. -/
theorem RTMPStartRelay_failures (listen : Listen) (a : ActiveStreamerServer) (r : RTMPHost) :
    (a.Local ≠ none →
        (RTMPStartRelay listen a r).1.Success = false ∧
        (RTMPStartRelay listen a r).2.1 ≠ none ∧
        (RTMPStartRelay listen a r).2.2 = a) ∧
      (a.Local = none → ∀ err, listen r.Addr = some err →
        (RTMPStartRelay listen a r).1.Success = false ∧
        (RTMPStartRelay listen a r).2.1 = some err ∧
        (RTMPStartRelay listen a r).2.2.Local = none) ∧
      (a.Local = none → (RTMPStartRelay listen a r).2.2.Local ≠ none →
        (RTMPStartRelay listen a r).1.Success = true ∧
        (RTMPStartRelay listen a r).2.1 = none ∧ listen r.Addr = none) := by
  refine ⟨fun h => ?_, fun h err he => ?_, fun h hl => ?_⟩
  · unfold RTMPStartRelay
    rw [if_pos h]
    exact ⟨rfl, by simp, rfl⟩
  · have hn : ¬ a.Local ≠ none := fun hc => hc h
    unfold RTMPStartRelay
    rw [if_neg hn, he]
    exact ⟨rfl, rfl, h⟩
  · have hn : ¬ a.Local ≠ none := fun hc => hc h
    unfold RTMPStartRelay at hl ⊢
    rw [if_neg hn] at hl ⊢
    cases hlis : listen r.Addr with
    | some err =>
      rw [hlis] at hl
      exact absurd h hl
    | none => exact ⟨rfl, rfl, rfl⟩

/-- Witness for C20: a second start on a server that already runs a local
relay fails and changes nothing, and a first start whose listen fails leaves
`Local` nil. -/
theorem RTMPStartRelay_failures_witness :
    ((RTMPStartRelay addressInUse { newActiveStreamerServer with Local := some localRelayHost }
          localRelayHost).1.Success = false ∧
        (RTMPStartRelay addressInUse { newActiveStreamerServer with Local := some localRelayHost }
          localRelayHost).2.1 ≠ none ∧
        (RTMPStartRelay addressInUse { newActiveStreamerServer with Local := some localRelayHost }
          localRelayHost).2.2 = { newActiveStreamerServer with Local := some localRelayHost }) ∧
      ((RTMPStartRelay addressInUse newActiveStreamerServer localRelayHost).1.Success = false ∧
        (RTMPStartRelay addressInUse newActiveStreamerServer localRelayHost).2.1
          = some "listen tcp: address already in use" ∧
        (RTMPStartRelay addressInUse newActiveStreamerServer localRelayHost).2.2.Local = none) :=
  ⟨(RTMPStartRelay_failures addressInUse
      { newActiveStreamerServer with Local := some localRelayHost } localRelayHost).1
      (by decide),
    (RTMPStartRelay_failures addressInUse newActiveStreamerServer localRelayHost).2.1 rfl
      "listen tcp: address already in use" rfl⟩

/-! ## Theorems: write, then read -/

theorem writeChunk_length_all (cs : ChunkStream) (c : Nat) (hfmt : cs.Format = 0)
    (hcsid : cs.CSID < 64) (hts : cs.Timestamp < 0xffffff) (hc : 1 ≤ c) :
    ∃ out, writeChunk cs c = .ok out ∧
      (writeHeader cs cs.Format).length = 1 + 11 ∧
      out.length = (1 + 11) + cs.Data.length + ((cs.Data.length + c - 1) / c - 1) := by
  have hc0 : c ≠ 0 := by omega
  refine ⟨_, by rw [writeChunk, if_neg hc0], ?_, ?_⟩
  · rw [hfmt, length_writeHeader_zero cs hcsid hts]
  · rw [hfmt, List.length_append, length_writeHeader_zero cs hcsid hts,
      length_writeFragments cs c hc hcsid hts _ _ (Nat.le_refl _)]
    omega

/-- Claim C18 (amended): for every payload length `L` and chunk size
`C >= 1`, a format-0 write with chunk-stream-id below 64 and timestamp below
`0xFFFFFF` starts with a first header of 1 + 11 bytes (the basic-header byte
and the 11-byte message header) and emits in total exactly
`1 + 11 + L + (ceil(L/C) - 1)` bytes, no continuation byte being written for
an empty payload; for `L = 307`, `C = 128` the total is 321. -/
theorem writeChunk_total_bytes (cs : ChunkStream) (c : Nat) (hfmt : cs.Format = 0)
    (hcsid : cs.CSID < 64) (hts : cs.Timestamp < 0xffffff) (hc : 1 ≤ c) :
    ∃ hdr body, writeChunk cs c = .ok (hdr ++ body) ∧ hdr.length = 1 + 11 ∧
      body.length = cs.Data.length + ((cs.Data.length + c - 1) / c - 1) ∧
      (hdr ++ body).length = (1 + 11) + cs.Data.length + ((cs.Data.length + c - 1) / c - 1) := by
  have hc0 : c ≠ 0 := by omega
  have hh : (writeHeader cs cs.Format).length = 1 + 11 := by
    rw [hfmt, length_writeHeader_zero cs hcsid hts]
  have hb := length_writeFragments cs c hc hcsid hts cs.Data.length cs.Data (Nat.le_refl _)
  refine ⟨writeHeader cs cs.Format, writeFragments cs c cs.Data.length cs.Data,
    by rw [writeChunk, if_neg hc0], hh, hb, ?_⟩
  rw [List.length_append, hh, hb]
  omega

/-- Witness for C18: the message of `TestWriteChunk`, 307 bytes at chunk size
128, is written as a 12-byte first header and 309 further bytes, 321 in
all. -/
theorem writeChunk_total_bytes_witness :
    ∃ hdr body, writeChunk testWriteMessage 128 = .ok (hdr ++ body) ∧ hdr.length = 1 + 11 ∧
      body.length = 307 + ((307 + 128 - 1) / 128 - 1) ∧
      (hdr ++ body).length = (1 + 11) + 307 + ((307 + 128 - 1) / 128 - 1) := by
  have e : testWriteMessage.Data.length = 307 := List.length_replicate 307 0
  have h := writeChunk_total_bytes testWriteMessage 128 rfl (by decide) (by decide) (by decide)
  rw [e] at h
  exact h

/-- Counterexample for C18 as stated: the message of `TestWriteChunk` is
written as 321 bytes, while `11 + L + (ceil(L/C) - 1)` is 320 for `L = 307`,
`C = 128`, and so is the sum `11 + 128 + 1 + 128 + 1 + 51`. -/
theorem writeChunk_total_bytes_counterexample :
    ∃ out, writeChunk testWriteMessage 128 = .ok out ∧ out.length = 321 ∧
      out.length ≠ 11 + 307 + ((307 + 128 - 1) / 128 - 1) ∧
      11 + 128 + 1 + 128 + 1 + 51 ≠ 321 := by
  have e : testWriteMessage.Data.length = 307 := List.length_replicate 307 0
  obtain ⟨out, hw, _, hl⟩ :=
    writeChunk_length_all testWriteMessage 128 rfl (by decide) (by decide) (by decide)
  rw [e] at hl
  have h321 : out.length = 321 := by rw [hl]
  refine ⟨out, hw, h321, ?_, by decide⟩
  rw [h321]
  decide

/-- Claim C17 (amended): for every chunk size `C >= 1` and every format-0
message whose fields fit the header (payload length `L` below `2 ^ 24`, so in
particular `L` in `0, 1, C-1, C, C+1, 3C` when below `2 ^ 24`;
chunk-stream-id from 2 to 65599; type-id below 256; stream id and timestamp
below `2 ^ 32`), writing it with `writeChunk` at chunk size `C` and reading
the bytes back with `readChunk` at the same chunk size until `remain == 0`
yields the same type-id, stream id and timestamp and a byte-identical payload
of length `L`, with no byte left unread. -/
theorem writeChunk_readLoop_roundtrip (cs st0 : ChunkStream) (c fuel : Nat)
    (hfmt : cs.Format = 0) (hlo : 2 ≤ cs.CSID) (hhi : cs.CSID < 65600)
    (hts : cs.Timestamp < 2 ^ 32) (hlen : cs.Length = cs.Data.length) (hL : cs.Length < 2 ^ 24)
    (hty : cs.TypeID < 256) (hsid : cs.StreamID < 2 ^ 32) (hc : 1 ≤ c)
    (hfuel : cs.Length ≤ fuel) :
    ∃ wire st trace, writeChunk cs c = .ok wire ∧
      readLoop c (fuel + 1) st0 wire = some (.ok (st, [], trace)) ∧
      st.TypeID = cs.TypeID ∧ st.StreamID = cs.StreamID ∧ st.Timestamp = cs.Timestamp ∧
      st.Data = cs.Data ∧ st.Data.length = cs.Length ∧ st.remain = 0 := by
  have hc0 : c ≠ 0 := by omega
  have hw : writeChunk cs c
      = .ok (writeHeader cs cs.Format ++ writeFragments cs c cs.Data.length cs.Data) := by
    rw [writeChunk, if_neg hc0]
  have hr := readLoop_writeChunk cs st0 c fuel _ [] hfmt hlo hhi hts hlen hL hty hsid hfuel hw
  rw [List.append_nil] at hr
  exact ⟨_, _, _, hw, hr, rfl, rfl, rfl, rfl, hlen.symm, rfl⟩

/-- Witness for C17: a message of 384 bytes, three times the chunk size 128,
is read back unchanged. -/
theorem writeChunk_readLoop_roundtrip_witness :
    ∃ wire st trace, writeChunk roundTripMessage 128 = .ok wire ∧
      readLoop 128 (384 + 1) ChunkStream.zero wire = some (.ok (st, [], trace)) ∧
      st.TypeID = roundTripMessage.TypeID ∧ st.StreamID = roundTripMessage.StreamID ∧
      st.Timestamp = roundTripMessage.Timestamp ∧
      st.Data = roundTripMessage.Data ∧ st.Data.length = roundTripMessage.Length ∧
      st.remain = 0 :=
  writeChunk_readLoop_roundtrip roundTripMessage ChunkStream.zero 128 384 rfl (by decide)
    (by decide) (by decide) (List.length_replicate 384 7).symm (by decide) (by decide)
    (by decide) (by decide) (Nat.le_refl 384)

theorem uintBE_mod_pow (v m : Nat) : ∀ n, n ≤ m → uintBE (v % 256 ^ m) n = uintBE v n := by
  intro n
  induction n with
  | zero => intro _; rfl
  | succ n ih =>
    intro h
    have hhead : v % 256 ^ m / 256 ^ n % 256 = v / 256 ^ n % 256 := by
      obtain ⟨k, rfl⟩ : ∃ k, m = n + (k + 1) := ⟨m - n - 1, by omega⟩
      rw [Nat.pow_add, Nat.mod_mul_right_div_self]
      apply Nat.mod_mod_of_dvd
      exact Dvd.intro_left (256 ^ k) (by rw [Nat.pow_succ])
    simp only [uintBE, hhead, ih (by omega)]

theorem writeHeader_length_wrap (cs : ChunkStream) (fmt : Nat) :
    writeHeader { cs with Length := cs.Length % 256 ^ 3 } fmt = writeHeader cs fmt := by
  have h := uintBE_mod_pow cs.Length 3 3 (Nat.le_refl 3)
  unfold writeHeader messageHeader extendedTimestamp
  simp only [h]

theorem readStep_writeHeader_zero_wrap (cs st0 : ChunkStream) (c : Nat) (tail : List Nat)
    (hlo : 2 ≤ cs.CSID) (hhi : cs.CSID < 65600) (hts : cs.Timestamp < 2 ^ 32)
    (hty : cs.TypeID < 256) (hsid : cs.StreamID < 2 ^ 32) :
    readStep st0 (writeHeader cs 0 ++ tail) c
      = readBody (readerState { cs with Length := cs.Length % 256 ^ 3 } st0.batchedValues 0
          (cs.Length % 256 ^ 3) []) tail c := by
  rw [← writeHeader_length_wrap cs 0]
  have hL : cs.Length % 256 ^ 3 < 2 ^ 24 := by
    have : (256 : Nat) ^ 3 = 2 ^ 24 := by norm_num
    rw [this]
    exact Nat.mod_lt _ (by norm_num)
  exact readStep_writeHeader_zero { cs with Length := cs.Length % 256 ^ 3 } st0 c tail
    hlo hhi hts hL hty hsid

theorem readLoop_length_wrap (cs st0 : ChunkStream) (c fuel : Nat) (tail : List Nat)
    (hlo : 2 ≤ cs.CSID) (hhi : cs.CSID < 65600) (hts : cs.Timestamp < 2 ^ 32)
    (hty : cs.TypeID < 256) (hsid : cs.StreamID < 2 ^ 32)
    (hwrap : cs.Length % 256 ^ 3 = 0) :
    readLoop c (fuel + 1) st0 (writeHeader cs 0 ++ tail)
      = some (.ok (readerState { cs with Length := cs.Length % 256 ^ 3 } st0.batchedValues 0
          0 [], tail, [0])) := by
  unfold readLoop
  rw [readStep_writeHeader_zero_wrap cs st0 c tail hlo hhi hts hty hsid, hwrap]
  have hb := readBody_readerState { cs with Length := 0 } st0.batchedValues 0 0 c [] [] tail
    (by norm_num) (by simp)
  rw [List.nil_append] at hb
  rw [hb]
  rfl

/-- Counterexample for C17 as stated: with chunk size `C = 2 ^ 24` and payload
length `L = C`, the 3-byte length field of the header wraps to 0; the write
returns no error, and reading the bytes back ends after the header with an
empty payload, the `2 ^ 24` payload bytes left unread. -/
theorem writeChunk_readLoop_oversize_counterexample :
    ∃ hdr body st trace, writeChunk oversizeMessage 16777216 = .ok (hdr ++ body) ∧
      readLoop 16777216 1 ChunkStream.zero (hdr ++ body) = some (.ok (st, body, trace)) ∧
      st.Data = [] ∧ st.Length = 0 ∧ oversizeMessage.Data.length = 16777216 ∧
      oversizeMessage.Length = 16777216 := by
  have hw : writeChunk oversizeMessage 16777216
      = .ok (writeHeader oversizeMessage 0 ++
          writeFragments oversizeMessage 16777216 oversizeMessage.Data.length
            oversizeMessage.Data) := by
    rw [writeChunk, if_neg (by omega)]
    rfl
  have hwrap : oversizeMessage.Length % 256 ^ 3 = 0 := by
    show 16777216 % 256 ^ 3 = 0
    norm_num
  have hr := readLoop_length_wrap oversizeMessage ChunkStream.zero 16777216 0
    (writeFragments oversizeMessage 16777216 oversizeMessage.Data.length oversizeMessage.Data)
    (by decide) (by decide) (by decide) (by decide) (by decide) hwrap
  exact ⟨_, _, _, _, hw, hr, rfl, hwrap, List.length_replicate 16777216 0, rfl⟩


/-! ## Theorems: forwarding -/

theorem mapGet_mapSet (m : List (Str × RTMPHost)) (key : Str) (r : RTMPHost) :
    mapGet (mapSet m key r) key = some r := by
  simp [mapGet, mapSet]

/-- Claim C21: `RTMPForward` on a server whose `Local` is nil returns
`Success = false` with a nil error and the server unchanged. On the server
`ServerGRPC` registers, once `RTMPStartRelay` has opened a listener and set
`Local`, `RTMPForward` does not return: `Remotes` is still the nil map of
`ActiveStreamerServer{}` and the assignment to it fails. On a server whose
`Remotes` map was made, it returns `Success = true` with a nil error, and
`Remotes` maps `r.Addr` to `r` afterwards. -/
theorem RTMPForward_nil_map (listen : Listen) (a : ActiveStreamerServer) (r0 r : RTMPHost) :
    (a.Local = none →
      RTMPForward a r
        = .ret ({ Success := false,
                  Message := some "unable to start rtmp relay, local server not running" },
            none, a)) ∧
    (listen r0.Addr = none →
      (RTMPStartRelay listen newActiveStreamerServer r0).1.Success = true ∧
      (RTMPStartRelay listen newActiveStreamerServer r0).2.2.Local = some r0 ∧
      RTMPForward (RTMPStartRelay listen newActiveStreamerServer r0).2.2 r
        = .panic "assignment to entry in nil map") ∧
    (∀ m, a.Local ≠ none → a.Remotes = some m →
      ∃ m2, RTMPForward a r
          = .ret ({ Success := true, Message := some "Success" }, none,
              { a with Remotes := some m2 }) ∧
        mapGet m2 r.Addr = some r) := by
  refine ⟨?_, ?_, ?_⟩
  · intro h
    unfold RTMPForward
    rw [if_pos h]
  · intro h
    have hs : RTMPStartRelay listen newActiveStreamerServer r0
        = ({ Success := true, Message := some "Success" }, none,
            { newActiveStreamerServer with Local := some r0 }) := by
      unfold RTMPStartRelay
      rw [if_neg (by simp [newActiveStreamerServer]), h]
    rw [hs]
    exact ⟨rfl, rfl, rfl⟩
  · intro m hl hm
    refine ⟨mapSet m r.Addr r, ?_, mapGet_mapSet m r.Addr r⟩
    unfold RTMPForward
    rw [if_neg hl, hm]

/-- Witness for C21: the server of `ServerGRPC` answers a forward request
before any relay was started with `Success = false`; after `RTMPStartRelay`
opened `localhost:1935`, the forward request to `live.example:1935` fails on
the nil map. -/
theorem RTMPForward_nil_map_witness :
    RTMPForward newActiveStreamerServer remoteRelayHost
        = .ret ({ Success := false,
                  Message := some "unable to start rtmp relay, local server not running" },
            none, newActiveStreamerServer) ∧
      ((RTMPStartRelay portFree newActiveStreamerServer localRelayHost).1.Success = true ∧
        (RTMPStartRelay portFree newActiveStreamerServer localRelayHost).2.2.Local
          = some localRelayHost ∧
        RTMPForward (RTMPStartRelay portFree newActiveStreamerServer localRelayHost).2.2
            remoteRelayHost
          = .panic "assignment to entry in nil map") :=
  ⟨(RTMPForward_nil_map portFree newActiveStreamerServer localRelayHost remoteRelayHost).1 rfl,
    (RTMPForward_nil_map portFree newActiveStreamerServer localRelayHost remoteRelayHost).2.1
      rfl⟩


/-! ## Theorems: messages `Route` cannot handle -/

theorem bigEndianUint32_short (b : List Nat) (h : b.length < 4) : bigEndianUint32 b = none := by
  unfold bigEndianUint32
  rw [if_pos h]

theorem Route_SetChunkSize_short (p : Proto) (hs : Handlers) (dec : Decoder) (s : ServerConn)
    (x : ChunkStream) (hty : x.TypeID = p.SetChunkSizeMessageID) (hl : x.Data.length < 4) :
    Route p hs dec s x = .panic "index out of range" := by
  unfold Route
  rw [if_pos hty, bigEndianUint32_short x.Data hl]

theorem Route_WindowAcknowledgementSize_short (p : Proto) (hs : Handlers) (dec : Decoder)
    (s : ServerConn) (x : ChunkStream)
    (hty : x.TypeID = p.WindowAcknowledgementSizeMessageID) (hl : x.Data.length < 4) :
    Route p hs dec s x = .panic "index out of range" := by
  have hnd := p.ids_nodup
  simp only [List.nodup_cons, List.mem_cons, List.mem_singleton, List.not_mem_nil, or_false,
    not_or, List.nodup_nil, and_true, not_false_eq_true] at hnd
  obtain ⟨⟨-, -, a03, -⟩, ⟨-, a13, -⟩, ⟨a23, -⟩, -⟩ := hnd
  unfold Route
  rw [hty, if_neg (Ne.symm a03), if_neg (Ne.symm a13), if_neg (Ne.symm a23), if_pos rfl,
    bigEndianUint32_short x.Data hl]

theorem handleCommand_amf3_nil (p : Proto) (hs : Handlers) (dec : Decoder) (s : ServerConn)
    (x : ChunkStream) (hty : x.TypeID = p.CommandMessageAMF3ID) (hd : x.Data = []) :
    handleCommand p hs dec s x = .panic "slice bounds out of range [1:0]" := by
  unfold handleCommand
  rw [if_pos ⟨hty, hd⟩]

/-- Claim C23 (the code at the failing inputs): `Route` does not return for
every message. A SetChunkSize or WindowAcknowledgementSize message whose
payload is shorter than 4 bytes stops in `binary.BigEndian.Uint32` with an
index out of range; a data message on a session with no stream bound stops in
`s.stream.Write` with a nil dereference; an AMF3 command message with an empty
payload stops in the slice expression of `handleCommand`. -/
theorem Route_not_total (p : Proto) (hs : Handlers) (dec : Decoder) (s : ServerConn)
    (x : ChunkStream) :
    (x.TypeID = p.SetChunkSizeMessageID → x.Data.length < 4 →
      Route p hs dec s x = .panic "index out of range") ∧
    (x.TypeID = p.WindowAcknowledgementSizeMessageID → x.Data.length < 4 →
      Route p hs dec s x = .panic "index out of range") ∧
    (x.TypeID = p.DataMessageAMF0ID ∨ x.TypeID = p.DataMessageAMF3ID → s.stream = none →
      Route p hs dec s x = .panic "invalid memory address or nil pointer dereference") ∧
    (x.TypeID = p.CommandMessageAMF3ID → x.Data = [] →
      Route p hs dec s x = .panic "slice bounds out of range [1:0]") := by
  refine ⟨Route_SetChunkSize_short p hs dec s x, Route_WindowAcknowledgementSize_short p hs dec s x,
    ?_, ?_⟩
  · intro hty hst
    rw [Route_data p hs dec s x hty]
    unfold ServerConn.streamWrite
    rw [hst]
  · intro hty hd
    rw [Route_command p hs dec s x (Or.inr hty), handleCommand_amf3_nil p hs dec s x hty hd]

/-- Witness for C23: on a session right after accept, a SetChunkSize message
with a 3-byte payload, a WindowAcknowledgementSize message with the same
payload, an AMF0 data message and an AMF3 command message without payload each
stop `Route`. -/
theorem Route_not_total_witness :
    Route rtmpProto idleHandlers deleteStreamDecoder freshServerConn shortSetChunkSize
        = .panic "index out of range" ∧
      Route rtmpProto idleHandlers deleteStreamDecoder freshServerConn
          { shortSetChunkSize with TypeID := 5 } = .panic "index out of range" ∧
      Route rtmpProto idleHandlers deleteStreamDecoder freshServerConn amf0DataMessage
        = .panic "invalid memory address or nil pointer dereference" ∧
      Route rtmpProto idleHandlers deleteStreamDecoder freshServerConn emptyAmf3Command
        = .panic "slice bounds out of range [1:0]" :=
  ⟨(Route_not_total rtmpProto idleHandlers deleteStreamDecoder freshServerConn
      shortSetChunkSize).1 rfl (by decide),
    (Route_not_total rtmpProto idleHandlers deleteStreamDecoder freshServerConn
      { shortSetChunkSize with TypeID := 5 }).2.1 rfl (by decide),
    (Route_not_total rtmpProto idleHandlers deleteStreamDecoder freshServerConn
      amf0DataMessage).2.2.1 (Or.inl rfl) rfl,
    (Route_not_total rtmpProto idleHandlers deleteStreamDecoder freshServerConn
      emptyAmf3Command).2.2.2 rfl rfl⟩

/-! ## Theorems: the payload `handleCommand` decodes -/

/-- Claim C24: for an AMF3 command message with a non-empty payload the only
input of the decoder is the payload without its first byte and the version
AMF3, and a decoder error other than `io.EOF` is returned with the message
holding the shortened payload; for any other command message the only input
of the decoder is the whole payload and the version AMF0. For an AMF3 command
message with an empty payload `handleCommand` does not return an error: the
slice expression `x.Data[1:]` stops it. -/
theorem handleCommand_amf3_slice (p : Proto) (hs : Handlers) (dec : Decoder) (s : ServerConn)
    (x : ChunkStream) :
    (x.TypeID = p.CommandMessageAMF3ID → x.Data ≠ [] →
      (∀ dec2 : Decoder, dec2 (x.Data.drop 1) .AMF3 = dec (x.Data.drop 1) .AMF3 →
        handleCommand p hs dec2 s x = handleCommand p hs dec s x) ∧
      (∀ vs err, dec (x.Data.drop 1) .AMF3 = (vs, some err) → err ≠ GoError.EOF →
        handleCommand p hs dec s x = .ret (some err, s, { x with Data := x.Data.drop 1 }))) ∧
    (x.TypeID ≠ p.CommandMessageAMF3ID →
      (∀ dec2 : Decoder, dec2 x.Data .AMF0 = dec x.Data .AMF0 →
        handleCommand p hs dec2 s x = handleCommand p hs dec s x) ∧
      (∀ vs err, dec x.Data .AMF0 = (vs, some err) → err ≠ GoError.EOF →
        handleCommand p hs dec s x = .ret (some err, s, x))) ∧
    (x.TypeID = p.CommandMessageAMF3ID → x.Data = [] →
      handleCommand p hs dec s x = .panic "slice bounds out of range [1:0]") := by
  refine ⟨?_, ?_, handleCommand_amf3_nil p hs dec s x⟩
  · intro hty hne
    have hc : ¬ (x.TypeID = p.CommandMessageAMF3ID ∧ x.Data = []) := fun h => hne h.2
    refine ⟨?_, ?_⟩
    · intro dec2 h
      unfold handleCommand
      simp only [if_neg hc, if_pos hty]
      rw [h]
    · intro vs err h hne2
      unfold handleCommand
      simp only [if_neg hc, if_pos hty]
      rw [h]
      simp only []
      rw [if_pos ⟨by simp, by simpa using hne2⟩]
  · intro hty
    have hc : ¬ (x.TypeID = p.CommandMessageAMF3ID ∧ x.Data = []) := fun h => hty h.1
    refine ⟨?_, ?_⟩
    · intro dec2 h
      unfold handleCommand
      simp only [if_neg hc, if_neg hty]
      rw [h]
    · intro vs err h hne2
      unfold handleCommand
      simp only [if_neg hc, if_neg hty]
      rw [h]
      simp only []
      rw [if_pos ⟨by simp, by simpa using hne2⟩]

/-- Witness for C24: an AMF3 command with payload `[0, 2, 0, 12]` comes back
from a failing decoder with the payload `[2, 0, 12]`, an AMF0 command with its
payload as it was, and an AMF3 command without payload stops. -/
theorem handleCommand_amf3_slice_witness :
    handleCommand rtmpProto idleHandlers failingDecoder freshServerConn amf3Command
        = .ret (some (.other "decode amf0: unsupported type"), freshServerConn,
            { amf3Command with Data := [2, 0, 12] }) ∧
      handleCommand rtmpProto idleHandlers failingDecoder freshServerConn amf0Command
        = .ret (some (.other "decode amf0: unsupported type"), freshServerConn, amf0Command) ∧
      handleCommand rtmpProto idleHandlers failingDecoder freshServerConn emptyAmf3Command
        = .panic "slice bounds out of range [1:0]" :=
  ⟨((handleCommand_amf3_slice rtmpProto idleHandlers failingDecoder freshServerConn
      amf3Command).1 rfl (by decide)).2 _ _ rfl (by decide),
    ((handleCommand_amf3_slice rtmpProto idleHandlers failingDecoder freshServerConn
      amf0Command).2.1 (by decide)).2 _ _ rfl (by decide),
    (handleCommand_amf3_slice rtmpProto idleHandlers failingDecoder freshServerConn
      emptyAmf3Command).2.2 rfl rfl⟩


/-! ## Theorems: the stream URL parsed again -/

theorem toLower_char_cases (c : Char) :
    c.toLower = c ∨ ∃ n, 65 ≤ n ∧ n ≤ 90 ∧ c = Char.ofNat n := by
  by_cases h : c.toNat ≥ 65 ∧ c.toNat ≤ 90
  · exact Or.inr ⟨c.toNat, h.1, h.2, (Char.ofNat_toNat c).symm⟩
  · left
    unfold Char.toLower
    simp only []
    rw [if_neg h]

theorem toLower_char_idem (c : Char) : c.toLower.toLower = c.toLower := by
  rcases toLower_char_cases c with h | ⟨n, h1, h2, rfl⟩
  · rw [h, h]
  · interval_cases n <;> rfl

theorem isAlpha_toLower (c : Char) (h : isAlpha c = true) : isAlpha c.toLower = true := by
  rcases toLower_char_cases c with e | ⟨n, h1, h2, rfl⟩
  · rw [e]; exact h
  · interval_cases n <;> rfl

theorem isSchemeChar_toLower (c : Char) (h : isSchemeChar c = true) :
    isSchemeChar c.toLower = true := by
  rcases toLower_char_cases c with e | ⟨n, h1, h2, rfl⟩
  · rw [e]; exact h
  · interval_cases n <;> rfl

theorem toLower_idem (s : Str) : toLower (toLower s) = toLower s := by
  unfold toLower
  rw [List.map_map]
  apply List.map_congr_left
  intro c _
  exact toLower_char_idem c

theorem getSchemeLoop_some (raw : Str) : ∀ (s : Str) (atStart : Bool) (acc sch rest : Str),
    getSchemeLoop raw atStart acc s = some (sch, rest) → sch ≠ [] →
    ∃ pre, sch = acc.reverse ++ pre ∧ (∀ c ∈ pre, isSchemeChar c = true) ∧
      (atStart = true → ∃ c pre2, pre = c :: pre2 ∧ isAlpha c = true) := by
  intro s
  induction s with
  | nil =>
    intro atStart acc sch rest h hne
    simp only [getSchemeLoop, Option.some.injEq, Prod.mk.injEq] at h
    exact absurd h.1.symm hne
  | cons c s ih =>
    intro atStart acc sch rest h hne
    unfold getSchemeLoop at h
    split_ifs at h with h1 h2 h3 h4 h5
    · obtain ⟨pre, e, hall, -⟩ := ih false (c :: acc) sch rest h hne
      refine ⟨c :: pre, by simpa using e, ?_, fun _ => ⟨c, pre, rfl, h1⟩⟩
      intro x hx
      rcases List.mem_cons.1 hx with e2 | hx
      · rw [e2]; simp [isSchemeChar, h1]
      · exact hall x hx
    · simp only [Option.some.injEq, Prod.mk.injEq] at h
      exact absurd h.1.symm hne
    · obtain ⟨pre, e, hall, -⟩ := ih false (c :: acc) sch rest h hne
      refine ⟨c :: pre, by simpa using e, ?_, fun e3 => absurd e3 h3⟩
      intro x hx
      rcases List.mem_cons.1 hx with e2 | hx
      · rw [e2]
        simp only [isSchemeChar, Bool.or_eq_true, decide_eq_true_eq] at h2 ⊢
        tauto
      · exact hall x hx
    · simp only [Option.some.injEq, Prod.mk.injEq] at h
      refine ⟨[], ?_, fun x hx => (by cases hx), fun e3 => absurd e3 h5⟩
      rw [List.append_nil]
      exact h.1.symm
    · simp only [Option.some.injEq, Prod.mk.injEq] at h
      exact absurd h.1.symm hne

theorem getScheme_some (raw sch rest : Str) (h : getScheme raw = some (sch, rest))
    (hne : sch ≠ []) :
    ∃ c s, sch = c :: s ∧ isAlpha c = true ∧ ∀ x ∈ s, isSchemeChar x = true := by
  obtain ⟨pre, e, hall, hfirst⟩ := getSchemeLoop_some raw raw true [] sch rest h hne
  obtain ⟨c, pre2, e2, hc⟩ := hfirst rfl
  refine ⟨c, pre2, by simpa [e2] using e, hc, fun x hx => hall x ?_⟩
  rw [e2]
  exact List.mem_cons_of_mem c hx

theorem getSchemeLoop_schemeChars (raw : Str) (s : Str)
    (hs : ∀ c ∈ s, isSchemeChar c = true) :
    ∀ (acc t : Str),
      getSchemeLoop raw false acc (s ++ ':' :: t) = some (acc.reverse ++ s, t) := by
  induction s with
  | nil =>
    intro acc t
    have h1 : isAlpha ':' = false := by decide
    have h2 : isDigit ':' = false := by decide
    simp [getSchemeLoop, h1, h2]
  | cons c s ih =>
    intro acc t
    have hc : isSchemeChar c = true := hs c (by simp)
    have hs2 : ∀ x ∈ s, isSchemeChar x = true := fun x hx => hs x (by simp [hx])
    rw [List.cons_append]
    unfold getSchemeLoop
    by_cases ha : isAlpha c = true
    · rw [if_pos ha, ih hs2 (c :: acc) t]
      simp
    · have hd : (isDigit c || decide (c = '+') || decide (c = '-') || decide (c = '.')) = true := by
        simp only [isSchemeChar, Bool.or_eq_true, decide_eq_true_eq] at hc ⊢
        tauto
      rw [if_neg ha, if_pos hd, if_neg (by simp), ih hs2 (c :: acc) t]
      simp

theorem getScheme_schemeChars (c : Char) (s t : Str) (hc : isAlpha c = true)
    (hs : ∀ x ∈ s, isSchemeChar x = true) :
    getScheme (c :: s ++ ':' :: t) = some (c :: s, t) := by
  unfold getScheme
  rw [List.cons_append]
  unfold getSchemeLoop
  rw [if_pos hc, getSchemeLoop_schemeChars _ s hs [c] t]
  rfl

theorem urlParse_valid_scheme (c : Char) (s t v : Str) (hc : isAlpha c = true)
    (hs : ∀ x ∈ s, isSchemeChar x = true) (hfix : toLower (c :: s) = c :: s)
    (hp : urlParse (c :: s ++ ':' :: t) = .ok v) : v = c :: s := by
  have hhash : '#' ∉ c :: s := by
    intro hm
    rcases List.mem_cons.1 hm with e | hm
    · rw [← e] at hc
      exact absurd hc (by decide)
    · exact absurd (hs '#' hm) (by decide)
  have hcut : (cut '#' (c :: s ++ ':' :: t)).1 = c :: s ++ ':' :: (cut '#' t).1 := by
    rw [cut_fst_append '#' (c :: s) _ hhash, cut_fst_cons_ne '#' ':' _ (by decide)]
  have hpar := urlParse_ok_parse _ _ hp
  rw [hcut] at hpar
  have hget := getScheme_schemeChars c s (cut '#' t).1 hc hs
  have hstar : c :: s ++ ':' :: (cut '#' t).1 ≠ ['*'] := by
    intro e
    have hl := congrArg List.length e
    simp at hl
  rw [parse_ok_scheme _ _ _ _ hget hstar hpar, hfix]

theorem urlParse_scheme_again (raw u t v : Str) (hp : urlParse raw = .ok u) (hne : u ≠ [])
    (hp2 : urlParse (u ++ ':' :: t) = .ok v) : v = u := by
  have hpar := urlParse_ok_parse _ _ hp
  have hu : ∃ s0 r0, getScheme (cut '#' raw).1 = some (s0, r0) ∧ u = toLower s0 := by
    unfold parse at hpar
    split_ifs at hpar with h1 h2
    · injection hpar with e
      exact absurd e.symm hne
    · cases hget : getScheme (cut '#' raw).1 with
      | none => rw [hget] at hpar; cases hpar
      | some sr =>
        obtain ⟨s0, r0⟩ := sr
        rw [hget] at hpar
        simp only [] at hpar
        refine ⟨s0, r0, rfl, ?_⟩
        split_ifs at hpar <;> (injection hpar with e; exact e.symm)
  obtain ⟨s0, r0, hget, hus⟩ := hu
  have hs0 : s0 ≠ [] := by
    intro e
    rw [e] at hus
    exact hne hus
  obtain ⟨c, s, e, hc, hs⟩ := getScheme_some _ _ _ hget hs0
  have hform : u = c.toLower :: toLower s := by
    rw [hus, e]
    rfl
  have hfix : toLower (c.toLower :: toLower s) = c.toLower :: toLower s := by
    rw [← hform, hus, toLower_idem]
  rw [hform] at hp2 ⊢
  refine urlParse_valid_scheme c.toLower (toLower s) t v (isAlpha_toLower c hc) ?_ hfix hp2
  intro x hx
  unfold toLower at hx
  rw [List.mem_map] at hx
  obtain ⟨y, hy, rfl⟩ := hx
  exact isSchemeChar_toLower y (hs y hy)


theorem split_sep_not_mem (sep : Char) : ∀ (s x : Str), x ∈ split sep s → sep ∉ x := by
  intro s
  induction s with
  | nil =>
    intro x hx
    simp only [split, List.mem_singleton] at hx
    rw [hx]
    exact List.not_mem_nil sep
  | cons c s ih =>
    intro x hx
    unfold split at hx
    by_cases hc : c = sep
    · rw [if_pos hc] at hx
      rcases List.mem_cons.1 hx with e | hx
      · rw [e]
        exact List.not_mem_nil sep
      · exact ih x hx
    · rw [if_neg hc] at hx
      cases hsp : split sep s with
      | nil =>
        rw [hsp] at hx
        simp only [List.mem_singleton] at hx
        rw [hx]
        intro hm
        rcases List.mem_cons.1 hm with e | hm
        · exact hc e.symm
        · cases hm
      | cons p ps =>
        rw [hsp] at hx ih
        simp only [] at hx
        rcases List.mem_cons.1 hx with e | hx
        · rw [e]
          intro hm
          rcases List.mem_cons.1 hm with e2 | hm
          · exact hc e2.symm
          · exact ih p (List.mem_cons_self p ps) hm
        · exact ih x (List.mem_cons_of_mem p hx)

theorem split_subset (sep : Char) : ∀ (s x : Str), x ∈ split sep s → ∀ c ∈ x, c ∈ s := by
  intro s
  induction s with
  | nil =>
    intro x hx c hcx
    simp only [split, List.mem_singleton] at hx
    rw [hx] at hcx
    cases hcx
  | cons a s ih =>
    intro x hx c hcx
    unfold split at hx
    by_cases hc : a = sep
    · rw [if_pos hc] at hx
      rcases List.mem_cons.1 hx with e | hx
      · rw [e] at hcx
        cases hcx
      · exact List.mem_cons_of_mem a (ih x hx c hcx)
    · rw [if_neg hc] at hx
      cases hsp : split sep s with
      | nil =>
        rw [hsp] at hx
        simp only [List.mem_singleton] at hx
        rw [hx] at hcx
        rcases List.mem_cons.1 hcx with e | hm
        · rw [e]
          exact List.mem_cons_self a s
        · cases hm
      | cons p ps =>
        rw [hsp] at hx ih
        simp only [] at hx
        rcases List.mem_cons.1 hx with e | hx
        · rw [e] at hcx
          rcases List.mem_cons.1 hcx with e2 | hm
          · rw [e2]
            exact List.mem_cons_self a s
          · exact List.mem_cons_of_mem a (ih p (List.mem_cons_self p ps) c hm)
        · exact List.mem_cons_of_mem a (ih x (List.mem_cons_of_mem p hx) c hcx)

theorem not_mem_of_not_contains (sep : Char) (s : Str) (h : contains s [sep] = false) :
    sep ∉ s := by
  intro hm
  have hsp := split_of_not_contains sep s h
  have hx := split_sep_not_mem sep s s (by rw [hsp]; exact List.mem_singleton_self s)
  exact hx hm

theorem splitPath_no_slash (d : Defaults) (hH : '/' ∉ d.DefaultLocalHost)
    (hP : '/' ∉ d.DefaultLocalPort) (path h a k : Str)
    (hsp : splitPath d path = some (h, a, k)) : '/' ∉ h ∧ '/' ∉ a ∧ '/' ∉ k := by
  have hnil : '/' ∉ ([] : Str) := List.not_mem_nil _
  unfold splitPath at hsp
  by_cases hc : contains path ['/'] = true
  · rw [if_pos hc] at hsp
    have hall := split_sep_not_mem '/' path
    generalize split '/' path = l at hsp hall
    rcases l with _ | ⟨x, _ | ⟨y, _ | ⟨z, _ | ⟨w, l⟩⟩⟩⟩
    · simp only [Option.some.injEq, Prod.mk.injEq] at hsp
      obtain ⟨rfl, rfl, rfl⟩ := hsp
      exact ⟨hnil, hnil, hnil⟩
    · simp only [Option.some.injEq, Prod.mk.injEq] at hsp
      obtain ⟨rfl, rfl, rfl⟩ := hsp
      exact ⟨hall _ (by simp), hnil, hnil⟩
    · simp only [Option.some.injEq, Prod.mk.injEq] at hsp
      obtain ⟨rfl, rfl, rfl⟩ := hsp
      exact ⟨hall _ (by simp), hall _ (by simp), hnil⟩
    · simp only [Option.some.injEq, Prod.mk.injEq] at hsp
      obtain ⟨rfl, rfl, rfl⟩ := hsp
      exact ⟨hall _ (by simp), hall _ (by simp), hall _ (by simp)⟩
    · cases hsp
  · rw [if_neg hc] at hsp
    have hpath : '/' ∉ path := not_mem_of_not_contains '/' path (by simpa using hc)
    by_cases hcol : contains path [':'] = true
    · rw [if_pos hcol] at hsp
      have hsub := split_subset ':' path
      generalize split ':' path = l at hsp hsub
      rcases l with _ | ⟨x, _ | ⟨y, _ | ⟨z, l⟩⟩⟩
      · simp only [Option.some.injEq, Prod.mk.injEq] at hsp
        obtain ⟨rfl, rfl, rfl⟩ := hsp
        exact ⟨hnil, hnil, hnil⟩
      · simp only [Option.some.injEq, Prod.mk.injEq] at hsp
        obtain ⟨rfl, rfl, rfl⟩ := hsp
        exact ⟨hnil, hnil, hnil⟩
      · simp only [Option.some.injEq, Prod.mk.injEq] at hsp
        obtain ⟨rfl, rfl, rfl⟩ := hsp
        have hx : '/' ∉ x := fun hm => hpath (hsub x (by simp) _ hm)
        have hy : '/' ∉ y := fun hm => hpath (hsub y (by simp) _ hm)
        refine ⟨?_, hnil, hnil⟩
        intro hm
        simp only [List.mem_append, List.mem_singleton] at hm
        rcases hm with (hm | hm) | hm
        · split_ifs at hm
          · exact hP hm
          · exact hH hm
          · exact hx hm
        · exact absurd hm (by decide)
        · exact hy hm
      · simp only [Option.some.injEq, Prod.mk.injEq] at hsp
        obtain ⟨rfl, rfl, rfl⟩ := hsp
        exact ⟨hnil, hnil, hnil⟩
    · rw [if_neg hcol] at hsp
      simp only [Option.some.injEq, Prod.mk.injEq] at hsp
      obtain ⟨rfl, rfl, rfl⟩ := hsp
      exact ⟨hnil, hnil, hnil⟩

theorem generateKey_plain (d : Defaults) (rnd : Nat → Nat)
    (hne : d.DefaultGenerateKeyPrefix ≠ []) (hp : '/' ∉ d.DefaultGenerateKeyPrefix)
    (hpool : '/' ∉ d.letterBytePool) : generateKey d rnd ≠ [] ∧ '/' ∉ generateKey d rnd := by
  obtain ⟨body, e, -, hb⟩ := generateKey_shape d rnd
  rw [e]
  refine ⟨?_, ?_⟩
  · intro h
    exact hne (List.append_eq_nil.1 h).1
  · intro hm
    rcases List.mem_append.1 hm with hm | hm
    · exact hp hm
    · exact hpool (hb _ hm)

theorem NewAddr_ok_parts (d : Defaults) (rnd : Nat → Nat) (raw : Str) (addr : Addr)
    (hok : NewAddr d rnd raw = .ok addr) :
    ∃ u ho ap k, urlParse raw = .ok u ∧
      splitPath d (replaceFirst ((if u.length = 4 then u else []) ++ [':', '/', '/']) [] raw)
        = some (ho, ap, k) ∧
      addr.scheme = (if (if u.length = 4 then u else []) = [] then d.DefaultScheme
        else (if u.length = 4 then u else [])) ∧
      addr.host = (if ho = [] then d.DefaultLocalHost ++ [':'] ++ d.DefaultLocalPort else ho) ∧
      addr.app = (if ap = [] then d.DefaultRTMPApp else ap) ∧
      addr.key = (if k = [] then generateKey d rnd else k) := by
  unfold NewAddr at hok
  cases hp : urlParse raw with
  | error e => rw [hp] at hok; cases hok
  | ok u =>
    rw [hp] at hok
    simp only [] at hok
    cases hsp : splitPath d (replaceFirst ((if u.length = 4 then u else []) ++ [':', '/', '/'])
        [] raw) with
    | none => rw [hsp] at hok; cases hok
    | some t =>
      obtain ⟨ho, ap, k⟩ := t
      rw [hsp] at hok
      injection hok with hok
      subst hok
      exact ⟨u, ho, ap, k, rfl, hsp, rfl, rfl, rfl, rfl⟩

theorem NewAddr_of_parts (d : Defaults) (rnd : Nat → Nat) (s h a k : Str)
    (hlen : s.length = 4) (hparse : urlParse (fullURL s h a k) = .ok s)
    (hh : h ≠ [] ∧ '/' ∉ h) (ha : a ≠ [] ∧ '/' ∉ a) (hk : k ≠ [] ∧ '/' ∉ k) :
    NewAddr d rnd (fullURL s h a k)
      = .ok { raw := fullURL s h a k, scheme := s, host := h, app := a, key := k } := by
  have hne : s ≠ [] := by
    intro e; rw [e] at hlen; exact absurd hlen (by decide)
  have hpath : replaceFirst (s ++ [':', '/', '/']) [] (fullURL s h a k)
      = h ++ ['/'] ++ a ++ ['/'] ++ k := by
    have e : fullURL s h a k = (s ++ [':', '/', '/']) ++ (h ++ ['/'] ++ a ++ ['/'] ++ k) := by
      simp [fullURL]
    rw [e]
    exact replaceFirst_prefix _ _ (by simp)
  unfold NewAddr
  rw [hparse]
  simp only [hlen, if_true]
  rw [hpath, splitPath_three d h a k hh.2 ha.2 hk.2]
  simp [hne, hh.1, ha.1, hk.1]


/-- Claim C22 (amended): with package constants free of `/` (default scheme of
four lower-case letters, default app and key prefix not empty), for every raw
string `NewAddr` accepts as `a` and whose `a.StreamURL()` is accepted by
`url.Parse`, `NewAddr(a.StreamURL())` succeeds with the same `Scheme()`,
`Host()`, `App()` and `Key()` as `a`, a generated key included, and with the
same `StreamURL()`. -/
theorem NewAddr_StreamURL_again (d : Defaults) (rnd rnd2 : Nat → Nat) (raw : Str) (a : Addr)
    (hd : d.plain) (hok : NewAddr d rnd raw = .ok a)
    (hparse : ∃ u, urlParse a.StreamURL = .ok u) :
    ∃ b, NewAddr d rnd2 a.StreamURL = .ok b ∧ b.Scheme = a.Scheme ∧ b.Host = a.Host ∧
      b.App = a.App ∧ b.Key = a.Key ∧ b.StreamURL = a.StreamURL := by
  obtain ⟨hsl, hslow, hH, hP, hane, ha, hkne, hk, hpool⟩ := hd
  obtain ⟨u, ho, ap, k, hu, hsp, es, eh, ea, ek⟩ := NewAddr_ok_parts d rnd raw a hok
  obtain ⟨h1, h2, h3⟩ := splitPath_no_slash d hH hP _ ho ap k hsp
  have hhost : a.host ≠ [] ∧ '/' ∉ a.host := by
    rw [eh]
    split_ifs with h
    · refine ⟨by simp, ?_⟩
      intro hm
      simp only [List.mem_append, List.mem_singleton] at hm
      rcases hm with (hm | hm) | hm
      · exact hH hm
      · exact absurd hm (by decide)
      · exact hP hm
    · exact ⟨h, h1⟩
  have happ : a.app ≠ [] ∧ '/' ∉ a.app := by
    rw [ea]
    split_ifs with h
    · exact ⟨hane, ha⟩
    · exact ⟨h, h2⟩
  have hkey : a.key ≠ [] ∧ '/' ∉ a.key := by
    rw [ek]
    split_ifs with h
    · exact generateKey_plain d rnd hkne hk hpool
    · exact ⟨h, h3⟩
  have hscheme : a.scheme.length = 4 ∧
      ∀ t v, urlParse (a.scheme ++ ':' :: t) = .ok v → v = a.scheme := by
    by_cases hl : u.length = 4
    · have hne : u ≠ [] := by
        intro e; rw [e] at hl; exact absurd hl (by decide)
      have e : a.scheme = u := by
        rw [es, if_pos hl, if_neg hne]
      rw [e]
      exact ⟨hl, fun t v hp2 => urlParse_scheme_again raw u t v hu hne hp2⟩
    · have e : a.scheme = d.DefaultScheme := by
        rw [es, if_neg hl, if_pos rfl]
      have hne : d.DefaultScheme ≠ [] := by
        intro e2; rw [e2] at hsl; exact absurd hsl (by decide)
      rw [e]
      exact ⟨hsl, fun t v hp2 => urlParse_scheme_prefix d.DefaultScheme t v hne hslow hp2⟩
  have hurl : a.StreamURL = fullURL a.scheme a.host a.app a.key := rfl
  have hcolon : a.StreamURL
      = a.scheme ++ ':' :: ('/' :: '/' :: (a.host ++ ['/'] ++ a.app ++ ['/'] ++ a.key)) := by
    simp [Addr.StreamURL]
  obtain ⟨v, hv⟩ := hparse
  have hvs : v = a.scheme := by
    rw [hcolon] at hv
    exact hscheme.2 _ v hv
  rw [hvs, hurl] at hv
  refine ⟨{ raw := fullURL a.scheme a.host a.app a.key, scheme := a.scheme, host := a.host,
            app := a.app, key := a.key }, ?_, rfl, rfl, rfl, rfl, rfl⟩
  rw [hurl]
  exact NewAddr_of_parts d rnd2 a.scheme a.host a.app a.key hscheme.1 hv hhost happ hkey

/-- Witness for C22: `localhost:1935` is accepted with a generated key, and its
stream URL `rtmp://localhost:1935/twinx/twinx_aaaaaaaaaaaaaaaaaaaa` parses to
the same scheme, host, app and key under another random source. -/
theorem NewAddr_StreamURL_again_witness :
    NewAddr stdDefaults (fun _ => 0) "localhost:1935".toList = .ok localAddr ∧
      ∃ b, NewAddr stdDefaults (fun i => i) localAddr.StreamURL = .ok b ∧
        b.Scheme = localAddr.Scheme ∧ b.Host = localAddr.Host ∧ b.App = localAddr.App ∧
        b.Key = localAddr.Key ∧ b.StreamURL = localAddr.StreamURL :=
  ⟨by rfl,
    NewAddr_StreamURL_again stdDefaults (fun _ => 0) (fun i => i) "localhost:1935".toList
      localAddr (by unfold Defaults.plain; decide) (by rfl) ⟨"rtmp".toList, by rfl⟩⟩

/-- Counterexample for C22 as stated: `example:port/app/key` is accepted, with
host `example:port`; its stream URL `rtmp://example:port/app/key` is rejected
by `url.Parse` for the port that is not a number, so parsing it again returns
an error. -/
theorem NewAddr_StreamURL_counterexample :
    NewAddr stdDefaults (fun _ => 0) "example:port/app/key".toList = .ok namedPortAddr ∧
      namedPortAddr.StreamURL = "rtmp://example:port/app/key".toList ∧
      ∀ rnd2, ∃ e, NewAddr stdDefaults rnd2 namedPortAddr.StreamURL = .error e :=
  ⟨by rfl, by rfl, fun _ => ⟨_, by rfl⟩⟩

/-! ## Theorems: more than three segments -/

theorem claimedPathPart_scheme (s rest : Str) (hne : s ≠ [])
    (hlow : ∀ c ∈ s, 'a' ≤ c ∧ c ≤ 'z') :
    claimedPathPart (s ++ [':', '/', '/'] ++ rest) = rest := by
  have e : s ++ [':', '/', '/'] ++ rest = s ++ ':' :: ('/' :: '/' :: rest) := by simp
  rw [e]
  unfold claimedPathPart
  rw [getScheme_alpha s _ (fun c hc => isAlpha_of_lower c (hlow c hc)) hne]
  simp only []
  rw [if_pos ⟨hne, hasPrefix_append ['/', '/'] rest⟩]
  rfl

/-- Claim C2 (amended): for every raw string whose `path` variable in
`NewAddr` (raw with the first occurrence of `scheme://` removed, `scheme` being
the four-letter scheme `url.Parse` reports, or empty) splits on `/` into more
than three segments, `NewAddr` returns an error and no address. This covers
every raw string `s://rest` with `s` of four lower-case letters whose `rest`,
the path part in the words of the claim, has more than three segments. -/
theorem NewAddr_too_many_segments (d : Defaults) (rnd : Nat → Nat) (raw : Str) :
    (3 < (split '/' (pathOf raw)).length → ∃ e, NewAddr d rnd raw = .error e) ∧
      (∀ s rest : Str, s.length = 4 → (∀ c ∈ s, 'a' ≤ c ∧ c ≤ 'z') →
        raw = s ++ [':', '/', '/'] ++ rest → 3 < (split '/' rest).length →
        claimedPathPart raw = rest ∧ ∃ e, NewAddr d rnd raw = .error e) := by
  refine ⟨NewAddr_pathOf_many d rnd raw, ?_⟩
  intro s rest hlen hlow hraw hseg
  have hne : s ≠ [] := by
    intro e; rw [e] at hlen; exact absurd hlen (by decide)
  rw [hraw]
  refine ⟨claimedPathPart_scheme s rest hne hlow, ?_⟩
  unfold NewAddr
  cases hp : urlParse (s ++ [':', '/', '/'] ++ rest) with
  | error e => exact ⟨_, rfl⟩
  | ok u =>
    have hus : u = s := by
      have e : s ++ [':', '/', '/'] ++ rest = s ++ ':' :: ('/' :: '/' :: rest) := by simp
      rw [e] at hp
      exact urlParse_scheme_prefix s _ u hne hlow hp
    rw [hus]
    simp only [hlen, if_true]
    rw [ replaceFirst_prefix _ _ (by simp), splitPath_many d _ hseg]
    exact ⟨_, rfl⟩

/-- Witness for C2: `rtmp://host:1935/app/key/extra` has the four-segment path
`host:1935/app/key/extra`, under both readings of the path, and is
rejected. -/
theorem NewAddr_too_many_segments_witness :
    (3 < (split '/' (pathOf "rtmp://host:1935/app/key/extra".toList)).length ∧
        ∃ e, NewAddr stdDefaults (fun _ => 0) "rtmp://host:1935/app/key/extra".toList
          = .error e) ∧
      (claimedPathPart "rtmp://host:1935/app/key/extra".toList
          = "host:1935/app/key/extra".toList ∧
        ∃ e, NewAddr stdDefaults (fun _ => 0) "rtmp://host:1935/app/key/extra".toList
          = .error e) :=
  ⟨⟨by decide, (NewAddr_too_many_segments stdDefaults (fun _ => 0)
      "rtmp://host:1935/app/key/extra".toList).1 (by decide)⟩,
    (NewAddr_too_many_segments stdDefaults (fun _ => 0)
      "rtmp://host:1935/app/key/extra".toList).2 "rtmp".toList
      "host:1935/app/key/extra".toList (by decide) (by decide) (by decide) (by decide)⟩

/-- Counterexample for C2 as stated: `a/b://c` has no leading scheme, so its
path part in the words of the claim is the whole text, with the four segments
`a`, `b:`, empty and `c`. The code removes the `://` in the middle, its `path`
is `a/bc`, and `NewAddr` succeeds with host `a` and app `bc`. -/
theorem NewAddr_too_many_segments_counterexample :
    claimedPathPart "a/b://c".toList = "a/b://c".toList ∧
      split '/' (claimedPathPart "a/b://c".toList)
        = ["a".toList, "b:".toList, [], "c".toList] ∧
      pathOf "a/b://c".toList = "a/bc".toList ∧
      ∃ addr, NewAddr stdDefaults (fun _ => 0) "a/b://c".toList = .ok addr ∧
        addr.Host = "a".toList ∧ addr.App = "bc".toList :=
  ⟨by rfl, by rfl, by rfl,
    ⟨{ raw := "a/b://c".toList, scheme := "rtmp".toList, host := "a".toList,
       app := "bc".toList, key := generateKey stdDefaults (fun _ => 0) }, by rfl, rfl, rfl⟩⟩

end Twinx
